import Mathlib

/-!
# Radial distance integrator (`lalinference/src/distance_integrator.c`)

A shallow embedding of the marginalised radial-distance likelihood integrator
and proofs of properties of its specification.

## Number model

A C `double` is modelled by `Dbl α`: a finite value taken from a linearly
ordered field `α` (exact arithmetic, no rounding, no overflow), or one of the
IEEE special values `+∞`, `-∞`, `NaN`.  Zero is unsigned and behaves as `+0`.
Comparisons follow C: every ordered comparison with `NaN` is false and `NaN`
is different from everything, itself included.

Where rounding decides a statement (the coordinates of the grid), the same
source lines are also given in binary64 arithmetic over `Dbl ℚ`: `binary64`
rounds a rational to the nearest double, ties to even, and `Dbl.add64`,
`Dbl.sub64`, `Dbl.mul64`, `Dbl.div64` are the exact operations followed by that
rounding (`grid_binary64`, `cell_coordinates_binary64`, `eval_path_binary64`).
Each operation is rounded on its own; a fused multiply-add is not modelled.

`int` is modelled by `Int` (the only arithmetic on it, `k + 1`, is undefined
in C when it overflows) and `size_t` by `Nat` reduced modulo `2^64`.

The external libraries (libm, GSL, the cubic interpolation module, the
interruption flag, the allocator) are not part of the sources; they appear as
the fields of `Env` and as the inputs `Allocs` (allocation outcomes) and
`sig` (the time of the interruption signal).
-/

namespace DistanceIntegrator

/-- Value of a C `double`: finite over the field `α`, or an IEEE special value. -/
inductive Dbl (α : Type) where
  | fin (x : α)
  | pinf
  | ninf
  | nan
  deriving DecidableEq

namespace Dbl

variable {α : Type} [LinearOrderedField α]

/-- Unary minus. -/
def neg : Dbl α → Dbl α
  | fin x => fin (-x)
  | pinf => ninf
  | ninf => pinf
  | nan => nan

/-- Addition: `∞ + (-∞)` is `NaN`, `NaN` is absorbing. -/
def add : Dbl α → Dbl α → Dbl α
  | fin a, fin b => fin (a + b)
  | fin _, pinf => pinf
  | fin _, ninf => ninf
  | pinf, fin _ => pinf
  | pinf, pinf => pinf
  | pinf, ninf => nan
  | ninf, fin _ => ninf
  | ninf, pinf => nan
  | ninf, ninf => ninf
  | nan, _ => nan
  | _, nan => nan

/-- Subtraction. -/
def sub (a b : Dbl α) : Dbl α := add a (neg b)

/-- Product of an infinity of sign `pos` with the finite value `a`. -/
def infMul (pos : Bool) (a : α) : Dbl α :=
  if a = 0 then nan else if (0 < a) = pos then pinf else ninf

/-- Multiplication: `0 * ∞` is `NaN`. -/
def mul : Dbl α → Dbl α → Dbl α
  | fin a, fin b => fin (a * b)
  | fin a, pinf => infMul true a
  | fin a, ninf => infMul false a
  | pinf, fin b => infMul true b
  | ninf, fin b => infMul false b
  | pinf, pinf => pinf
  | pinf, ninf => ninf
  | ninf, pinf => ninf
  | ninf, ninf => pinf
  | nan, _ => nan
  | _, nan => nan

/-- Division: `0 / 0` and `∞ / ∞` are `NaN`, `x / 0` is an infinity of the sign of `x`. -/
def div : Dbl α → Dbl α → Dbl α
  | fin a, fin b =>
      if b = 0 then (if a = 0 then nan else if 0 < a then pinf else ninf) else fin (a / b)
  | fin _, pinf => fin 0
  | fin _, ninf => fin 0
  | pinf, fin b => if 0 ≤ b then pinf else ninf
  | ninf, fin b => if 0 ≤ b then ninf else pinf
  | pinf, pinf => nan
  | pinf, ninf => nan
  | ninf, pinf => nan
  | ninf, ninf => nan
  | nan, _ => nan
  | _, nan => nan

instance : Neg (Dbl α) := ⟨neg⟩
instance : Add (Dbl α) := ⟨add⟩
instance : Sub (Dbl α) := ⟨sub⟩
instance : Mul (Dbl α) := ⟨mul⟩
instance : Div (Dbl α) := ⟨div⟩

/-- C `a <= b`. -/
def le : Dbl α → Dbl α → Bool
  | fin a, fin b => decide (a ≤ b)
  | fin _, pinf => true
  | fin _, ninf => false
  | pinf, pinf => true
  | pinf, _ => false
  | ninf, nan => false
  | ninf, _ => true
  | nan, _ => false
  | fin _, nan => false

/-- C `a < b`. -/
def lt : Dbl α → Dbl α → Bool
  | fin a, fin b => decide (a < b)
  | fin _, pinf => true
  | fin _, ninf => false
  | pinf, _ => false
  | ninf, fin _ => true
  | ninf, pinf => true
  | ninf, ninf => false
  | ninf, nan => false
  | nan, _ => false
  | fin _, nan => false

/-- C `a >= b`. -/
def ge (a b : Dbl α) : Bool := le b a

/-- C `a > b`. -/
def gt (a b : Dbl α) : Bool := lt b a

/-- C `a == b`. -/
def eq : Dbl α → Dbl α → Bool
  | fin a, fin b => decide (a = b)
  | pinf, pinf => true
  | ninf, ninf => true
  | _, _ => false

/-- C `a != b`. -/
def ne (a b : Dbl α) : Bool := !(eq a b)

/-- Conversion of a C integer to `double`. -/
def ofInt (n : Int) : Dbl α := fin (n : α)

/-- Conversion of a `size_t` to `double`. -/
def ofNat (n : Nat) : Dbl α := fin (n : α)

/-- The value is finite. -/
def isFin : Dbl α → Bool
  | fin _ => true
  | _ => false

/-- GSL `gsl_pow_2`. -/
def gsl_pow_2 (x : Dbl α) : Dbl α := x * x

/-- GSL `gsl_pow_uint`: the `n`-fold product. -/
def gsl_pow_uint (x : Dbl α) : Nat → Dbl α
  | 0 => fin 1
  | n + 1 => gsl_pow_uint x n * x

/-- GSL `gsl_pow_int`: a negative exponent inverts the base first. -/
def gsl_pow_int (x : Dbl α) (n : Int) : Dbl α :=
  if n < 0 then gsl_pow_uint (fin 1 / x) (-n).toNat else gsl_pow_uint x n.toNat

/-- GSL `GSL_MIN_DBL(a, b)`, the macro `a < b ? a : b`. -/
def GSL_MIN_DBL (a b : Dbl α) : Dbl α := if lt a b then a else b

end Dbl

/-- GSL status codes seen by the integrator. -/
inductive GslStatus where
  | GSL_SUCCESS
  | GSL_EUNDRFLW
  | GSL_EROUND
  | GSL_EMAXITER
  | other (code : Nat)
  deriving DecidableEq

/-- XLAL error numbers raised by the integrator. -/
inductive XlalErrno where
  | XLAL_ENOMEM
  | XLAL_EFUNC
  deriving DecidableEq

/-- Ways in which a call does not return to its caller. -/
inductive Fault where
  | assertion
  | exit (code : Nat)
  | fuel
  deriving DecidableEq

/-- Modelled from the spec: the cubic interpolation table built by `cubic_interp_init`
(CubicSurface), `n` samples over `[tmin, tmin + (n-1) dt]`. -/
structure cubic_interp (α : Type) where
  data : Nat → Dbl α
  n : Nat
  tmin : Dbl α
  dt : Dbl α

/-- Modelled from the spec: the bicubic interpolation table built by `bicubic_interp_init`
(BicubicSurface), `ns × nt` samples stored row-major, origin `(smin, tmin)`, steps `ds`, `dt`. -/
structure bicubic_interp (α : Type) where
  data : Nat → Dbl α
  ns : Nat
  nt : Nat
  smin : Dbl α
  tmin : Dbl α
  ds : Dbl α
  dt : Dbl α

/-- The struct `log_radial_integrator`. -/
structure log_radial_integrator (α : Type) where
  region0 : bicubic_interp α
  region1 : cubic_interp α
  region2 : cubic_interp α
  xmax : Dbl α
  ymax : Dbl α
  vmax : Dbl α
  r1 : Dbl α
  r2 : Dbl α
  k : Int

/-- The struct `radial_integrand_params`. -/
structure radial_integrand_params (α : Type) where
  scale : Dbl α
  p : Dbl α
  b : Dbl α
  k : Int
  cosmology : Bool

/-- Modelled from the spec: the macro `XLAL_ERROR` of `XLALError.h`, which is not among the
sources, raises an error that is fatal to the calling integration.  One call of
`radial_integrand` therefore either returns a value to the quadrature or raises an XLAL
error, in which case the quadrature receives no value. -/
inductive IntegrandOut (α : Type) where
  | val (x : Dbl α)
  | xlal_error (errnum : XlalErrno) (status : GslStatus)

/-- External collaborators of the integrator, none of which is defined in the sources. -/
structure Env (α : Type) where
  /-- libm `log` on positive finite arguments -/
  rlog : α → α
  /-- libm `exp` on finite arguments -/
  rexp : α → α
  /-- libm `sqrt` on non-negative finite arguments -/
  rsqrt : α → α
  /-- the constant `M_LN2` -/
  M_LN2 : α
  /-- the constant `M_SQRT2` -/
  M_SQRT2 : α
  /-- the constant `M_SQRT1_2` -/
  M_SQRT1_2 : α
  /-- GSL `gsl_sf_bessel_I0_scaled` -/
  I0_scaled : Dbl α → Dbl α
  /-- GSL `gsl_sf_exp_mult_e (x, y)`: status and `y * exp x` -/
  exp_mult_e : Dbl α → Dbl α → GslStatus × Dbl α
  /-- GSL `gsl_integration_qagp (f, pts, epsabs, epsrel, limit)`: status and result -/
  qagp : (Dbl α → IntegrandOut α) → List (Dbl α) → Dbl α → Dbl α → Nat → GslStatus × Dbl α
  /-- GSL `gsl_spline_eval` on the cosmology spline -/
  spline_eval : Dbl α → Dbl α
  /-- the table constant `dVC_dVL_tmin` of `bayestar_cosmology.h` -/
  dVC_dVL_tmin : Dbl α
  /-- the table constant `dVC_dVL_tmax` of `bayestar_cosmology.h` -/
  dVC_dVL_tmax : Dbl α
  /-- the table constant `dVC_dVL_high_z_slope` of `bayestar_cosmology.h` -/
  dVC_dVL_high_z_slope : Dbl α
  /-- the table constant `dVC_dVL_high_z_intercept` of `bayestar_cosmology.h` -/
  dVC_dVL_high_z_intercept : Dbl α
  /-- `cubic_interp_eval` of the interpolation module -/
  cubic_interp_eval : cubic_interp α → Dbl α → Dbl α
  /-- `bicubic_interp_eval` of the interpolation module -/
  bicubic_interp_eval : bicubic_interp α → Dbl α → Dbl α → Dbl α

namespace Env

variable {α : Type} [LinearOrderedField α]

/-- C `log`: `log 0 = -∞`, negative arguments give `NaN`. -/
def log (E : Env α) : Dbl α → Dbl α
  | .fin x => if 0 < x then .fin (E.rlog x) else if x = 0 then .ninf else .nan
  | .pinf => .pinf
  | .ninf => .nan
  | .nan => .nan

/-- C `exp`: `exp (-∞) = 0`. -/
def exp (E : Env α) : Dbl α → Dbl α
  | .fin x => .fin (E.rexp x)
  | .pinf => .pinf
  | .ninf => .fin 0
  | .nan => .nan

/-- C `sqrt`: negative arguments give `NaN`. -/
def sqrt (E : Env α) : Dbl α → Dbl α
  | .fin x => if 0 ≤ x then .fin (E.rsqrt x) else .nan
  | .pinf => .pinf
  | .ninf => .nan
  | .nan => .nan

end Env

section Integral

variable {α : Type} [LinearOrderedField α]

/-- The function `log_dVC_dVL`. -/
def log_dVC_dVL (E : Env α) (DL : Dbl α) : Dbl α :=
  let log_DL := E.log DL
  if Dbl.le log_DL E.dVC_dVL_tmin then
    Dbl.fin 0
  else if Dbl.ge log_DL E.dVC_dVL_tmax then
    E.dVC_dVL_high_z_slope * log_DL + E.dVC_dVL_high_z_intercept
  else
    E.spline_eval log_DL

/-- The exponent handed to `gsl_sf_exp_mult_e` by `radial_integrand`. -/
def radial_exponent (E : Env α) (params : radial_integrand_params α) (r : Dbl α) : Dbl α :=
  let ret := params.scale - Dbl.gsl_pow_2 (params.p / r - Dbl.fin (1 / 2) * params.b / params.p)
  if params.cosmology then ret + log_dVC_dVL E r else ret

/-- The function `radial_integrand`: a GSL status other than success and underflow
raises `XLAL_EFUNC`. -/
def radial_integrand (E : Env α) (params : radial_integrand_params α) (r : Dbl α) :
    IntegrandOut α :=
  let ret := radial_exponent E params r
  let res := E.exp_mult_e ret (E.I0_scaled (params.b / r) * Dbl.gsl_pow_int r params.k)
  match res.1 with
  | GslStatus.GSL_SUCCESS => IntegrandOut.val res.2
  | GslStatus.GSL_EUNDRFLW => IntegrandOut.val (Dbl.fin 0)
  | status => IntegrandOut.xlal_error XlalErrno.XLAL_EFUNC status

/-- The function `log_radial_integrand`. -/
def log_radial_integrand (E : Env α) (params : radial_integrand_params α) (r : Dbl α) : Dbl α :=
  let ret := E.log (E.I0_scaled (params.b / r) * Dbl.gsl_pow_int r params.k)
    + params.scale - Dbl.gsl_pow_2 (params.p / r - Dbl.fin (1 / 2) * params.b / params.p)
  if params.cosmology then ret + log_dVC_dVL E r else ret

/-- Wrap-around of `size_t` arithmetic. -/
def sz (n : Nat) : Nat := n % 2 ^ 64

/-- Conditional append used for the interior breakpoints of `log_radial_integral`:
`c` is kept when it lies above the last entry and below `r2`. -/
def push_breakpoint (bps : List (Dbl α)) (last c r2 : Dbl α) : List (Dbl α) × Dbl α :=
  if Dbl.gt c last && Dbl.lt c r2 then (bps ++ [c], c) else (bps, last)

/-- The breakpoint array filled by `log_radial_integral`, in order. -/
def breakpoints (E : Env α) (r1 r2 p b : Dbl α) : List (Dbl α) :=
  if Dbl.ne b (Dbl.fin 0) then
    let eta : Dbl α := Dbl.fin (1 / 100)
    let middle := Dbl.fin 2 * Dbl.gsl_pow_2 p / b
    let left := Dbl.fin 1 / (Dbl.fin 1 / middle + E.sqrt (-(E.log eta)) / p)
    let right := Dbl.fin 1 / (Dbl.fin 1 / middle - E.sqrt (-(E.log eta)) / p)
    let s0 : List (Dbl α) × Dbl α := ([r1], r1)
    let s1 := push_breakpoint s0.1 s0.2 left r2
    let s2 := push_breakpoint s1.1 s1.2 middle r2
    let s3 := push_breakpoint s2.1 s2.2 right r2
    s3.1 ++ [r2]
  else
    [r1, r2]

/-- The rescaling loop of `log_radial_integral`: the running maximum of the
log-integrand over the breakpoints, started from `-INFINITY`. -/
def max_log_offset (E : Env α) (params : radial_integrand_params α) :
    List (Dbl α) → Dbl α → Dbl α
  | [], log_offset => log_offset
  | r :: rest, log_offset =>
      let new_log_offset := log_radial_integrand E params r
      max_log_offset E params rest
        (if Dbl.gt new_log_offset log_offset then new_log_offset else log_offset)

/-- State of the retry loop of `log_radial_integral` when it leaves the loop. -/
structure QuadOut (α : Type) where
  result : Dbl α
  abstol : Dbl α
  n : Nat
  relaxed : Bool

/-- The `do ... while (ret != GSL_SUCCESS)` loop of `log_radial_integral`; `fuel` bounds
the number of calls of the quadrature routine. -/
def qagp_loop (E : Env α) (f : Dbl α → IntegrandOut α) (pts : List (Dbl α)) (reltol : Dbl α) :
    Nat → Nat → Dbl α → Bool → Except Fault (QuadOut α)
  | 0, _, _, _ => .error Fault.fuel
  | fuel + 1, n, abstol, relaxed =>
      let res := E.qagp f pts abstol reltol n
      match res.1 with
      | GslStatus.GSL_EROUND => qagp_loop E f pts reltol fuel n (abstol * Dbl.fin 2) true
      | GslStatus.GSL_EMAXITER => qagp_loop E f pts reltol fuel (sz (n * 2)) abstol relaxed
      | GslStatus.GSL_SUCCESS => .ok ⟨res.2, abstol, n, relaxed⟩
      | _ => .error (Fault.exit 1)

/-- The value of `log_offset` used by `log_radial_integral`. -/
def log_offset_of (E : Env α) (r1 r2 p b : Dbl α) (k : Int) (cosmology : Bool) : Dbl α :=
  let params : radial_integrand_params α := ⟨Dbl.fin 0, p, b, k, cosmology⟩
  let log_offset := max_log_offset E params (breakpoints E r1 r2 p b) Dbl.ninf
  if Dbl.eq log_offset Dbl.ninf then Dbl.fin 0 else log_offset

/-- The function `log_radial_integral`, together with the final state of its retry loop. -/
def log_radial_integral_run (E : Env α) (fuel : Nat) (r1 r2 p b : Dbl α) (k : Int)
    (cosmology : Bool) : Except Fault (Dbl α × QuadOut α) :=
  let log_offset := log_offset_of E r1 r2 p b k cosmology
  let params : radial_integrand_params α := ⟨-log_offset, p, b, k, cosmology⟩
  match qagp_loop E (radial_integrand E params) (breakpoints E r1 r2 p b)
      (Dbl.fin (1 / 100000000)) fuel 64 (Dbl.fin (1 / 100000000)) false with
  | .error e => .error e
  | .ok out => .ok (log_offset + E.log out.result, out)

/-- The function `log_radial_integral`: its return value. -/
def log_radial_integral (E : Env α) (fuel : Nat) (r1 r2 p b : Dbl α) (k : Int)
    (cosmology : Bool) : Except Fault (Dbl α) :=
  match log_radial_integral_run E fuel r1 r2 p b k cosmology with
  | .error e => .error e
  | .ok out => .ok out.1

end Integral

section Init

variable {α : Type} [LinearOrderedField α]

/-- Outcome of every allocation attempted while building an integrator
(`true`: the allocator returned a non-null pointer). -/
structure Allocs where
  z1 : Bool
  z2 : Bool
  z0 : Bool
  spline : Bool
  spline_init : Bool
  integrator : Bool
  region0 : Bool
  region1 : Bool
  region2 : Bool

/-- Modelled from the spec: the interruption flag `OMP_WAS_INTERRUPTED` of
`omp_interruptible.h`; it is raised at most once, at time `sig`, and stays raised. -/
def OMP_WAS_INTERRUPTED (sig : Option Nat) (t : Nat) : Bool :=
  match sig with
  | none => false
  | some s => decide (s ≤ t)

/-- Modelled from the spec: `bicubic_interp_init` of the interpolation module, which
stores the samples and the grid geometry, or returns `NULL` when its allocation fails. -/
def bicubic_interp_init (alloc : Bool) (data : Nat → Dbl α) (ns nt : Nat)
    (smin tmin ds dt : Dbl α) : Option (bicubic_interp α) :=
  if alloc then some ⟨data, ns, nt, smin, tmin, ds, dt⟩ else none

/-- Modelled from the spec: `cubic_interp_init` of the interpolation module, which
stores the samples and the grid geometry, or returns `NULL` when its allocation fails. -/
def cubic_interp_init (alloc : Bool) (data : Nat → Dbl α) (n : Nat)
    (tmin dt : Dbl α) : Option (cubic_interp α) :=
  if alloc then some ⟨data, n, tmin, dt⟩ else none

/-- The function `dVC_dVL_init`: both of its assertions. -/
def dVC_dVL_init (A : Allocs) : Except Fault Unit :=
  if A.spline = false then .error Fault.assertion
  else if A.spline_init = false then .error Fault.assertion
  else .ok ()

/-- The grid constants computed at the head of `log_radial_integrator_init`. -/
structure Grid (α : Type) where
  xmax : Dbl α
  x0 : Dbl α
  xmin : Dbl α
  ymax : Dbl α
  ymin : Dbl α
  d : Dbl α
  umin : Dbl α
  vmax : Dbl α
  deriving DecidableEq

/-- The constant declarations at the head of `log_radial_integrator_init`. -/
def grid (E : Env α) (r1 r2 : Dbl α) (k : Int) (pmax : Dbl α) (size : Nat) : Grid α :=
  let alpha : Dbl α := Dbl.fin 4
  let p0 := Dbl.fin (1 / 2) * (if k ≥ 0 then r2 else r1)
  let xmax := E.log pmax
  let x0 := Dbl.GSL_MIN_DBL (E.log p0) xmax
  let xmin := x0 - (Dbl.fin 1 + Dbl.fin E.M_SQRT2) * alpha
  let ymax := x0 + alpha
  let ymin := Dbl.fin 2 * x0 - Dbl.fin E.M_SQRT2 * alpha - xmax
  let d := (xmax - xmin) / Dbl.ofNat (sz (size + 2 ^ 64 - 1))
  let umin := -(Dbl.fin 1 + Dbl.fin E.M_SQRT1_2) * alpha
  let vmax := x0 - Dbl.fin E.M_SQRT1_2 * alpha
  ⟨xmax, x0, xmin, ymax, ymin, d, umin, vmax⟩

/-- Body of the table-filling loop of `log_radial_integrator_init` for the flat index `i`:
the index written and the value stored there. -/
def init_cell (E : Env α) (fuel : Nat) (r1 r2 : Dbl α) (k : Int) (cosmology : Bool)
    (g : Grid α) (size i : Nat) : Except Fault (Nat × Dbl α) :=
  let ix := i / size
  let iy := i % size
  let x := g.xmin + Dbl.ofNat ix * g.d
  let y := g.ymin + Dbl.ofNat iy * g.d
  let p := E.exp x
  let r0 := E.exp y
  let b := Dbl.fin 2 * Dbl.gsl_pow_2 p / r0
  match log_radial_integral E fuel r1 r2 p b k cosmology with
  | .error e => .error e
  | .ok z => .ok (sz (sz (ix * size) + iy), z)

/-- The table-filling loop of `log_radial_integrator_init`, run sequentially from the
flat index `i` for `todo` more cells; it stops at the first cell that sees the
interruption flag. -/
def init_loop (E : Env α) (sig : Option Nat) (fuel : Nat) (r1 r2 : Dbl α) (k : Int)
    (cosmology : Bool) (g : Grid α) (size : Nat) :
    Nat → Nat → (Nat → Dbl α) → Except Fault (Nat → Dbl α)
  | 0, _, z0 => .ok z0
  | todo + 1, i, z0 =>
      if OMP_WAS_INTERRUPTED sig i then .ok z0
      else
        match init_cell E fuel r1 r2 k cosmology g size i with
        | .error e => .error e
        | .ok c =>
            init_loop E sig fuel r1 r2 k cosmology g size todo (i + 1)
              (Function.update z0 c.1 c.2)

/-- What `log_radial_integrator_init` returns: an integrator, or `NULL` with `xlalErrno` set. -/
inductive InitRet (α : Type) where
  | integrator (I : log_radial_integrator α)
  | null (errnum : XlalErrno)

/-- The function `log_radial_integrator_init`.  `A` gives the outcome of each allocation,
`sig` the time of the interruption signal (cell `i` polls the flag at time `i`, the check
after the loop at time `size * size`, the final read at `size * size + 1`), and `fuel`
bounds the retries of each quadrature. -/
def log_radial_integrator_init (E : Env α) (A : Allocs) (sig : Option Nat) (fuel : Nat)
    (r1 r2 : Dbl α) (k : Int) (cosmology : Bool) (pmax : Dbl α) (size : Nat) :
    Except Fault (InitRet α) :=
  let g := grid E r1 r2 k pmax size
  let ncells := sz (size * size)
  if (A.z0 && A.z1 && A.z2) = false then .error Fault.assertion
  else
    match (if cosmology then dVC_dVL_init A else .ok ()) with
    | .error e => .error e
    | .ok _ =>
      match init_loop E sig fuel r1 r2 k cosmology g size ncells 0 (fun _ => Dbl.fin 0) with
      | .error e => .error e
      | .ok z0 =>
        let regions : Option (bicubic_interp α) × Option (cubic_interp α)
            × Option (cubic_interp α) :=
          if OMP_WAS_INTERRUPTED sig ncells then (none, none, none)
          else
            (bicubic_interp_init A.region0 z0 size size g.xmin g.ymin g.d g.d,
             cubic_interp_init A.region1
               (fun i => if i < size then z0 (sz (sz (i * size) + sz (size + 2 ^ 64 - 1)))
                 else Dbl.fin 0) size g.xmin g.d,
             cubic_interp_init A.region2
               (fun i => if i < size then
                   z0 (sz (sz (i * size) + sz (sz (size + 2 ^ 64 - 1) + 2 ^ 64 - i)))
                 else Dbl.fin 0) size g.umin g.d)
        let interrupted := OMP_WAS_INTERRUPTED sig (ncells + 1)
        match A.integrator, regions with
        | true, (some region0, some region1, some region2) =>
            if interrupted then .ok (InitRet.null XlalErrno.XLAL_ENOMEM)
            else .ok (InitRet.integrator
              ⟨region0, region1, region2, g.xmax, g.ymax, g.vmax, r1, r2, k⟩)
        | _, _ => .ok (InitRet.null XlalErrno.XLAL_ENOMEM)

end Init

section Eval

variable {α : Type} [LinearOrderedField α]

/-- The function `log_radial_integrator_eval`; a failed `assert` is `Fault.assertion`. -/
def log_radial_integrator_eval (E : Env α) (integrator : log_radial_integrator α)
    (p b log_p log_b : Dbl α) : Except Fault (Dbl α) :=
  let x := log_p
  let y := Dbl.fin E.M_LN2 + Dbl.fin 2 * log_p - log_b
  if Dbl.le x integrator.xmax = false then .error Fault.assertion
  else if Dbl.eq p (Dbl.fin 0) then
    if Dbl.eq b (Dbl.fin 0) = false then .error Fault.assertion
    else
      let k1 := integrator.k + 1
      if k1 = 0 then
        .ok (E.log (E.log (integrator.r2 / integrator.r1)))
      else
        .ok (E.log ((Dbl.gsl_pow_int integrator.r2 k1 - Dbl.gsl_pow_int integrator.r1 k1)
          / Dbl.ofInt k1))
  else
    let result :=
      if Dbl.ge y integrator.ymax then
        E.cubic_interp_eval integrator.region1 x
      else
        let v := Dbl.fin (1 / 2) * (x + y)
        if Dbl.le v integrator.vmax then
          let u := Dbl.fin (1 / 2) * (x - y)
          E.cubic_interp_eval integrator.region2 u
        else
          E.bicubic_interp_eval integrator.region0 x y
    .ok (result + Dbl.gsl_pow_2 (Dbl.fin (1 / 2) * b / p))

end Eval

section Cosmology

variable {α : Type} [LinearOrderedField α]

/-- The function `log_dVC_dVL` together with its call of `gsl_spline_eval`: the value
returned, and the argument handed to the spline when the spline is evaluated. -/
def log_dVC_dVL_run (E : Env α) (DL : Dbl α) : Dbl α × Option (Dbl α) :=
  let log_DL := E.log DL
  if Dbl.le log_DL E.dVC_dVL_tmin then
    (Dbl.fin 0, none)
  else if Dbl.ge log_DL E.dVC_dVL_tmax then
    (E.dVC_dVL_high_z_slope * log_DL + E.dVC_dVL_high_z_intercept, none)
  else
    (E.spline_eval log_DL, some log_DL)

end Cosmology

section Candidates

variable {α : Type} [LinearOrderedField α]

/-- The candidate breakpoint `middle` of `log_radial_integral`. -/
def bp_middle (p b : Dbl α) : Dbl α := Dbl.fin 2 * Dbl.gsl_pow_2 p / b

/-- The candidate breakpoint `left` of `log_radial_integral` (`eta = 0.01`). -/
def bp_left (E : Env α) (p b : Dbl α) : Dbl α :=
  Dbl.fin 1 / (Dbl.fin 1 / bp_middle p b + E.sqrt (-(E.log (Dbl.fin (1 / 100)))) / p)

/-- The candidate breakpoint `right` of `log_radial_integral` (`eta = 0.01`). -/
def bp_right (E : Env α) (p b : Dbl α) : Dbl α :=
  Dbl.fin 1 / (Dbl.fin 1 / bp_middle p b - E.sqrt (-(E.log (Dbl.fin (1 / 100)))) / p)

end Candidates

section Coordinates

variable {α : Type} [LinearOrderedField α]

/-- The coordinates `x = log_p` and `y = M_LN2 + 2 * log_p - log_b` computed at the head of
`log_radial_integrator_eval`. -/
def eval_coordinates (E : Env α) (log_p log_b : Dbl α) : Dbl α × Dbl α :=
  (log_p, Dbl.fin E.M_LN2 + Dbl.fin 2 * log_p - log_b)

end Coordinates

section Schedule

variable {α : Type} [LinearOrderedField α]

/-- The table-filling loop of `log_radial_integrator_init` with its iterations executed in
the order `order` (the directive `#pragma omp parallel for` leaves the order open), when
the interruption flag is never raised. -/
def init_loop_order (E : Env α) (fuel : Nat) (r1 r2 : Dbl α) (k : Int) (cosmology : Bool)
    (g : Grid α) (size : Nat) : List Nat → (Nat → Dbl α) → Except Fault (Nat → Dbl α)
  | [], z0 => .ok z0
  | i :: rest, z0 =>
      match init_cell E fuel r1 r2 k cosmology g size i with
      | .error e => .error e
      | .ok c =>
          init_loop_order E fuel r1 r2 k cosmology g size rest (Function.update z0 c.1 c.2)

end Schedule

section Samples

variable {α : Type} [LinearOrderedField α]

/-- An environment built from a given libm (`rlog`, `rexp`, `rsqrt` and the three constants)
with stand-ins for the other collaborators: a Bessel factor equal to `1`, the exact
product `y * exp x` reported with success, a quadrature that reports success with result
`1`, a cosmology table over `[0, 1]` with zero spline and zero extrapolation, and
interpolants that return their first sample.  Used to evaluate the definitions on
concrete inputs. -/
def stubEnv (rlog rexp rsqrt : α → α) (ln2 sqrt2 sqrt1_2 : α) : Env α where
  rlog := rlog
  rexp := rexp
  rsqrt := rsqrt
  M_LN2 := ln2
  M_SQRT2 := sqrt2
  M_SQRT1_2 := sqrt1_2
  I0_scaled := fun _ => Dbl.fin 1
  exp_mult_e := fun x y =>
    (GslStatus.GSL_SUCCESS,
      y * (match x with
        | Dbl.fin v => Dbl.fin (rexp v)
        | Dbl.pinf => Dbl.pinf
        | Dbl.ninf => Dbl.fin 0
        | Dbl.nan => Dbl.nan))
  qagp := fun _ _ _ _ _ => (GslStatus.GSL_SUCCESS, Dbl.fin 1)
  spline_eval := fun _ => Dbl.fin 0
  dVC_dVL_tmin := Dbl.fin 0
  dVC_dVL_tmax := Dbl.fin 1
  dVC_dVL_high_z_slope := Dbl.fin 0
  dVC_dVL_high_z_intercept := Dbl.fin 0
  cubic_interp_eval := fun t _ => t.data 0
  bicubic_interp_eval := fun t _ _ => t.data 0

/-- A computable environment over the rationals, with crude stand-ins for libm. -/
def sampleEnv : Env ℚ :=
  stubEnv (fun x => x - 1) (fun x => x + 1) (fun x => x) (7 / 10) (7 / 5) (5 / 7)

/-- A concrete integrator with `r1 = 1`, `r2 = 10`, `k = 2`, `xmax = 0` and constant tables. -/
def sampleIntegrator : log_radial_integrator α where
  region0 := ⟨fun _ => Dbl.fin 3, 2, 2, Dbl.fin 0, Dbl.fin 0, Dbl.fin 1, Dbl.fin 1⟩
  region1 := ⟨fun _ => Dbl.fin 5, 2, Dbl.fin 0, Dbl.fin 1⟩
  region2 := ⟨fun _ => Dbl.fin 7, 2, Dbl.fin 0, Dbl.fin 1⟩
  xmax := Dbl.fin 0
  ymax := Dbl.fin 4
  vmax := Dbl.fin (-2)
  r1 := Dbl.fin 1
  r2 := Dbl.fin 10
  k := 2

/-- The sample environment with a quadrature that reports the subdivision limit while the
budget is below 128, then round-off while the absolute tolerance is below `2e-8`, then
success with result `3`. -/
def retryEnv : Env ℚ :=
  { sampleEnv with
    qagp := fun _ _ abstol _ n =>
      if n < 128 then (GslStatus.GSL_EMAXITER, Dbl.fin 0)
      else if Dbl.lt abstol (Dbl.fin (1 / 50000000)) then (GslStatus.GSL_EROUND, Dbl.fin 0)
      else (GslStatus.GSL_SUCCESS, Dbl.fin 3) }

/-- The number handed to the quadrature by one call of the integrand: the value returned
when it is finite, and `0` otherwise. -/
def IntegrandOut.value {α : Type} [Zero α] : IntegrandOut α → α
  | IntegrandOut.val (Dbl.fin x) => x
  | _ => 0

/-- The environment `E` with a bicubic interpolant that returns the stored sample number `n`. -/
def nodeEnv (E : Env α) (n : Nat) : Env α :=
  { E with bicubic_interp_eval := fun t _ _ => t.data n }

/-- The value is finite and positive. -/
def Dbl.IsPosFin (x : Dbl α) : Prop := ∃ v : α, x = Dbl.fin v ∧ 0 < v

/-- Every allocation succeeds. -/
def allocsOk : Allocs := ⟨true, true, true, true, true, true, true, true, true⟩

/-- Every allocation succeeds except that of the work array `z0`. -/
def allocsNoZ0 : Allocs := ⟨true, true, false, true, true, true, true, true, true⟩

end Samples

section Process

variable {α : Type} [LinearOrderedField α]

/-- The part of the process state that concerns the cosmology spline `dVC_dVL_interp`: how
many times `dVC_dVL_init` has called `gsl_spline_alloc` and `gsl_spline_init` so far. -/
structure SplineState where
  allocs : Nat
  inits : Nat
  deriving DecidableEq

/-- The function `dVC_dVL_init` on the process state: it allocates a spline, asserts that
the allocation succeeded, initialises the spline and asserts that this succeeded. -/
def dVC_dVL_init_state (A : Allocs) (s : SplineState) : Except Fault SplineState :=
  if A.spline = false then .error Fault.assertion
  else if A.spline_init = false then .error Fault.assertion
  else .ok ⟨s.allocs + 1, s.inits + 1⟩

/-- The arguments of one call of `log_radial_integrator_init`, with the outcomes of its
allocations, the time of the interruption signal and the retry budget of the model. -/
structure InitCall (α : Type) where
  A : Allocs
  sig : Option Nat
  fuel : Nat
  r1 : Dbl α
  r2 : Dbl α
  k : Int
  cosmology : Bool
  pmax : Dbl α
  size : Nat

/-- One call of `log_radial_integrator_init` on the process state: the assertion on the
work arrays, then `if (cosmology) dVC_dVL_init ();`, then the rest of the function. -/
def log_radial_integrator_init_state (E : Env α) (c : InitCall α) (s : SplineState) :
    Except Fault (InitRet α × SplineState) :=
  if (c.A.z0 && c.A.z1 && c.A.z2) = false then .error Fault.assertion
  else
    match (if c.cosmology then dVC_dVL_init_state c.A s else .ok s) with
    | .error e => .error e
    | .ok s1 =>
      match log_radial_integrator_init E c.A c.sig c.fuel c.r1 c.r2 c.k c.cosmology
          c.pmax c.size with
      | .error e => .error e
      | .ok ret => .ok (ret, s1)

/-- A sequence of calls of `log_radial_integrator_init` in one process; a call that does not
return ends the process. -/
def run_calls (E : Env α) : List (InitCall α) → SplineState → Except Fault SplineState
  | [], s => .ok s
  | c :: rest, s =>
    match log_radial_integrator_init_state E c s with
    | .error e => .error e
    | .ok out => run_calls E rest out.2

/-- A call over the rationals for which every allocation succeeds (`r1 = 1`, `r2 = 2`,
`k = 0`, `pmax = 1`, `size = 2`), with the given cosmology flag. -/
def sampleCall (cosmology : Bool) : InitCall ℚ :=
  ⟨allocsOk, none, 1, Dbl.fin 1, Dbl.fin 2, 0, cosmology, Dbl.fin 1, 2⟩

end Process

section Binary64

/-- The number of binary digits of `n` (the least `s` with `n < 2^s`), by halving; `fuel`
bounds the number of halvings and `n` itself is always enough. -/
def bit_length : Nat → Nat → Nat
  | 0, _ => 0
  | fuel + 1, n => if n = 0 then 0 else bit_length fuel (n / 2) + 1

/-- Round to nearest, ties to even, of the positive rational `n / d` onto the IEEE 754
binary64 format: significands of 53 bits, the exponent of the unit in the last place between
`-1074` and `971`, overflow to `+∞`.  With `2^k <= n / d < 2^(k+1)` the unit in the last place
is `2^e`, `e = max (k - 52) (-1074)`, and the result is `m 2^e` for the integer `m` nearest to
`(n / d) / 2^e`, the even one of the two when both are equally near. -/
def binary64_pos (n d : Nat) : Dbl ℚ :=
  let k0 : Int := (bit_length n n : Int) - (bit_length d d : Int)
  let k : Int := if d * 2 ^ k0.toNat ≤ n * 2 ^ (-k0).toNat then k0 else k0 - 1
  let e : Int := max (k - 52) (-1074)
  let N : Nat := n * 2 ^ (-e).toNat
  let D : Nat := d * 2 ^ e.toNat
  let m0 : Nat := N / D
  let r : Nat := N % D
  let m : Nat :=
    if 2 * r < D then m0 else if D < 2 * r then m0 + 1 else if m0 % 2 = 0 then m0 else m0 + 1
  if 2 ^ 1024 ≤ m * 2 ^ e.toNat then Dbl.pinf
  else Dbl.fin (((m * 2 ^ e.toNat : Nat) : ℚ) / ((2 ^ (-e).toNat : Nat) : ℚ))

/-- Round to nearest, ties to even, of a rational onto binary64; zero is unsigned as in the
rest of the number model. -/
def binary64 (q : ℚ) : Dbl ℚ :=
  if q = 0 then Dbl.fin 0
  else if 0 < q then binary64_pos q.num.natAbs q.den
  else -(binary64_pos q.num.natAbs q.den)

/-- Rounding of the exact result of an operation: special values are kept. -/
def Dbl.rnd : Dbl ℚ → Dbl ℚ
  | Dbl.fin q => binary64 q
  | x => x

/-- C `a + b` on `double`: the exact sum, rounded. -/
def Dbl.add64 (a b : Dbl ℚ) : Dbl ℚ := Dbl.rnd (a + b)

/-- C `a - b` on `double`: the exact difference, rounded. -/
def Dbl.sub64 (a b : Dbl ℚ) : Dbl ℚ := Dbl.rnd (a - b)

/-- C `a * b` on `double`: the exact product, rounded. -/
def Dbl.mul64 (a b : Dbl ℚ) : Dbl ℚ := Dbl.rnd (a * b)

/-- C `a / b` on `double`: the exact quotient, rounded. -/
def Dbl.div64 (a b : Dbl ℚ) : Dbl ℚ := Dbl.rnd (a / b)

/-- Conversion of a `size_t` to `double`, rounded. -/
def Dbl.ofNat64 (n : Nat) : Dbl ℚ := Dbl.rnd (Dbl.ofNat n)

/-- The constant declarations at the head of `log_radial_integrator_init` in binary64
arithmetic: every operation of `grid` is rounded on its own, in the order in which C
evaluates the expressions. -/
def grid_binary64 (E : Env ℚ) (r1 r2 : Dbl ℚ) (k : Int) (pmax : Dbl ℚ) (size : Nat) : Grid ℚ :=
  let alpha : Dbl ℚ := Dbl.fin 4
  let p0 := Dbl.mul64 (Dbl.fin (1 / 2)) (if k ≥ 0 then r2 else r1)
  let xmax := E.log pmax
  let x0 := Dbl.GSL_MIN_DBL (E.log p0) xmax
  let xmin := Dbl.sub64 x0 (Dbl.mul64 (Dbl.add64 (Dbl.fin 1) (Dbl.fin E.M_SQRT2)) alpha)
  let ymax := Dbl.add64 x0 alpha
  let ymin := Dbl.sub64 (Dbl.sub64 (Dbl.mul64 (Dbl.fin 2) x0)
    (Dbl.mul64 (Dbl.fin E.M_SQRT2) alpha)) xmax
  let d := Dbl.div64 (Dbl.sub64 xmax xmin) (Dbl.ofNat64 (sz (size + 2 ^ 64 - 1)))
  let umin := Dbl.mul64 (-(Dbl.add64 (Dbl.fin 1) (Dbl.fin E.M_SQRT1_2))) alpha
  let vmax := Dbl.sub64 x0 (Dbl.mul64 (Dbl.fin E.M_SQRT1_2) alpha)
  ⟨xmax, x0, xmin, ymax, ymin, d, umin, vmax⟩

/-- The coordinates `x = xmin + ix * d`, `y = ymin + iy * d` that the table-filling loop of
`log_radial_integrator_init` computes for the flat index `i`, in binary64 arithmetic. -/
def cell_coordinates_binary64 (g : Grid ℚ) (size i : Nat) : Dbl ℚ × Dbl ℚ :=
  let ix := i / size
  let iy := i % size
  (Dbl.add64 g.xmin (Dbl.mul64 (Dbl.ofNat64 ix) g.d),
   Dbl.add64 g.ymin (Dbl.mul64 (Dbl.ofNat64 iy) g.d))

/-- The path that one call of `log_radial_integrator_eval` takes: a failed assertion, the
closed form for `p == 0`, or the table it evaluates and the coordinates it passes. -/
inductive EvalPath where
  | assertion
  | closed_form
  | region1 (x : Dbl ℚ)
  | region2 (u : Dbl ℚ)
  | region0 (x y : Dbl ℚ)
  deriving DecidableEq

/-- The control flow of `log_radial_integrator_eval` in binary64 arithmetic, for an
integrator with the stored bounds `xmax`, `ymax`, `vmax`: the coordinates `y`, `v`, `u` are
computed with every operation rounded, and the tests are those of the source. -/
def eval_path_binary64 (E : Env ℚ) (xmax ymax vmax : Dbl ℚ) (p b log_p log_b : Dbl ℚ) :
    EvalPath :=
  let x := log_p
  let y := Dbl.sub64 (Dbl.add64 (Dbl.fin E.M_LN2) (Dbl.mul64 (Dbl.fin 2) log_p)) log_b
  if Dbl.le x xmax = false then EvalPath.assertion
  else if Dbl.eq p (Dbl.fin 0) then
    if Dbl.eq b (Dbl.fin 0) = false then EvalPath.assertion else EvalPath.closed_form
  else if Dbl.ge y ymax then EvalPath.region1 x
  else
    let v := Dbl.mul64 (Dbl.fin (1 / 2)) (Dbl.add64 x y)
    if Dbl.le v vmax then EvalPath.region2 (Dbl.mul64 (Dbl.fin (1 / 2)) (Dbl.sub64 x y))
    else EvalPath.region0 x y

/-- The sample environment with the binary64 values of what the claims about the grid use:
`M_LN2`, `M_SQRT2`, `M_SQRT1_2` are the doubles that the constants of `math.h` denote, and
`log` returns the double nearest to the natural logarithm at `5`, `10`, `500` and `1000`
(the values the C library returns there) and `0` elsewhere. -/
def binary64Env : Env ℚ :=
  { sampleEnv with
    rlog := fun x =>
      if x = 5 then 7248263982714163 / 4503599627370496
      else if x = 10 then 2592480341699211 / 1125899906842624
      else if x = 500 then 3498513339538481 / 562949953421312
      else if x = 1000 then 243045032034301 / 35184372088832
      else 0
    M_LN2 := 6243314768165359 / 9007199254740992
    M_SQRT2 := 6369051672525773 / 4503599627370496
    M_SQRT1_2 := 6369051672525773 / 9007199254740992 }

end Binary64

end DistanceIntegrator

/-!
# SFT file input (`lal/packages/support/src/SFTfileIO.c`)

`REAL8` values are finite numbers of an ordered field with a floor function.  `INT4` is
modelled by `Int`: a conversion or an arithmetic result outside `[-2^31, 2^31)` is undefined
in C and is reported as `SFTFault.undefined`.  `UINT4` is `Nat` modulo `2^32`.
-/

namespace SFTfileIO

/-- Status codes of `SFTfileIO.h` used by the functions modelled here. -/
inductive SFTStatus where
  | SFTFILEIOH_ENULL
  | SFTFILEIOH_ENONULL
  | SFTFILEIOH_EVAL
  | SFTFILEIOH_ECOPYSIZE
  deriving DecidableEq

/-- Ways in which a function of this module does not succeed. -/
inductive SFTFault where
  | abort (code : SFTStatus)
  | undefined
  | out_of_bounds_read
  deriving DecidableEq

/-- An `INT4` value: defined only inside `[-2^31, 2^31)`. -/
def int4 (n : Int) : Except SFTFault Int :=
  if -2 ^ 31 ≤ n ∧ n < 2 ^ 31 then .ok n else .error SFTFault.undefined

/-- Conversion of an `INT4` to `UINT4`. -/
def uint4_of_int (n : Int) : Nat := (n % 2 ^ 32).toNat

/-- Wrap-around of `UINT4` arithmetic. -/
def u32 (n : Nat) : Nat := n % 2 ^ 32

/-- The struct `SFTHeader` (version 1), as far as it is used: `LALReadSFTheader` only returns
headers with `timeBase > 0`, `fminBinIndex >= 0` and `length >= 0`. -/
structure SFTHeader (α : Type) where
  timeBase : α
  fminBinIndex : Int
  length : Int

/-- The read request issued by `LALReadSFTfile`: `readlen` bins are allocated and
`LALReadSFTdata` is asked to fill them starting from bin `fminBinIndex`. -/
structure ReadRequest where
  fminBinIndex : Int
  fmaxBinIndex : Int
  readlen : Nat
  deriving DecidableEq

section Read

variable {α : Type} [LinearOrderedField α] [FloorRing α]

/-- The part of `LALReadSFTfile` that decides which bins are read, from the frequency limits
and the header returned by `LALReadSFTheader`. -/
def LALReadSFTfile_request (fMin fMax : α) (header : SFTHeader α) :
    Except SFTFault ReadRequest :=
  if ¬ (fMin ≤ fMax) then .error (SFTFault.abort SFTStatus.SFTFILEIOH_EVAL)
  else
    let bins : Except SFTFault (Int × Int) :=
      if fMin = 0 ∧ fMax = 0 then
        match int4 (header.fminBinIndex + header.length) with
        | .error e => .error e
        | .ok s =>
          match int4 (s - 1) with
          | .error e => .error e
          | .ok fmaxBinIndex => .ok (header.fminBinIndex, fmaxBinIndex)
      else
        match int4 ⌊fMin * header.timeBase⌋ with
        | .error e => .error e
        | .ok fminBinIndex =>
          match int4 ⌈fMax * header.timeBase⌉ with
          | .error e => .error e
          | .ok fmaxBinIndex => .ok (fminBinIndex, fmaxBinIndex)
    match bins with
    | .error e => .error e
    | .ok (fminBinIndex, fmaxBinIndex) =>
      match int4 (fmaxBinIndex - fminBinIndex) with
      | .error e => .error e
      | .ok diff => .ok ⟨fminBinIndex, fmaxBinIndex, u32 (uint4_of_int diff + 1)⟩

end Read

section Copy

/-- The struct `COMPLEX8FrequencySeries` (`SFTtype`): `epoch` is the pair of GPS seconds and
nanoseconds, `data` is the pointer to the vector of complex bins (`none` when null), each bin
a pair of real and imaginary part.  The type `LALUnit` of `sampleUnits` is a parameter. -/
structure SFTtype (α LALUnit : Type) where
  name : String
  epoch : Int × Int
  f0 : α
  deltaF : α
  sampleUnits : LALUnit
  data : Option (List (α × α))

/-- The function `LALCopySFT`: the four null checks, the size check, the copy of the head
and the `memcpy` of `dest->data->length` bins, which reads past the end of the source block
when the source holds fewer bins.  `none` stands for a null pointer; the result is the
content of `dest` on return. -/
def LALCopySFT {α LALUnit : Type} (dest src : Option (SFTtype α LALUnit)) :
    Except SFTFault (SFTtype α LALUnit) :=
  match dest with
  | none => .error (SFTFault.abort SFTStatus.SFTFILEIOH_ENULL)
  | some d =>
    match d.data with
    | none => .error (SFTFault.abort SFTStatus.SFTFILEIOH_ENULL)
    | some ddata =>
      match src with
      | none => .error (SFTFault.abort SFTStatus.SFTFILEIOH_ENULL)
      | some s =>
        match s.data with
        | none => .error (SFTFault.abort SFTStatus.SFTFILEIOH_ENULL)
        | some sdata =>
          if ddata.length < sdata.length then
            .error (SFTFault.abort SFTStatus.SFTFILEIOH_ECOPYSIZE)
          else if sdata.length < ddata.length then .error SFTFault.out_of_bounds_read
          else
            .ok { name := s.name, epoch := s.epoch, f0 := s.f0, deltaF := s.deltaF,
                  sampleUnits := s.sampleUnits,
                  data := some (sdata.take ddata.length ++ ddata.drop ddata.length) }

end Copy

section Glob

/-- Ways in which a run of `amatch` does not return: a read past the terminator of the
pattern, or the recursion budget of the model exhausted. -/
inductive GlobFault where
  | out_of_bounds_read
  | fuel
  deriving DecidableEq

/-- The macro `NEGATE`. -/
def NEGATE : Char := '^'

/-- The backslash character. -/
def BACKSLASH : Char := Char.ofNat 92

/-- How the loop over a character set is left: by `return FALSE`, with `p` pointing into
the pattern, or with `p` one past the terminator of the pattern. -/
inductive CsetOut where
  | ret_false
  | inside (found : Bool) (p : List Char)
  | past (found : Bool)

/-- The loop `while (!match && (c = *p++))` of the case `'['`, entered with `match` false;
`sc` is the character `*str`.  Characters are compared by their codes. -/
def cset_loop (sc : Char) : List Char → CsetOut
  | [] => CsetOut.past false
  | [_] => CsetOut.ret_false
  | [c, y] =>
    if y = '-' then CsetOut.ret_false
    else if y ≠ ']' then
      if c = sc ∨ y = sc then CsetOut.inside true [y] else cset_loop sc [y]
    else CsetOut.inside (decide (c = sc)) [y]
  | c :: y :: x :: p3 =>
    if y = '-' then
      if x ≠ ']' then
        if sc = c ∨ sc = x ∨ (sc > c ∧ sc < x) then CsetOut.inside true (x :: p3)
        else cset_loop sc (x :: p3)
      else CsetOut.inside (decide (sc ≥ c)) (x :: p3)
    else
      if y ≠ ']' then
        if c = sc ∨ y = sc then CsetOut.inside true (y :: x :: p3)
        else cset_loop sc (y :: x :: p3)
      else CsetOut.inside (decide (c = sc)) (y :: x :: p3)

/-- The loop `while (*str) { if (amatch (str, p)) return TRUE; str++; } return FALSE;` of the
case `'*'`; `sub` is the recursive call on the rest of the pattern. -/
def star_loop (sub : List Char → Except GlobFault Bool) : List Char → Except GlobFault Bool
  | [] => .ok false
  | c :: rest =>
    match sub (c :: rest) with
    | .error e => .error e
    | .ok true => .ok true
    | .ok false => star_loop sub rest

/-- The function `amatch` on a string and a pattern given as the lists of their characters
before the terminator; each pass of the loop `while (*p)` and each recursive call takes one
unit of the budget. -/
def amatch_run : Nat → List Char → List Char → Except GlobFault Bool
  | 0, _, _ => .error GlobFault.fuel
  | _ + 1, str, [] => .ok str.isEmpty
  | n + 1, str, c :: p =>
    if str.isEmpty ∧ c ≠ '*' then .ok false
    else if c = '*' then
      match p.dropWhile (fun x => x == '*') with
      | [] => .ok true
      | q :: p1 =>
        star_loop (fun s => amatch_run n s (q :: p1))
          (if q ≠ '?' ∧ q ≠ '[' ∧ q ≠ BACKSLASH then str.dropWhile (fun x => x != q) else str)
    else
      match str with
      | [] => .ok false
      | sc :: str1 =>
        if c = '?' then amatch_run n str1 p
        else if c = '[' then
          let negate : Bool := decide (p.head? = some NEGATE)
          match cset_loop sc (if negate then p.tail else p) with
          | CsetOut.ret_false => .ok false
          | CsetOut.past found =>
            if negate = found then .ok false else .error GlobFault.out_of_bounds_read
          | CsetOut.inside found p1 =>
            if negate = found then .ok false
            else
              match p1.dropWhile (fun x => x != ']') with
              | [] => .ok false
              | _ :: p2 => amatch_run n str1 p2
        else if c = BACKSLASH then
          match p with
          | [] => if c ≠ sc then .ok false else amatch_run n str1 []
          | e :: p1 => if e ≠ sc then .ok false else amatch_run n str1 p1
        else if c ≠ sc then .ok false
        else amatch_run n str1 p

/-- The function `amatch`, with a budget that suffices for every pattern. -/
def amatch (str p : List Char) : Except GlobFault Bool := amatch_run (p.length + 1) str p

/-- A character that is none of the pattern characters `*`, `?`, `[` and backslash. -/
def plain_char (ch : Char) : Prop := ch ≠ '*' ∧ ch ≠ '?' ∧ ch ≠ '[' ∧ ch ≠ BACKSLASH

end Glob

end SFTfileIO

/-!
# Pulsar parameter estimation utilities (`lalpulsar/bin/HeterodyneSearch/ppe_utils.c`)

`UINT4` is `Nat` modulo `2^32`.  The local array `newindex` of `rechop_data` is a buffer of
fixed capacity: a write at an index outside it is reported as `PpeFault.out_of_bounds_write`.
-/

namespace PpeUtils

/-- Ways in which a function of this module leaves defined behaviour. -/
inductive PpeFault where
  | out_of_bounds_read
  | out_of_bounds_write
  | undefined
  deriving DecidableEq

/-- Wrap-around of `UINT4` arithmetic. -/
def uint4 (n : Nat) : Nat := n % 2 ^ 32

/-- Subtraction of two `UINT4` values. -/
def uint4_sub (a b : Nat) : Nat := uint4 (a + 2 ^ 32 - uint4 b)

/-- Conversion of a `UINT4` value to `INT4` (two's complement). -/
def int4_of_uint4 (n : Nat) : Int := if n < 2 ^ 31 then (n : Int) else (n : Int) - 2 ^ 32

section Median

/-- The number of points `n` and the start index `sidx` that `subtract_running_median` uses
for the point with loop index `i` (running from `1` to `length`). -/
def median_window (length i : Nat) : Nat × Int :=
  let mrange := if length > 30 then 30 else uint4 (2 * (uint4_sub length 1 / 2))
  let N := mrange / 2
  if i < N then (uint4 (N + i), 0)
  else
    ((if i > uint4_sub length N then uint4 (uint4_sub length i + N) else mrange),
      int4_of_uint4 (uint4_sub i N))

/-- The reads `data->data[j + sidx]` for `j < n`; the index is computed in `UINT4`. -/
def read_window {β : Type} (data : List β) (sidx : Int) (n : Nat) :
    Except PpeFault (List β) :=
  (List.range n).mapM (fun j =>
    match data[(((j : Int) + sidx) % 2 ^ 32).toNat]? with
    | some x => .ok x
    | none => .error PpeFault.out_of_bounds_read)

/-- One pass of the loop body of `subtract_running_median`: the output sample for loop
index `i`.  The parameter `median` stands for `gsl_sort` followed by
`gsl_stats_median_from_sorted_data`. -/
def subtract_median_at {α : Type} [Sub α] (median : List α → α) (data : List (α × α))
    (i : Nat) : Except PpeFault (α × α) :=
  let w := median_window data.length i
  match read_window data w.2 w.1 with
  | .error e => .error e
  | .ok window =>
    match data[i - 1]? with
    | none => .error PpeFault.out_of_bounds_read
    | some x =>
      .ok (x.1 - median (window.map Prod.fst), x.2 - median (window.map Prod.snd))

/-- The function `subtract_running_median`: the loop `for (i = 1; i < length + 1; i++)`. -/
def subtract_running_median {α : Type} [Sub α] (median : List α → α) (data : List (α × α)) :
    Except PpeFault (List (α × α)) :=
  ((List.range (uint4 (data.length + 1) - 1)).map (fun i => i + 1)).mapM
    (subtract_median_at median data)

end Median

section Rechop

/-- The assignment `newindex[idx] = v` to the local array of `cap` entries. -/
def newindex_write (cap : Nat) (buf : List Nat) (idx v : Nat) : Except PpeFault (List Nat) :=
  if idx < cap then .ok (buf.set idx v) else .error PpeFault.out_of_bounds_write

/-- The loop `for (j = 0; j < floor(chunklength / chunkMax); j++)` of `rechop_data`, with
`m` passes left: each pass stores `startindex + (j + 1) * chunkMax` and advances `count`. -/
def chop_loop (cap chunkMax startindex : Nat) :
    Nat → Nat → List Nat × Nat → Except PpeFault (List Nat × Nat)
  | 0, _, st => .ok st
  | m + 1, j, (buf, count) =>
    match newindex_write cap buf count (uint4 (startindex + (j + 1) * chunkMax)) with
    | .error e => .error e
    | .ok buf1 => chop_loop cap chunkMax startindex m (j + 1) (buf1, uint4 (count + 1))

/-- The body of the outer loop of `rechop_data` for the chunk from `startindex` to `stop`. -/
def rechop_chunk (cap chunkMax chunkMin startindex stop : Nat) (st : List Nat × Nat) :
    Except PpeFault (List Nat × Nat) :=
  let chunklength := uint4_sub stop startindex
  if chunklength > chunkMax then
    if chunkMax = 0 then .error PpeFault.undefined
    else
      let remain := chunklength % chunkMax
      let q := chunklength / chunkMax
      match chop_loop cap chunkMax startindex q 0 st with
      | .error e => .error e
      | .ok (buf, count) =>
        if remain ≠ 0 then
          let last := uint4 (startindex + q * chunkMax + remain)
          match newindex_write cap buf count last with
          | .error e => .error e
          | .ok buf1 =>
            if remain < chunkMin then
              match newindex_write cap buf1 (uint4_sub count 1) (uint4_sub last chunkMin) with
              | .error e => .error e
              | .ok buf2 => .ok (buf2, uint4 (count + 1))
            else .ok (buf1, uint4 (count + 1))
        else .ok (buf, count)
  else
    match newindex_write cap st.1 st.2 stop with
    | .error e => .error e
    | .ok buf1 => .ok (buf1, uint4 (st.2 + 1))

/-- The outer loop of `rechop_data` over the chunk end indices, `startindex` being the
previous end index (`0` for the first chunk). -/
def rechop_loop (cap chunkMax chunkMin : Nat) :
    List Nat → Nat → List Nat × Nat → Except PpeFault (List Nat × Nat)
  | [], _, st => .ok st
  | stop :: rest, startindex, st =>
    match rechop_chunk cap chunkMax chunkMin startindex stop st with
    | .error e => .error e
    | .ok st1 => rechop_loop cap chunkMax chunkMin rest stop st1

/-- The function `rechop_data`: `newindex` has `ceil (endIndex / chunkMin)` entries, the loop
fills it, and the vector is resized to `count` entries and overwritten with them.  The result
is the content of the vector on return. -/
def rechop_data (chunkIndex : List Nat) (chunkMax chunkMin : Nat) :
    Except PpeFault (List Nat) :=
  match chunkIndex.getLast? with
  | none => .error PpeFault.out_of_bounds_read
  | some endIndex =>
    if chunkMin = 0 then .error PpeFault.undefined
    else
      let cap := uint4 ((endIndex + chunkMin - 1) / chunkMin)
      if cap = 0 then .error PpeFault.undefined
      else
        match rechop_loop cap chunkMax chunkMin chunkIndex 0 (List.replicate cap 0, 0) with
        | .error e => .error e
        | .ok (buf, count) => .ok (buf.take count)

/-- The indices stored by `m` passes of the inner loop of `rechop_data` that start at `j`. -/
def chop_indices (startindex chunkMax : Nat) : Nat → Nat → List Nat
  | 0, _ => []
  | m + 1, j => (startindex + (j + 1) * chunkMax) :: chop_indices startindex chunkMax m (j + 1)

/-- Two consecutive chunk end indices: the second is larger, by at most `chunkMax`. -/
def chunk_step (chunkMax a b : Nat) : Prop := a < b ∧ b ≤ a + chunkMax

end Rechop

end PpeUtils

/-!
# Window functions (`lal/packages/window/src/Window.c`)

`REAL8` values are numbers of an ordered field, `cos` and the constant `LAL_PI_2` are
parameters.  `UINT4` is `Nat` modulo `2^32`; `int` is `Int`, with arithmetic outside
`[-2^31, 2^31)` undefined.  A sample of a freshly allocated sequence is `none` until it is
assigned.  The fields `sumofsquares` and `sum` of a window are not modelled.
-/

namespace Window

/-- Ways in which a window constructor does not return a window. -/
inductive WindowFault where
  | XLAL_ERANGE
  | XLAL_ENOMEM
  | undefined
  | out_of_bounds_write
  deriving DecidableEq

/-- Wrap-around of `UINT4` arithmetic. -/
def uint4 (n : Nat) : Nat := n % 2 ^ 32

/-- Conversion of a `UINT4` value to `int` (two's complement). -/
def int_of_uint4 (n : Nat) : Int := if n < 2 ^ 31 then (n : Int) else (n : Int) - 2 ^ 32

/-- Whether a value fits the type `int`. -/
def int_ok (n : Int) : Prop := -2 ^ 31 ≤ n ∧ n < 2 ^ 31

instance (n : Int) : Decidable (int_ok n) := by
  unfold int_ok
  infer_instance

/-- The struct `REAL8Window`, reduced to its sequence of samples. -/
structure REAL8Window (α : Type) where
  length : Nat
  data : Nat → Option α

section Constructors

variable {α : Type} [LinearOrderedField α]

/-- The function `Y`: `length -= 1; return length > 0 ? (2 * i - length) / (double) length : 0`. -/
def Y (length i : Int) : Except WindowFault α :=
  if ¬ int_ok (length - 1) then .error WindowFault.undefined
  else if length - 1 > 0 then
    if int_ok (2 * i) ∧ int_ok (2 * i - (length - 1)) then
      .ok (((2 * i - (length - 1) : Int) : α) / ((length - 1 : Int) : α))
    else .error WindowFault.undefined
  else .ok 0

/-- The function `REAL8WindowNew`: `none` when an allocation fails, else a sequence none of
whose samples has been assigned. -/
def REAL8WindowNew (alloc : Bool) ( _length : Nat) : Option (Nat → Option α) :=
  if alloc then some (fun _ => none) else none

/-- The loop `for (; i < bound; i++) data[i] = data[length - 1 - i] = v (i)` with `m` passes
left. -/
def fill_loop (length : Nat) (v : Nat → Except WindowFault α) :
    Nat → Nat → (Nat → Option α) → Except WindowFault (Nat → Option α)
  | 0, _, d => .ok d
  | m + 1, i, d =>
    match v i with
    | .error e => .error e
    | .ok x =>
      if i < length ∧ uint4 (length + 2 ^ 32 - 1 - i) < length then
        fill_loop length v m (i + 1)
          (Function.update (Function.update d (uint4 (length + 2 ^ 32 - 1 - i)) (some x))
            i (some x))
      else .error WindowFault.out_of_bounds_write

/-- The loop `for (i = 0; i < length; i++) data[i] = 1` with `m` passes left. -/
def ones_loop : Nat → Nat → (Nat → Option α) → (Nat → Option α)
  | 0, _, d => d
  | m + 1, i, d => ones_loop m (i + 1) (Function.update d i (some 1))

/-- The function `XLALCreateRectangularREAL8Window`. -/
def XLALCreateRectangularREAL8Window (alloc : Bool) (length : Nat) :
    Except WindowFault (REAL8Window α) :=
  match (REAL8WindowNew alloc length : Option (Nat → Option α)) with
  | none => .error WindowFault.XLAL_ENOMEM
  | some d => .ok ⟨length, ones_loop length 0 d⟩

/-- The sample `pow (cos (LAL_PI_2 * Y (length, i)), 2)` of the Hann window and of the
transition of the Tukey window. -/
def hann_sample (cos : α → α) (LAL_PI_2 : α) (length i : Nat) : Except WindowFault α :=
  match (Y (int_of_uint4 length) (int_of_uint4 i) : Except WindowFault α) with
  | .error e => .error e
  | .ok y => .ok (cos (LAL_PI_2 * y) ^ 2)

/-- The function `XLALCreateHannREAL8Window`. -/
def XLALCreateHannREAL8Window (cos : α → α) (LAL_PI_2 : α) (alloc : Bool) (length : Nat) :
    Except WindowFault (REAL8Window α) :=
  match (REAL8WindowNew alloc length : Option (Nat → Option α)) with
  | none => .error WindowFault.XLAL_ENOMEM
  | some d =>
    match fill_loop length (hann_sample cos LAL_PI_2 length) (uint4 (length + 1) / 2) 0 d with
    | .error e => .error e
    | .ok d1 => .ok ⟨length, d1⟩

/-- The function `XLALCreateTukeyREAL8Window`; `transition_length` is the conversion of
`beta * length + 0.5` to `UINT4`. -/
def XLALCreateTukeyREAL8Window [FloorRing α] (cos : α → α) (LAL_PI_2 : α) (alloc : Bool)
    (length : Nat) (beta : α) : Except WindowFault (REAL8Window α) :=
  let transition_length := uint4 ⌊beta * (length : α) + 1 / 2⌋.toNat
  if beta < 0 ∨ beta > 1 then .error WindowFault.XLAL_ERANGE
  else
    match (REAL8WindowNew alloc length : Option (Nat → Option α)) with
    | none => .error WindowFault.XLAL_ENOMEM
    | some d =>
      match fill_loop length (hann_sample cos LAL_PI_2 transition_length)
          (uint4 (transition_length + 1) / 2) 0 d with
      | .error e => .error e
      | .ok d1 =>
        match fill_loop length (fun _ => .ok 1)
            (uint4 (length + 1) / 2 - uint4 (transition_length + 1) / 2)
            (uint4 (transition_length + 1) / 2) d1 with
        | .error e => .error e
        | .ok d2 => .ok ⟨length, d2⟩

end Constructors

end Window

namespace DistanceIntegrator

/-! ## Arithmetic of the number model -/

section DblLemmas

variable {α : Type} [LinearOrderedField α]

theorem Dbl.fin_add_fin (a b : α) : (Dbl.fin a + Dbl.fin b : Dbl α) = Dbl.fin (a + b) := rfl

theorem Dbl.fin_sub_fin (a b : α) : (Dbl.fin a - Dbl.fin b : Dbl α) = Dbl.fin (a - b) := by
  show Dbl.add (Dbl.fin a) (Dbl.neg (Dbl.fin b)) = _
  simp [Dbl.add, Dbl.neg, sub_eq_add_neg]

theorem Dbl.fin_mul_fin (a b : α) : (Dbl.fin a * Dbl.fin b : Dbl α) = Dbl.fin (a * b) := rfl

theorem Dbl.neg_fin (a : α) : (-(Dbl.fin a) : Dbl α) = Dbl.fin (-a) := rfl

theorem Dbl.fin_div_fin (a b : α) (hb : b ≠ 0) :
    (Dbl.fin a / Dbl.fin b : Dbl α) = Dbl.fin (a / b) := by
  show Dbl.div (Dbl.fin a) (Dbl.fin b) = _
  simp [Dbl.div, hb]

theorem Dbl.zero_div_zero : (Dbl.fin 0 / Dbl.fin 0 : Dbl α) = Dbl.nan := by
  show Dbl.div (Dbl.fin 0) (Dbl.fin 0) = _
  simp [Dbl.div]

theorem Dbl.nan_add (a : Dbl α) : (Dbl.nan + a : Dbl α) = Dbl.nan := by
  cases a <;> rfl

theorem Dbl.add_nan (a : Dbl α) : (a + Dbl.nan : Dbl α) = Dbl.nan := by
  cases a <;> rfl

theorem Dbl.sub_nan (a : Dbl α) : (a - Dbl.nan : Dbl α) = Dbl.nan := by
  cases a <;> rfl

theorem Dbl.nan_sub (a : Dbl α) : (Dbl.nan - a : Dbl α) = Dbl.nan := by
  cases a <;> rfl

theorem Dbl.nan_mul (a : Dbl α) : (Dbl.nan * a : Dbl α) = Dbl.nan := by
  cases a <;> rfl

theorem Dbl.mul_nan (a : Dbl α) : (a * Dbl.nan : Dbl α) = Dbl.nan := by
  cases a <;> rfl

theorem Dbl.gsl_pow_2_fin (a : α) : Dbl.gsl_pow_2 (Dbl.fin a) = Dbl.fin (a ^ 2) := by
  simp [Dbl.gsl_pow_2, Dbl.fin_mul_fin, sq]

theorem Dbl.gsl_pow_2_nan : Dbl.gsl_pow_2 (Dbl.nan : Dbl α) = Dbl.nan := rfl

theorem Dbl.le_fin_fin (a b : α) : Dbl.le (Dbl.fin a) (Dbl.fin b) = decide (a ≤ b) := rfl

theorem Dbl.lt_fin_fin (a b : α) : Dbl.lt (Dbl.fin a) (Dbl.fin b) = decide (a < b) := rfl

theorem Dbl.eq_fin_fin (a b : α) : Dbl.eq (Dbl.fin a) (Dbl.fin b) = decide (a = b) := rfl

/-- C equality with a finite value holds exactly for that value. -/
theorem Dbl.eq_fin_iff (x : Dbl α) (a : α) : Dbl.eq x (Dbl.fin a) = true ↔ x = Dbl.fin a := by
  cases x <;> simp [Dbl.eq]

/-- `a > b` excludes `a <= b`. -/
theorem Dbl.le_eq_false_of_gt (a b : Dbl α) (h : Dbl.gt a b = true) : Dbl.le a b = false := by
  cases a <;> cases b <;> simp_all [Dbl.gt, Dbl.lt, Dbl.le]

theorem Dbl.gsl_pow_uint_fin (a : α) (n : Nat) :
    Dbl.gsl_pow_uint (Dbl.fin a) n = Dbl.fin (a ^ n) := by
  induction n with
  | zero => simp [Dbl.gsl_pow_uint]
  | succ n ih => simp [Dbl.gsl_pow_uint, ih, Dbl.fin_mul_fin, pow_succ]

/-- On a non-zero finite base `gsl_pow_int` is the integer power of the field. -/
theorem Dbl.gsl_pow_int_fin (a : α) (ha : a ≠ 0) (n : Int) :
    Dbl.gsl_pow_int (Dbl.fin a) n = Dbl.fin (a ^ n) := by
  unfold Dbl.gsl_pow_int
  split
  · rename_i hn
    rw [Dbl.fin_div_fin 1 a ha, Dbl.gsl_pow_uint_fin]
    obtain ⟨m, hm⟩ : ∃ m : Nat, n = -(m : Int) := ⟨(-n).toNat, by omega⟩
    subst hm
    simp
  · rename_i hn
    rw [Dbl.gsl_pow_uint_fin]
    obtain ⟨m, hm⟩ : ∃ m : Nat, n = (m : Int) := ⟨n.toNat, by omega⟩
    subst hm
    simp

end DblLemmas

/-! ## Evaluation of a built integrator -/

section EvalTheorems

variable {α : Type} [LinearOrderedField α]

/-- Unfolding of `log_radial_integrator_eval` on the interpolation path. -/
theorem eval_unfold_interp (E : Env α) (integrator : log_radial_integrator α)
    (p b logP logB : Dbl α)
    (hp : Dbl.eq p (Dbl.fin 0) = false) (hx : Dbl.le logP integrator.xmax = true) :
    log_radial_integrator_eval E integrator p b logP logB
      = .ok ((if Dbl.ge (Dbl.fin E.M_LN2 + Dbl.fin 2 * logP - logB) integrator.ymax then
                E.cubic_interp_eval integrator.region1 logP
              else if Dbl.le
                  (Dbl.fin (1 / 2) * (logP + (Dbl.fin E.M_LN2 + Dbl.fin 2 * logP - logB)))
                  integrator.vmax then
                E.cubic_interp_eval integrator.region2
                  (Dbl.fin (1 / 2) * (logP - (Dbl.fin E.M_LN2 + Dbl.fin 2 * logP - logB)))
              else
                E.bicubic_interp_eval integrator.region0 logP
                  (Dbl.fin E.M_LN2 + Dbl.fin 2 * logP - logB))
            + Dbl.gsl_pow_2 (Dbl.fin (1 / 2) * b / p)) := by
  simp only [log_radial_integrator_eval, hx, hp]
  rfl

/-- Unfolding of `log_radial_integrator_eval` on the closed-form path `p = 0`, `b = 0`. -/
theorem eval_unfold_closed (E : Env α) (J : log_radial_integrator α)
    (logP lB : Dbl α) (hJ : Dbl.le logP J.xmax = true) :
    log_radial_integrator_eval E J (Dbl.fin 0) (Dbl.fin 0) logP lB
      = .ok (if J.k = -1 then E.log (E.log (J.r2 / J.r1))
          else E.log ((Dbl.gsl_pow_int J.r2 (J.k + 1) - Dbl.gsl_pow_int J.r1 (J.k + 1))
              / Dbl.ofInt (J.k + 1))) := by
  have h0 : Dbl.eq (Dbl.fin (0 : α)) (Dbl.fin 0) = true := by simp [Dbl.eq]
  have hk : (J.k + 1 = 0) ↔ (J.k = -1) := by omega
  by_cases hk1 : J.k = -1
  · simp [log_radial_integrator_eval, hJ, h0, hk1]
  · have hk2 : ¬ (J.k + 1 = 0) := fun h => hk1 (hk.mp h)
    simp [log_radial_integrator_eval, hJ, h0, hk1, hk2]

/-- Claim C1: for a query with `p != 0` and `logP <= xmax`, `log_radial_integrator_eval`
returns `I + (0.5 * b / p)^2`, where with `x = logP` and `y = ln 2 + 2 logP - logB` the value
`I` is region1's cubic interpolant at `x` if `y >= ymax`, otherwise region2's cubic
interpolant at `u = 0.5 (x - y)` if `0.5 (x + y) <= vmax`, otherwise region0's bicubic
interpolant at `(x, y)`. -/
theorem eval_region_selection (E : Env α) (integrator : log_radial_integrator α)
    (p b logP logB : Dbl α)
    (hp : Dbl.eq p (Dbl.fin 0) = false) (hx : Dbl.le logP integrator.xmax = true) :
    log_radial_integrator_eval E integrator p b logP logB
      = .ok ((if Dbl.ge (Dbl.fin E.M_LN2 + Dbl.fin 2 * logP - logB) integrator.ymax then
                E.cubic_interp_eval integrator.region1 logP
              else if Dbl.le
                  (Dbl.fin (1 / 2) * (logP + (Dbl.fin E.M_LN2 + Dbl.fin 2 * logP - logB)))
                  integrator.vmax then
                E.cubic_interp_eval integrator.region2
                  (Dbl.fin (1 / 2) * (logP - (Dbl.fin E.M_LN2 + Dbl.fin 2 * logP - logB)))
              else
                E.bicubic_interp_eval integrator.region0 logP
                  (Dbl.fin E.M_LN2 + Dbl.fin 2 * logP - logB))
            + Dbl.gsl_pow_2 (Dbl.fin (1 / 2) * b / p)) :=
  eval_unfold_interp E integrator p b logP logB hp hx

/-- Witness for `eval_region_selection`: the query `p = 1`, `b = 2`, `logP = 0`, `logB = 0`
on the sample integrator falls in region0 (sample `3`) and returns `3 + 1`. -/
theorem eval_region_selection_witness :
    Dbl.eq (Dbl.fin (1 : ℚ)) (Dbl.fin 0) = false ∧
    Dbl.le (Dbl.fin (0 : ℚ)) (sampleIntegrator : log_radial_integrator ℚ).xmax = true ∧
    log_radial_integrator_eval sampleEnv sampleIntegrator
      (Dbl.fin 1) (Dbl.fin 2) (Dbl.fin 0) (Dbl.fin 0) = .ok (Dbl.fin 4) :=
  ⟨by decide, by decide,
   (eval_region_selection sampleEnv sampleIntegrator (Dbl.fin 1) (Dbl.fin 2) (Dbl.fin 0)
      (Dbl.fin 0) (by decide) (by decide)).trans (congrArg Except.ok (by decide!))⟩

/-- Claim C3: with `p = 0`, `b = 0` and `logP <= xmax`, `log_radial_integrator_eval` returns
`log (log (r2 / r1))` when the stored `k` is `-1` and
`log ((r2^(k+1) - r1^(k+1)) / (k+1))` otherwise.  The value is computed from the stored
`r1`, `r2`, `k` only: it is the same for every `logB` and for every integrator with other
tables (and other `ymax`, `vmax`), and no `(0.5 * b / p)^2` term is added. -/
theorem eval_zero_amplitude (E : Env α) (integrator : log_radial_integrator α)
    (logP logB : Dbl α) (hx : Dbl.le logP integrator.xmax = true) :
    log_radial_integrator_eval E integrator (Dbl.fin 0) (Dbl.fin 0) logP logB
      = .ok (if integrator.k = -1 then
              E.log (E.log (integrator.r2 / integrator.r1))
            else
              E.log ((Dbl.gsl_pow_int integrator.r2 (integrator.k + 1)
                - Dbl.gsl_pow_int integrator.r1 (integrator.k + 1))
                / Dbl.ofInt (integrator.k + 1))) ∧
    ∀ (other : log_radial_integrator α) (logB' : Dbl α),
      other.r1 = integrator.r1 → other.r2 = integrator.r2 → other.k = integrator.k →
      other.xmax = integrator.xmax →
      log_radial_integrator_eval E other (Dbl.fin 0) (Dbl.fin 0) logP logB'
        = log_radial_integrator_eval E integrator (Dbl.fin 0) (Dbl.fin 0) logP logB := by
  have key := fun (J : log_radial_integrator α) (lB : Dbl α) => eval_unfold_closed E J logP lB
  refine ⟨key integrator logB hx, ?_⟩
  intro other logB' h1 h2 hk hxm
  rw [key other logB' (by rw [hxm]; exact hx), key integrator logB hx, h1, h2, hk]

/-- Witness for `eval_zero_amplitude`: the sample integrator (`r1 = 1`, `r2 = 10`, `k = 2`)
queried at `logP = 0 <= xmax = 0`. -/
theorem eval_zero_amplitude_witness :
    Dbl.le (Dbl.fin (0 : ℚ)) (sampleIntegrator : log_radial_integrator ℚ).xmax = true ∧
    log_radial_integrator_eval sampleEnv sampleIntegrator (Dbl.fin 0) (Dbl.fin 0)
      (Dbl.fin 0) (Dbl.fin 5)
      = .ok (sampleEnv.log ((Dbl.gsl_pow_int (Dbl.fin 10) 3 - Dbl.gsl_pow_int (Dbl.fin 1) 3)
          / Dbl.ofInt 3)) :=
  ⟨by decide,
   (eval_zero_amplitude sampleEnv sampleIntegrator (Dbl.fin 0) (Dbl.fin 5) (by decide)).1⟩

/-- Claim C7: `log_radial_integrator_eval` fails its assertion whenever `logP > xmax`
(more generally whenever `logP <= xmax` is false, as for a `NaN`), for every `p` and `b`,
`p = 0` included; and whenever `logP <= xmax` and (`p != 0` or `b = 0`) it returns a value. -/
theorem eval_assertions (E : Env α) (integrator : log_radial_integrator α)
    (p b logP logB : Dbl α) :
    (Dbl.gt logP integrator.xmax = true →
      log_radial_integrator_eval E integrator p b logP logB = .error Fault.assertion) ∧
    (Dbl.le logP integrator.xmax = false →
      log_radial_integrator_eval E integrator p b logP logB = .error Fault.assertion) ∧
    (Dbl.le logP integrator.xmax = true →
      (Dbl.eq p (Dbl.fin 0) = false ∨ Dbl.eq b (Dbl.fin 0) = true) →
      ∃ v : Dbl α, log_radial_integrator_eval E integrator p b logP logB = .ok v) := by
  have hle : Dbl.le logP integrator.xmax = false →
      log_radial_integrator_eval E integrator p b logP logB = .error Fault.assertion := by
    intro h
    simp [log_radial_integrator_eval, h]
  refine ⟨fun h => hle (Dbl.le_eq_false_of_gt _ _ h), hle, ?_⟩
  intro hx hpb
  by_cases hp : Dbl.eq p (Dbl.fin 0) = true
  · have hb : Dbl.eq b (Dbl.fin 0) = true := by
      rcases hpb with h | h
      · rw [hp] at h; cases h
      · exact h
    by_cases hk : integrator.k + 1 = 0
    · exact ⟨_, by simp only [log_radial_integrator_eval, hx, hp, hb, hk]; rfl⟩
    · exact ⟨_, by simp only [log_radial_integrator_eval, hx, hp, hb, hk]; rfl⟩
  · have hp' : Dbl.eq p (Dbl.fin 0) = false := by simpa using hp
    exact ⟨_, eval_unfold_interp E integrator p b logP logB hp' hx⟩

/-- Witness for `eval_assertions`: on the sample integrator (`xmax = 0`) the query
`logP = 1` fails the assertion even with `p = 0`, and the query `p = 1`, `logP = 0` returns. -/
theorem eval_assertions_witness :
    (Dbl.gt (Dbl.fin (1 : ℚ)) (sampleIntegrator : log_radial_integrator ℚ).xmax = true ∧
      log_radial_integrator_eval sampleEnv sampleIntegrator (Dbl.fin 0) (Dbl.fin 0)
        (Dbl.fin 1) (Dbl.fin 0) = .error Fault.assertion) ∧
    (Dbl.le (Dbl.fin (0 : ℚ)) (sampleIntegrator : log_radial_integrator ℚ).xmax = true ∧
      Dbl.eq (Dbl.fin (1 : ℚ)) (Dbl.fin 0) = false ∧
      ∃ v : Dbl ℚ, log_radial_integrator_eval sampleEnv sampleIntegrator (Dbl.fin 1)
        (Dbl.fin 2) (Dbl.fin 0) (Dbl.fin 0) = .ok v) :=
  ⟨⟨by decide,
    (eval_assertions sampleEnv sampleIntegrator (Dbl.fin 0) (Dbl.fin 0) (Dbl.fin 1)
      (Dbl.fin 0)).1 (by decide)⟩,
   ⟨by decide, by decide,
    (eval_assertions sampleEnv sampleIntegrator (Dbl.fin 1) (Dbl.fin 2) (Dbl.fin 0)
      (Dbl.fin 0)).2.2 (by decide) (Or.inl (by decide))⟩⟩

end EvalTheorems

/-! ## The closed form at zero amplitude -/

section ClosedForm

open MeasureTheory

/-- For `0 < a < b` the integral of `r ^ k` over `[a, b]` is positive. -/
theorem integral_zpow_pos (a b : ℝ) (k : ℤ) (ha : 0 < a) (hab : a < b) :
    0 < ∫ r in a..b, r ^ k := by
  have h0 : (0 : ℝ) ∉ Set.uIcc a b := by
    rw [Set.uIcc_of_le hab.le]
    intro h
    exact absurd h.1 (not_le.mpr ha)
  apply intervalIntegral.intervalIntegral_pos_of_pos_on
    (intervalIntegral.intervalIntegrable_zpow (Or.inr h0)) _ hab
  intro x hx
  exact zpow_pos (lt_trans ha hx.1) k

/-- The two closed forms of the integral of `r ^ k` over `[a, b]`, `0 < a < b`. -/
theorem integral_zpow_closed (a b : ℝ) (k : ℤ) (ha : 0 < a) (hab : a < b) :
    (k = -1 → ∫ r in a..b, r ^ k = Real.log (b / a)) ∧
    (k ≠ -1 → ∫ r in a..b, r ^ k = (b ^ (k + 1) - a ^ (k + 1)) / ((k + 1 : ℤ) : ℝ)) := by
  have h0 : (0 : ℝ) ∉ Set.uIcc a b := by
    rw [Set.uIcc_of_le hab.le]
    intro h
    exact absurd h.1 (not_le.mpr ha)
  constructor
  · intro hk
    subst hk
    simp only [zpow_neg_one]
    exact integral_inv h0
  · intro hk
    rw [integral_zpow (Or.inr ⟨hk, h0⟩)]
    push_cast
    rfl

/-- Claim C5: for real `0 < r1 < r2` and every integer `k`, the closed form returned by
`log_radial_integrator_eval` at `p = 0` is the natural logarithm of the integral of `r ^ k`
over `[r1, r2]` (with libm's `log` the real logarithm): `log (log (r2 / r1))` for `k = -1`
and `log ((r2^(k+1) - r1^(k+1)) / (k+1))` otherwise. -/
theorem closed_form_is_log_integral (E : Env ℝ) (integrator : log_radial_integrator ℝ)
    (r1 r2 : ℝ) (logP logB : Dbl ℝ)
    (hlog : ∀ x : ℝ, 0 < x → E.rlog x = Real.log x)
    (h1 : integrator.r1 = Dbl.fin r1) (h2 : integrator.r2 = Dbl.fin r2)
    (hr1 : 0 < r1) (hr12 : r1 < r2) (hx : Dbl.le logP integrator.xmax = true) :
    log_radial_integrator_eval E integrator (Dbl.fin 0) (Dbl.fin 0) logP logB
        = .ok (Dbl.fin (Real.log (∫ r in r1..r2, r ^ integrator.k))) ∧
    (integrator.k = -1 →
      Real.log (∫ r in r1..r2, r ^ integrator.k) = Real.log (Real.log (r2 / r1))) ∧
    (integrator.k ≠ -1 →
      Real.log (∫ r in r1..r2, r ^ integrator.k)
        = Real.log ((r2 ^ (integrator.k + 1) - r1 ^ (integrator.k + 1))
            / ((integrator.k + 1 : ℤ) : ℝ))) := by
  have hpos := integral_zpow_pos r1 r2 integrator.k hr1 hr12
  obtain ⟨hm1, hne⟩ := integral_zpow_closed r1 r2 integrator.k hr1 hr12
  have hr2 : 0 < r2 := lt_trans hr1 hr12
  refine ⟨?_, fun hk => by rw [hm1 hk], fun hk => by rw [hne hk]⟩
  rw [eval_unfold_closed E integrator logP logB hx, h1, h2]
  congr 1
  by_cases hk : integrator.k = -1
  · rw [if_pos hk, Dbl.fin_div_fin r2 r1 hr1.ne']
    have hq : 0 < r2 / r1 := div_pos hr2 hr1
    have hI := hm1 hk
    have hl : 0 < Real.log (r2 / r1) := by rw [← hI]; exact hpos
    simp only [Env.log, hq, hlog _ hq, hl, hlog _ hl, if_true, hI]
  · rw [if_neg hk, Dbl.gsl_pow_int_fin r2 hr2.ne', Dbl.gsl_pow_int_fin r1 hr1.ne',
      Dbl.fin_sub_fin]
    have hk1 : ((integrator.k + 1 : ℤ) : ℝ) ≠ 0 := by
      intro h
      apply hk
      have : integrator.k + 1 = 0 := by exact_mod_cast h
      omega
    have hI := hne hk
    rw [Dbl.ofInt, Dbl.fin_div_fin _ _ hk1]
    have hq : 0 < (r2 ^ (integrator.k + 1) - r1 ^ (integrator.k + 1))
        / ((integrator.k + 1 : ℤ) : ℝ) := by rw [← hI]; exact hpos
    simp only [Env.log, hq, hlog _ hq, if_true, hI]

/-- Witness for `closed_form_is_log_integral`: `r1 = 1`, `r2 = 10`, `k = 2` with
the real logarithm. -/
theorem closed_form_is_log_integral_witness :
    log_radial_integrator_eval
        (stubEnv Real.log Real.exp Real.sqrt (Real.log 2) (Real.sqrt 2) (Real.sqrt 2)⁻¹)
        (sampleIntegrator : log_radial_integrator ℝ) (Dbl.fin 0) (Dbl.fin 0)
        (Dbl.fin 0) (Dbl.fin 0)
      = .ok (Dbl.fin (Real.log (∫ r in (1 : ℝ)..10, r ^ (2 : ℤ)))) :=
  (closed_form_is_log_integral
    (stubEnv Real.log Real.exp Real.sqrt (Real.log 2) (Real.sqrt 2) (Real.sqrt 2)⁻¹)
    sampleIntegrator 1 10 (Dbl.fin 0) (Dbl.fin 0) (fun _ _ => rfl) rfl rfl
    (by norm_num) (by norm_num) (by simp [sampleIntegrator, Dbl.le])).1

end ClosedForm

/-! ## The integrand -/

section Integrand

/-- With an exact `gsl_sf_exp_mult_e`, finite `r > 0`, `p > 0` and a finite Bessel factor
`i0 = I0scaled (b / r)`, `radial_integrand` with `scale = 0` returns
`i0 * r^k * exp (-(p/r - b/(2p))^2) * [cosmology ? exp (log_dVC_dVL r) : 1]`. -/
theorem radial_integrand_value (E : Env ℝ) (r p b i0 L : ℝ) (k : ℤ) (cosmology : Bool)
    (hmult : ∀ x y : ℝ,
      E.exp_mult_e (Dbl.fin x) (Dbl.fin y) = (GslStatus.GSL_SUCCESS, Dbl.fin (y * Real.exp x)))
    (hI0 : E.I0_scaled (Dbl.fin (b / r)) = Dbl.fin i0)
    (hL : cosmology = true → log_dVC_dVL E (Dbl.fin r) = Dbl.fin L)
    (hr : 0 < r) (hp : 0 < p) :
    radial_integrand E ⟨Dbl.fin 0, Dbl.fin p, Dbl.fin b, k, cosmology⟩ (Dbl.fin r)
      = IntegrandOut.val (Dbl.fin (i0 * r ^ k * Real.exp (-(p / r - b / (2 * p)) ^ 2)
          * (if cosmology then Real.exp L else 1))) := by
  have h2 : (1 / 2 : ℝ) * b / p = b / (2 * p) := by field_simp
  cases cosmology with
  | false =>
    simp only [radial_integrand, radial_exponent, Dbl.fin_div_fin _ _ hr.ne',
      Dbl.fin_div_fin _ _ hp.ne', Dbl.fin_mul_fin, Dbl.fin_sub_fin, Dbl.gsl_pow_2_fin,
      Dbl.gsl_pow_int_fin r hr.ne', hI0, hmult, h2, Bool.false_eq_true, if_false]
    simp
  | true =>
    simp only [radial_integrand, radial_exponent, Dbl.fin_div_fin _ _ hr.ne',
      Dbl.fin_div_fin _ _ hp.ne', Dbl.fin_mul_fin, Dbl.fin_sub_fin, Dbl.gsl_pow_2_fin,
      Dbl.gsl_pow_int_fin r hr.ne', hI0, hmult, h2, hL rfl, Dbl.fin_add_fin, if_true]
    simp only [zero_sub, Real.exp_add]
    congr 2
    ring

/-- Claim C6, as amended: for `r > 0`, `p > 0` and `b >= 0` (exact exponential-multiply,
finite Bessel factor), the integrand `radial_integrand` with `scale = 0` equals
`I0scaled (b/r) * r^k * exp (-(p/r - b/(2p))^2) * [cosmology ? dVc/dVl (r) : 1]` with
`dVc/dVl (r) = exp (log_dVC_dVL r)`; there is no factor `exp (b/r)`. -/
theorem radial_integrand_formula (E : Env ℝ) (r p b i0 L : ℝ) (k : ℤ) (cosmology : Bool)
    (hmult : ∀ x y : ℝ,
      E.exp_mult_e (Dbl.fin x) (Dbl.fin y) = (GslStatus.GSL_SUCCESS, Dbl.fin (y * Real.exp x)))
    (hI0 : E.I0_scaled (Dbl.fin (b / r)) = Dbl.fin i0)
    (hL : cosmology = true → log_dVC_dVL E (Dbl.fin r) = Dbl.fin L)
    (hr : 0 < r) (hp : 0 < p) (_hb : 0 ≤ b) :
    radial_integrand E ⟨Dbl.fin 0, Dbl.fin p, Dbl.fin b, k, cosmology⟩ (Dbl.fin r)
      = IntegrandOut.val (Dbl.fin (i0 * r ^ k * Real.exp (-(p / r - b / (2 * p)) ^ 2)
          * (if cosmology then Real.exp L else 1))) :=
  radial_integrand_value E r p b i0 L k cosmology hmult hI0 hL hr hp

/-- Witness for `radial_integrand_formula`: `r = p = b = 1`, `k = 0`, no cosmology, Bessel
factor `1`. -/
theorem radial_integrand_formula_witness :
    radial_integrand
        (stubEnv Real.log Real.exp Real.sqrt (Real.log 2) (Real.sqrt 2) (Real.sqrt 2)⁻¹)
        ⟨Dbl.fin 0, Dbl.fin 1, Dbl.fin 1, 0, false⟩ (Dbl.fin 1)
      = IntegrandOut.val (Dbl.fin (1 * (1 : ℝ) ^ (0 : ℤ)
          * Real.exp (-((1 : ℝ) / 1 - 1 / (2 * 1)) ^ 2) * (if false then Real.exp 0 else 1))) :=
  radial_integrand_formula
    (stubEnv Real.log Real.exp Real.sqrt (Real.log 2) (Real.sqrt 2) (Real.sqrt 2)⁻¹)
    1 1 1 1 0 0 false (fun _ _ => rfl) rfl (fun h => by cases h)
    (by norm_num) (by norm_num) (by norm_num)

/-- Whenever the Bessel factor `i0` is positive and `b / r` is not zero, the value of
`radial_integrand` differs from the formula with the extra factor `exp (b/r)`. -/
theorem radial_integrand_ne_with_exp (E : Env ℝ) (r p b i0 L : ℝ) (k : ℤ) (cosmology : Bool)
    (hmult : ∀ x y : ℝ,
      E.exp_mult_e (Dbl.fin x) (Dbl.fin y) = (GslStatus.GSL_SUCCESS, Dbl.fin (y * Real.exp x)))
    (hI0 : E.I0_scaled (Dbl.fin (b / r)) = Dbl.fin i0)
    (hL : cosmology = true → log_dVC_dVL E (Dbl.fin r) = Dbl.fin L)
    (hr : 0 < r) (hp : 0 < p) (hb : 0 < b) (hi0 : 0 < i0) :
    radial_integrand E ⟨Dbl.fin 0, Dbl.fin p, Dbl.fin b, k, cosmology⟩ (Dbl.fin r)
      ≠ IntegrandOut.val (Dbl.fin (i0 * Real.exp (b / r) * r ^ k
          * Real.exp (-(p / r - b / (2 * p)) ^ 2)
          * (if cosmology then Real.exp L else 1))) := by
  rw [radial_integrand_value E r p b i0 L k cosmology hmult hI0 hL hr hp]
  intro h
  simp only [IntegrandOut.val.injEq, Dbl.fin.injEq] at h
  have hA : 0 < r ^ k * Real.exp (-(p / r - b / (2 * p)) ^ 2)
      * (if cosmology then Real.exp L else 1) := by
    have h3 : (0 : ℝ) < (if cosmology then Real.exp L else 1) := by
      split
      · exact Real.exp_pos _
      · exact one_pos
    exact mul_pos (mul_pos (zpow_pos hr k) (Real.exp_pos _)) h3
  have hE : 1 < Real.exp (b / r) := by
    rw [← Real.exp_zero]
    exact Real.exp_lt_exp.mpr (div_pos hb hr)
  have hlt : i0 * (r ^ k * Real.exp (-(p / r - b / (2 * p)) ^ 2)
        * (if cosmology then Real.exp L else 1))
      < i0 * Real.exp (b / r) * (r ^ k * Real.exp (-(p / r - b / (2 * p)) ^ 2)
        * (if cosmology then Real.exp L else 1)) := by
    apply mul_lt_mul_of_pos_right _ hA
    calc i0 = i0 * 1 := (mul_one i0).symm
      _ < i0 * Real.exp (b / r) := mul_lt_mul_of_pos_left hE hi0
  have e1 : i0 * r ^ k * Real.exp (-(p / r - b / (2 * p)) ^ 2)
        * (if cosmology then Real.exp L else 1)
      = i0 * (r ^ k * Real.exp (-(p / r - b / (2 * p)) ^ 2)
        * (if cosmology then Real.exp L else 1)) := by ring
  have e2 : i0 * Real.exp (b / r) * r ^ k * Real.exp (-(p / r - b / (2 * p)) ^ 2)
        * (if cosmology then Real.exp L else 1)
      = i0 * Real.exp (b / r) * (r ^ k * Real.exp (-(p / r - b / (2 * p)) ^ 2)
        * (if cosmology then Real.exp L else 1)) := by ring
  rw [e1, e2] at h
  exact absurd h hlt.ne

/-- Counterexample to claim C6: at `r = p = b = 1`, `k = 0`, without cosmology and with a
Bessel factor `I0scaled (1) = 1`, `radial_integrand` returns `exp (-1/4)`, not
`I0scaled (1) * exp (1) * exp (-1/4)`. -/
theorem radial_integrand_counterexample :
    radial_integrand
        (stubEnv Real.log Real.exp Real.sqrt (Real.log 2) (Real.sqrt 2) (Real.sqrt 2)⁻¹)
        ⟨Dbl.fin 0, Dbl.fin 1, Dbl.fin 1, 0, false⟩ (Dbl.fin 1)
      ≠ IntegrandOut.val (Dbl.fin (1 * Real.exp ((1 : ℝ) / 1) * (1 : ℝ) ^ (0 : ℤ)
          * Real.exp (-((1 : ℝ) / 1 - 1 / (2 * 1)) ^ 2) * (if false then Real.exp 0 else 1))) :=
  radial_integrand_ne_with_exp
    (stubEnv Real.log Real.exp Real.sqrt (Real.log 2) (Real.sqrt 2) (Real.sqrt 2)⁻¹)
    1 1 1 1 0 0 false (fun _ _ => rfl) rfl (fun h => by cases h)
    (by norm_num) (by norm_num) (by norm_num) (by norm_num)

end Integrand

/-! ## `log_radial_integral` at zero amplitude -/

section ZeroAmplitude

variable {α : Type} [LinearOrderedField α]

/-- The term `0.5 * b / p` at `p = 0`, `b = 0` is `0 / 0`. -/
theorem half_b_over_p_zero : (Dbl.fin (1 / 2) * Dbl.fin 0 / Dbl.fin 0 : Dbl α) = Dbl.nan := by
  rw [Dbl.fin_mul_fin, mul_zero, Dbl.zero_div_zero]

/-- At `p = 0`, `b = 0` the log-integrand is `NaN` at every `r`. -/
theorem log_radial_integrand_zero_amplitude (E : Env α) (scale r : Dbl α) (k : Int)
    (cosmology : Bool) :
    log_radial_integrand E ⟨scale, Dbl.fin 0, Dbl.fin 0, k, cosmology⟩ r = Dbl.nan := by
  simp only [log_radial_integrand, half_b_over_p_zero, Dbl.sub_nan, Dbl.gsl_pow_2_nan,
    Dbl.nan_add, ite_self]

/-- At `p = 0`, `b = 0` the exponent of the integrand is `NaN` at every `r`. -/
theorem radial_exponent_zero_amplitude (E : Env α) (scale r : Dbl α) (k : Int)
    (cosmology : Bool) :
    radial_exponent E ⟨scale, Dbl.fin 0, Dbl.fin 0, k, cosmology⟩ r = Dbl.nan := by
  simp only [radial_exponent, half_b_over_p_zero, Dbl.sub_nan, Dbl.gsl_pow_2_nan,
    Dbl.nan_add, ite_self]

/-- With `b = 0` the breakpoints are the two integration limits. -/
theorem breakpoints_b_zero (E : Env α) (r1 r2 p : Dbl α) :
    breakpoints E r1 r2 p (Dbl.fin 0) = [r1, r2] := by
  simp [breakpoints, Dbl.ne, Dbl.eq]

/-- At `p = 0`, `b = 0` no breakpoint value exceeds `-INFINITY`, so `log_offset` is reset
to `0`. -/
theorem log_offset_zero_amplitude (E : Env α) (r1 r2 : Dbl α) (k : Int) (cosmology : Bool) :
    log_offset_of E r1 r2 (Dbl.fin 0) (Dbl.fin 0) k cosmology = Dbl.fin 0 := by
  simp [log_offset_of, breakpoints_b_zero, max_log_offset, log_radial_integrand_zero_amplitude,
    Dbl.gt, Dbl.lt, Dbl.eq]

/-- At `p = 0`, `b = 0`, `log_radial_integral` returns `0 + log R` for the result `R` that
the quadrature reports for an integrand whose exponent is `NaN`. -/
theorem log_radial_integral_zero_amplitude (E : Env α) (fuel : Nat) (r1 r2 : Dbl α) (k : Int)
    (cosmology : Bool) :
    log_radial_integral E fuel r1 r2 (Dbl.fin 0) (Dbl.fin 0) k cosmology
      = (match qagp_loop E (radial_integrand E ⟨Dbl.fin 0, Dbl.fin 0, Dbl.fin 0, k, cosmology⟩)
            [r1, r2] (Dbl.fin (1 / 100000000)) fuel 64 (Dbl.fin (1 / 100000000)) false with
        | .error e => .error e
        | .ok out => .ok (Dbl.fin 0 + E.log out.result)) := by
  simp only [log_radial_integral, log_radial_integral_run, log_offset_zero_amplitude,
    breakpoints_b_zero, Dbl.neg_fin, neg_zero]
  cases qagp_loop E (radial_integrand E ⟨Dbl.fin 0, Dbl.fin 0, Dbl.fin 0, k, cosmology⟩)
    [r1, r2] (Dbl.fin (1 / 100000000)) fuel 64 (Dbl.fin (1 / 100000000)) false <;> rfl

/-- Claim C4, as amended: for `p = 0`, `b = 0` and `logP <= xmax`,
`log_radial_integrator_eval` returns the closed form in the stored `r1`, `r2`, `k` without any
quadrature.  `log_radial_integral (r1, r2, 0, 0, k, cosmology)` has no closed-form case: its
log-integrand is `NaN` at every `r` (the term `0.5 * b / p` is `0 / 0`), so `log_offset` is
`0`, the exponent of its integrand is `NaN` at every `r`, and it returns `0 + log R` for the
result `R` that the quadrature reports. -/
theorem zero_amplitude_eval_and_integral (E : Env α) (integrator : log_radial_integrator α)
    (fuel : Nat) (cosmology : Bool) (logP logB : Dbl α)
    (hx : Dbl.le logP integrator.xmax = true) :
    log_radial_integrator_eval E integrator (Dbl.fin 0) (Dbl.fin 0) logP logB
      = .ok (if integrator.k = -1 then
              E.log (E.log (integrator.r2 / integrator.r1))
            else
              E.log ((Dbl.gsl_pow_int integrator.r2 (integrator.k + 1)
                - Dbl.gsl_pow_int integrator.r1 (integrator.k + 1))
                / Dbl.ofInt (integrator.k + 1))) ∧
    (∀ scale r : Dbl α,
      log_radial_integrand E ⟨scale, Dbl.fin 0, Dbl.fin 0, integrator.k, cosmology⟩ r
        = Dbl.nan) ∧
    (∀ scale r : Dbl α,
      radial_exponent E ⟨scale, Dbl.fin 0, Dbl.fin 0, integrator.k, cosmology⟩ r = Dbl.nan) ∧
    log_offset_of E integrator.r1 integrator.r2 (Dbl.fin 0) (Dbl.fin 0) integrator.k cosmology
      = Dbl.fin 0 ∧
    log_radial_integral E fuel integrator.r1 integrator.r2 (Dbl.fin 0) (Dbl.fin 0)
        integrator.k cosmology
      = (match qagp_loop E
            (radial_integrand E ⟨Dbl.fin 0, Dbl.fin 0, Dbl.fin 0, integrator.k, cosmology⟩)
            [integrator.r1, integrator.r2] (Dbl.fin (1 / 100000000)) fuel 64
            (Dbl.fin (1 / 100000000)) false with
        | .error e => .error e
        | .ok out => .ok (Dbl.fin 0 + E.log out.result)) :=
  ⟨eval_unfold_closed E integrator logP logB hx,
   fun scale r => log_radial_integrand_zero_amplitude E scale r integrator.k cosmology,
   fun scale r => radial_exponent_zero_amplitude E scale r integrator.k cosmology,
   log_offset_zero_amplitude E integrator.r1 integrator.r2 integrator.k cosmology,
   log_radial_integral_zero_amplitude E fuel integrator.r1 integrator.r2 integrator.k
     cosmology⟩

/-- Witness for `zero_amplitude_eval_and_integral`: the sample integrator over the rationals
(`r1 = 1`, `r2 = 10`, `k = 2`), where `log_offset` is `0`. -/
theorem zero_amplitude_eval_and_integral_witness :
    Dbl.le (Dbl.fin (0 : ℚ)) (sampleIntegrator : log_radial_integrator ℚ).xmax = true ∧
    log_offset_of sampleEnv (Dbl.fin 1) (Dbl.fin 10) (Dbl.fin 0) (Dbl.fin 0) 2 false
      = Dbl.fin 0 :=
  ⟨by decide,
   (zero_amplitude_eval_and_integral sampleEnv sampleIntegrator 1 false (Dbl.fin 0)
      (Dbl.fin 0) (by decide)).2.2.2.1⟩

/-- Counterexample to claim C4: for `r1 = 1`, `r2 = 10`, `k = 2`, `p = b = 0`, with the real
logarithm and a quadrature that reports success with result `1`,
`log_radial_integrator_eval` returns `log ((10^3 - 1^3) / 3)` while `log_radial_integral`
returns `0 + log 1 = 0`. -/
theorem zero_amplitude_counterexample :
    log_radial_integrator_eval
        (stubEnv Real.log Real.exp Real.sqrt (Real.log 2) (Real.sqrt 2) (Real.sqrt 2)⁻¹)
        (sampleIntegrator : log_radial_integrator ℝ) (Dbl.fin 0) (Dbl.fin 0)
        (Dbl.fin 0) (Dbl.fin 0)
      = .ok (Dbl.fin (Real.log ((10 ^ 3 - 1 ^ 3) / 3))) ∧
    log_radial_integral
        (stubEnv Real.log Real.exp Real.sqrt (Real.log 2) (Real.sqrt 2) (Real.sqrt 2)⁻¹)
        1 (Dbl.fin 1) (Dbl.fin 10) (Dbl.fin 0) (Dbl.fin 0) 2 false
      = .ok (Dbl.fin 0) ∧
    log_radial_integral
        (stubEnv Real.log Real.exp Real.sqrt (Real.log 2) (Real.sqrt 2) (Real.sqrt 2)⁻¹)
        1 (Dbl.fin 1) (Dbl.fin 10) (Dbl.fin 0) (Dbl.fin 0) 2 false
      ≠ log_radial_integrator_eval
        (stubEnv Real.log Real.exp Real.sqrt (Real.log 2) (Real.sqrt 2) (Real.sqrt 2)⁻¹)
        (sampleIntegrator : log_radial_integrator ℝ) (Dbl.fin 0) (Dbl.fin 0)
        (Dbl.fin 0) (Dbl.fin 0) := by
  have hev : log_radial_integrator_eval
        (stubEnv Real.log Real.exp Real.sqrt (Real.log 2) (Real.sqrt 2) (Real.sqrt 2)⁻¹)
        (sampleIntegrator : log_radial_integrator ℝ) (Dbl.fin 0) (Dbl.fin 0)
        (Dbl.fin 0) (Dbl.fin 0)
      = .ok (Dbl.fin (Real.log ((10 ^ 3 - 1 ^ 3) / 3))) := by
    rw [eval_unfold_closed _ _ _ _ (by simp [sampleIntegrator, Dbl.le])]
    have h10 : (10 : ℝ) ≠ 0 := by norm_num
    have h1 : (1 : ℝ) ≠ 0 := by norm_num
    have h3 : (((2 : ℤ) + 1 : ℤ) : ℝ) ≠ 0 := by norm_num
    have hk : (sampleIntegrator : log_radial_integrator ℝ).k = 2 := rfl
    have hr1 : (sampleIntegrator : log_radial_integrator ℝ).r1 = Dbl.fin 1 := rfl
    have hr2 : (sampleIntegrator : log_radial_integrator ℝ).r2 = Dbl.fin 10 := rfl
    rw [hk, hr1, hr2, if_neg (by decide), Dbl.gsl_pow_int_fin 10 h10, Dbl.gsl_pow_int_fin 1 h1,
      Dbl.fin_sub_fin, Dbl.ofInt, Dbl.fin_div_fin _ _ h3]
    have hpos : (0 : ℝ) < ((10 : ℝ) ^ ((2 : ℤ) + 1) - (1 : ℝ) ^ ((2 : ℤ) + 1))
        / (((2 : ℤ) + 1 : ℤ) : ℝ) := by norm_num
    simp only [Env.log, hpos, if_true, stubEnv]
    norm_num
  have hint : log_radial_integral
        (stubEnv Real.log Real.exp Real.sqrt (Real.log 2) (Real.sqrt 2) (Real.sqrt 2)⁻¹)
        1 (Dbl.fin 1) (Dbl.fin 10) (Dbl.fin 0) (Dbl.fin 0) 2 false
      = .ok (Dbl.fin 0) := by
    rw [log_radial_integral_zero_amplitude]
    simp [qagp_loop, stubEnv, Env.log, Dbl.fin_add_fin]
  refine ⟨hev, hint, ?_⟩
  rw [hev, hint]
  intro h
  simp only [Except.ok.injEq, Dbl.fin.injEq] at h
  have : (0 : ℝ) < Real.log ((10 ^ 3 - 1 ^ 3) / 3) := Real.log_pos (by norm_num)
  linarith

end ZeroAmplitude

/-! ## Building an integrator -/

section InitLemmas

variable {α : Type} [LinearOrderedField α]

/-- The interruption flag stays raised: if it is down at time `t` it was down before. -/
theorem OMP_WAS_INTERRUPTED_mono (sig : Option Nat) (t t' : Nat) (h : t' ≤ t)
    (ht : OMP_WAS_INTERRUPTED sig t = false) : OMP_WAS_INTERRUPTED sig t' = false := by
  cases sig with
  | none => rfl
  | some s =>
    simp only [OMP_WAS_INTERRUPTED, decide_eq_false_iff_not, not_le] at ht ⊢
    omega

/-- Without wrap-around the flat index of cell `m` is `m` itself. -/
theorem cell_index_eq (size m : Nat) (hm : m < size * size) (hsz : size * size < 2 ^ 64) :
    sz (sz (m / size * size) + m % size) = m := by
  have h1 : m / size * size + m % size = m := Nat.div_add_mod' m size
  have h2 : m / size * size ≤ m := by omega
  have h3 : sz (m / size * size) = m / size * size := Nat.mod_eq_of_lt (by omega)
  rw [h3, h1]
  exact Nat.mod_eq_of_lt (by omega)

/-- The index written by `init_cell`. -/
theorem init_cell_index (E : Env α) (fuel : Nat) (r1 r2 : Dbl α) (k : Int) (cosmology : Bool)
    (g : Grid α) (size m : Nat) (c : Nat × Dbl α)
    (h : init_cell E fuel r1 r2 k cosmology g size m = .ok c) :
    c.1 = sz (sz (m / size * size) + m % size) := by
  simp only [init_cell] at h
  split at h
  · cases h
  · cases h
    rfl

/-- The value stored by `init_cell` is the return value of `log_radial_integral` at the
parameters of the cell. -/
theorem init_cell_value (E : Env α) (fuel : Nat) (r1 r2 : Dbl α) (k : Int) (cosmology : Bool)
    (g : Grid α) (size m : Nat) (c : Nat × Dbl α)
    (h : init_cell E fuel r1 r2 k cosmology g size m = .ok c) :
    log_radial_integral E fuel r1 r2
      (E.exp (g.xmin + Dbl.ofNat (m / size) * g.d))
      (Dbl.fin 2 * Dbl.gsl_pow_2 (E.exp (g.xmin + Dbl.ofNat (m / size) * g.d))
        / E.exp (g.ymin + Dbl.ofNat (m % size) * g.d)) k cosmology = .ok c.2 := by
  simp only [init_cell] at h
  split at h
  · cases h
  · rename_i z hz
    cases h
    exact hz

/-- If every cell of the range returns, the table-filling loop returns. -/
theorem init_loop_returns (E : Env α) (sig : Option Nat) (fuel : Nat) (r1 r2 : Dbl α)
    (k : Int) (cosmology : Bool) (g : Grid α) (size : Nat) :
    ∀ (todo i : Nat) (z : Nat → Dbl α),
      (∀ m, i ≤ m → m < i + todo →
        ∃ c, init_cell E fuel r1 r2 k cosmology g size m = .ok c) →
      ∃ z', init_loop E sig fuel r1 r2 k cosmology g size todo i z = .ok z' := by
  intro todo
  induction todo with
  | zero => intro i z _; exact ⟨z, rfl⟩
  | succ n ih =>
    intro i z h
    simp only [init_loop]
    by_cases hs : OMP_WAS_INTERRUPTED sig i = true
    · exact ⟨z, by simp [hs]⟩
    · obtain ⟨c, hc⟩ := h i (le_refl i) (by omega)
      simp only [hs, hc]
      exact ih (i + 1) _ (fun m h1 h2 => h m (by omega) (by omega))

/-- A loop that ran without seeing the interruption flag evaluated every cell of its range
and stored every value, leaving the rest of the table untouched. -/
theorem init_loop_complete (E : Env α) (sig : Option Nat) (fuel : Nat) (r1 r2 : Dbl α)
    (k : Int) (cosmology : Bool) (g : Grid α) (size : Nat) :
    ∀ (todo i : Nat) (z z' : Nat → Dbl α),
      (∀ t, i ≤ t → t < i + todo → OMP_WAS_INTERRUPTED sig t = false) →
      (∀ m c, i ≤ m → m < i + todo →
        init_cell E fuel r1 r2 k cosmology g size m = .ok c → c.1 = m) →
      init_loop E sig fuel r1 r2 k cosmology g size todo i z = .ok z' →
      (∀ m, i ≤ m → m < i + todo →
        init_cell E fuel r1 r2 k cosmology g size m = .ok (m, z' m)) ∧
      (∀ j, (j < i ∨ i + todo ≤ j) → z' j = z j) := by
  intro todo
  induction todo with
  | zero =>
    intro i z z' _ _ h
    simp only [init_loop, Except.ok.injEq] at h
    subst h
    exact ⟨fun m h1 h2 => absurd h2 (by omega), fun _ _ => rfl⟩
  | succ n ih =>
    intro i z z' hsig hidx h
    simp only [init_loop, hsig i (le_refl i) (by omega)] at h
    cases hc : init_cell E fuel r1 r2 k cosmology g size i with
    | error e => simp [hc] at h
    | ok c =>
      simp only [hc] at h
      have hci : c.1 = i := hidx i c (le_refl i) (by omega) hc
      obtain ⟨ih1, ih2⟩ := ih (i + 1) _ z' (fun t h1 h2 => hsig t (by omega) (by omega))
        (fun m c h1 h2 => hidx m c (by omega) (by omega)) h
      have hzi : z' i = c.2 := by
        rw [ih2 i (Or.inl (by omega)), hci, Function.update_same]
      refine ⟨?_, ?_⟩
      · intro m h1 h2
        by_cases hmi : m = i
        · subst hmi
          rw [hc, hzi, ← hci]
        · exact ih1 m (by omega) (by omega)
      · intro j hj
        rw [ih2 j (by omega), hci, Function.update_noteq (by omega)]

/-- What a successful `log_radial_integrator_init` implies: every allocation succeeded, the
interruption flag was down at the final read, the loop returned a table `z0`, and the
integrator holds the three regions built from `z0` and the grid constants. -/
theorem init_success_inv (E : Env α) (A : Allocs) (sig : Option Nat) (fuel : Nat)
    (r1 r2 : Dbl α) (k : Int) (cosmology : Bool) (pmax : Dbl α) (size : Nat)
    (I : log_radial_integrator α)
    (h : log_radial_integrator_init E A sig fuel r1 r2 k cosmology pmax size
      = .ok (InitRet.integrator I)) :
    (A.z0 = true ∧ A.z1 = true ∧ A.z2 = true ∧ A.integrator = true ∧ A.region0 = true
      ∧ A.region1 = true ∧ A.region2 = true) ∧
    (cosmology = true → A.spline = true ∧ A.spline_init = true) ∧
    OMP_WAS_INTERRUPTED sig (sz (size * size) + 1) = false ∧
    ∃ z0 : Nat → Dbl α,
      init_loop E sig fuel r1 r2 k cosmology (grid E r1 r2 k pmax size) size
        (sz (size * size)) 0 (fun _ => Dbl.fin 0) = .ok z0 ∧
      I = ⟨⟨z0, size, size, (grid E r1 r2 k pmax size).xmin, (grid E r1 r2 k pmax size).ymin,
            (grid E r1 r2 k pmax size).d, (grid E r1 r2 k pmax size).d⟩,
           ⟨fun i => if i < size then z0 (sz (sz (i * size) + sz (size + 2 ^ 64 - 1)))
              else Dbl.fin 0, size, (grid E r1 r2 k pmax size).xmin,
            (grid E r1 r2 k pmax size).d⟩,
           ⟨fun i => if i < size then
                z0 (sz (sz (i * size) + sz (sz (size + 2 ^ 64 - 1) + 2 ^ 64 - i)))
              else Dbl.fin 0, size, (grid E r1 r2 k pmax size).umin,
            (grid E r1 r2 k pmax size).d⟩,
           (grid E r1 r2 k pmax size).xmax, (grid E r1 r2 k pmax size).ymax,
           (grid E r1 r2 k pmax size).vmax, r1, r2, k⟩ := by
  simp only [log_radial_integrator_init] at h
  split at h
  · cases h
  · rename_i hz
    split at h
    · cases h
    · rename_i hd
      split at h
      · cases h
      · rename_i z0 hl
        split at h
        · rename_i rg0 rg1 rg2 hi hr
          split at h
          · cases h
          · rename_i hq
            split at hr
            · cases hr
            · simp only [bicubic_interp_init, cubic_interp_init, Prod.mk.injEq] at hr
              obtain ⟨hr0, hr1, hr2⟩ := hr
              split at hr0
              · rename_i ha0
                split at hr1
                · rename_i ha1
                  split at hr2
                  · rename_i ha2
                    simp only [Option.some.injEq] at hr0 hr1 hr2
                    simp only [Except.ok.injEq, InitRet.integrator.injEq] at h
                    have hz' : A.z0 = true ∧ A.z1 = true ∧ A.z2 = true := by
                      cases h0 : A.z0 <;> cases h1 : A.z1 <;> cases h2 : A.z2 <;>
                        simp [h0, h1, h2] at hz ⊢
                    refine ⟨⟨hz'.1, hz'.2.1, hz'.2.2, hi, ha0, ha1, ha2⟩, ?_, ?_, z0, hl, ?_⟩
                    · intro hc
                      rw [if_pos hc] at hd
                      simp only [dVC_dVL_init] at hd
                      cases hs : A.spline <;> cases hsi : A.spline_init <;>
                        simp [hs, hsi] at hd ⊢
                    · simpa using hq
                    · rw [← h, ← hr0, ← hr1, ← hr2]
                  · cases hr2
                · cases hr1
              · cases hr0
        · cases h

/-- The way `log_radial_integrator_init` ends once the work arrays are allocated, the cosmology
spline (if requested) is built and the loop has returned the table `z0`. -/
theorem init_unfold (E : Env α) (A : Allocs) (sig : Option Nat) (fuel : Nat)
    (r1 r2 : Dbl α) (k : Int) (cosmology : Bool) (pmax : Dbl α) (size : Nat)
    (z0 : Nat → Dbl α)
    (hz : A.z0 = true ∧ A.z1 = true ∧ A.z2 = true)
    (hcos : cosmology = true → A.spline = true ∧ A.spline_init = true)
    (hl : init_loop E sig fuel r1 r2 k cosmology (grid E r1 r2 k pmax size) size
        (sz (size * size)) 0 (fun _ => Dbl.fin 0) = .ok z0) :
    log_radial_integrator_init E A sig fuel r1 r2 k cosmology pmax size
      = if OMP_WAS_INTERRUPTED sig (sz (size * size) + 1) = false ∧ A.integrator = true
            ∧ A.region0 = true ∧ A.region1 = true ∧ A.region2 = true then
          .ok (InitRet.integrator
            ⟨⟨z0, size, size, (grid E r1 r2 k pmax size).xmin,
                (grid E r1 r2 k pmax size).ymin,
                (grid E r1 r2 k pmax size).d, (grid E r1 r2 k pmax size).d⟩,
             ⟨fun i => if i < size then z0 (sz (sz (i * size) + sz (size + 2 ^ 64 - 1)))
                else Dbl.fin 0, size, (grid E r1 r2 k pmax size).xmin,
              (grid E r1 r2 k pmax size).d⟩,
             ⟨fun i => if i < size then
                  z0 (sz (sz (i * size) + sz (sz (size + 2 ^ 64 - 1) + 2 ^ 64 - i)))
                else Dbl.fin 0, size, (grid E r1 r2 k pmax size).umin,
              (grid E r1 r2 k pmax size).d⟩,
             (grid E r1 r2 k pmax size).xmax, (grid E r1 r2 k pmax size).ymax,
             (grid E r1 r2 k pmax size).vmax, r1, r2, k⟩)
        else .ok (InitRet.null XlalErrno.XLAL_ENOMEM) := by
  have hd : (if cosmology = true then dVC_dVL_init A else Except.ok ()) = Except.ok () := by
    by_cases hc : cosmology = true
    · rw [if_pos hc]
      simp [dVC_dVL_init, (hcos hc).1, (hcos hc).2]
    · rw [if_neg hc]
  simp only [log_radial_integrator_init, hz.1, hz.2.1, hz.2.2, hd, hl, Bool.and_self]
  cases hq : OMP_WAS_INTERRUPTED sig (sz (size * size) + 1)
  · have hp := OMP_WAS_INTERRUPTED_mono sig _ (sz (size * size)) (Nat.le_succ _) hq
    rw [hp]
    cases hi : A.integrator <;> cases h0 : A.region0 <;> cases h1 : A.region1 <;>
      cases h2 : A.region2 <;> simp [bicubic_interp_init, cubic_interp_init]
  · cases hp : OMP_WAS_INTERRUPTED sig (sz (size * size)) <;>
    cases hi : A.integrator <;> cases h0 : A.region0 <;> cases h1 : A.region1 <;>
      cases h2 : A.region2 <;> simp [bicubic_interp_init, cubic_interp_init]

/-- A failed work-array allocation trips the assertion of `log_radial_integrator_init`. -/
theorem init_assertion (E : Env α) (A : Allocs) (sig : Option Nat) (fuel : Nat)
    (r1 r2 : Dbl α) (k : Int) (cosmology : Bool) (pmax : Dbl α) (size : Nat)
    (hz : A.z0 = false ∨ A.z1 = false ∨ A.z2 = false) :
    log_radial_integrator_init E A sig fuel r1 r2 k cosmology pmax size
      = .error Fault.assertion := by
  have h : (A.z0 && A.z1 && A.z2) = false := by
    rcases hz with h | h | h <;> simp [h]
  simp [log_radial_integrator_init, h]

/-- A loop that ran without seeing the interruption flag evaluated every cell of its range. -/
theorem init_loop_all_cells (E : Env α) (sig : Option Nat) (fuel : Nat) (r1 r2 : Dbl α)
    (k : Int) (cosmology : Bool) (g : Grid α) (size : Nat) :
    ∀ (todo i : Nat) (z z' : Nat → Dbl α),
      (∀ t, i ≤ t → t < i + todo → OMP_WAS_INTERRUPTED sig t = false) →
      init_loop E sig fuel r1 r2 k cosmology g size todo i z = .ok z' →
      ∀ m, i ≤ m → m < i + todo →
        ∃ c, init_cell E fuel r1 r2 k cosmology g size m = .ok c := by
  intro todo
  induction todo with
  | zero => intro i z z' _ _ m h1 h2; omega
  | succ n ih =>
    intro i z z' hsig h m h1 h2
    simp only [init_loop, hsig i (le_refl i) (by omega)] at h
    cases hc : init_cell E fuel r1 r2 k cosmology g size i with
    | error e => simp [hc] at h
    | ok c =>
      simp only [hc] at h
      by_cases hmi : m = i
      · subst hmi
        exact ⟨c, hc⟩
      · exact ih (i + 1) _ z' (fun t h1 h2 => hsig t (by omega) (by omega)) h m
          (by omega) (by omega)

/-- With a quadrature that reports success at its first call, `log_radial_integral` returns. -/
theorem log_radial_integral_returns (E : Env α) (fuel : Nat) (r1 r2 p b : Dbl α) (k : Int)
    (cosmology : Bool)
    (hq : ∀ f pts abstol reltol n, (E.qagp f pts abstol reltol n).1 = GslStatus.GSL_SUCCESS) :
    ∃ v, log_radial_integral E (fuel + 1) r1 r2 p b k cosmology = .ok v := by
  simp only [log_radial_integral, log_radial_integral_run, qagp_loop, hq]
  exact ⟨_, rfl⟩

/-- With a quadrature that reports success at its first call, every cell returns. -/
theorem init_cell_returns (E : Env α) (fuel : Nat) (r1 r2 : Dbl α) (k : Int)
    (cosmology : Bool) (g : Grid α) (size m : Nat)
    (hq : ∀ f pts abstol reltol n, (E.qagp f pts abstol reltol n).1 = GslStatus.GSL_SUCCESS) :
    ∃ c, init_cell E (fuel + 1) r1 r2 k cosmology g size m = .ok c := by
  obtain ⟨v, hv⟩ := log_radial_integral_returns E fuel r1 r2
    (E.exp (g.xmin + Dbl.ofNat (m / size) * g.d))
    (Dbl.fin 2 * Dbl.gsl_pow_2 (E.exp (g.xmin + Dbl.ofNat (m / size) * g.d))
        / E.exp (g.ymin + Dbl.ofNat (m % size) * g.d)) k cosmology hq
  exact ⟨(sz (sz (m / size * size) + m % size), v), by simp only [init_cell, hv]⟩

/-- If every allocation succeeds, the flag is down at the final read and every cell returns,
`log_radial_integrator_init` returns an integrator. -/
theorem init_returns_integrator (E : Env α) (A : Allocs) (sig : Option Nat) (fuel : Nat)
    (r1 r2 : Dbl α) (k : Int) (cosmology : Bool) (pmax : Dbl α) (size : Nat)
    (hz : A.z0 = true ∧ A.z1 = true ∧ A.z2 = true)
    (hcos : cosmology = true → A.spline = true ∧ A.spline_init = true)
    (hr : A.integrator = true ∧ A.region0 = true ∧ A.region1 = true ∧ A.region2 = true)
    (hsig : OMP_WAS_INTERRUPTED sig (sz (size * size) + 1) = false)
    (hcells : ∀ m, m < sz (size * size) →
      ∃ c, init_cell E fuel r1 r2 k cosmology (grid E r1 r2 k pmax size) size m = .ok c) :
    ∃ I, log_radial_integrator_init E A sig fuel r1 r2 k cosmology pmax size
      = .ok (InitRet.integrator I) := by
  obtain ⟨z0, hl⟩ := init_loop_returns E sig fuel r1 r2 k cosmology
    (grid E r1 r2 k pmax size) size (sz (size * size)) 0 (fun _ => Dbl.fin 0)
    (fun m _ h2 => hcells m (by omega))
  rw [init_unfold E A sig fuel r1 r2 k cosmology pmax size z0 hz hcos hl,
    if_pos ⟨hsig, hr⟩]
  exact ⟨_, rfl⟩

end InitLemmas

/-! ## Claims about `log_radial_integrator_init` -/

section InitTheorems

variable {α : Type} [LinearOrderedField α]

/-- Claim C8, as amended: `log_radial_integrator_init` does not validate `r1`, `r2` or `size`.
For all values of them (also `r1 > r2`, non-positive bounds, `size < 2`) it returns an
integrator whenever every allocation succeeds, the interruption flag is not raised and the
quadrature of every cell returns. -/
theorem init_no_validation (E : Env α) (A : Allocs) (sig : Option Nat) (fuel : Nat)
    (r1 r2 : Dbl α) (k : Int) (cosmology : Bool) (pmax : Dbl α) (size : Nat)
    (hz : A.z0 = true ∧ A.z1 = true ∧ A.z2 = true)
    (hcos : cosmology = true → A.spline = true ∧ A.spline_init = true)
    (hr : A.integrator = true ∧ A.region0 = true ∧ A.region1 = true ∧ A.region2 = true)
    (hsig : OMP_WAS_INTERRUPTED sig (sz (size * size) + 1) = false)
    (hcells : ∀ m, m < sz (size * size) →
      ∃ c, init_cell E fuel r1 r2 k cosmology (grid E r1 r2 k pmax size) size m = .ok c) :
    ∃ I, log_radial_integrator_init E A sig fuel r1 r2 k cosmology pmax size
      = .ok (InitRet.integrator I) :=
  init_returns_integrator E A sig fuel r1 r2 k cosmology pmax size hz hcos hr hsig hcells

/-- Witness for `init_no_validation`: `r1 = 0`, `r2 = 1` and `size = 1` over the rationals. -/
theorem init_no_validation_witness :
    ∃ I, log_radial_integrator_init sampleEnv allocsOk none 1 (Dbl.fin 0) (Dbl.fin 1) 0 false
      (Dbl.fin 1) 1 = .ok (InitRet.integrator I) :=
  init_no_validation sampleEnv allocsOk none 1 (Dbl.fin 0) (Dbl.fin 1) 0 false (Dbl.fin 1) 1
    ⟨rfl, rfl, rfl⟩ (fun _ => ⟨rfl, rfl⟩) ⟨rfl, rfl, rfl, rfl⟩ rfl
    (fun m _ => init_cell_returns sampleEnv 0 _ _ _ _ _ _ m (fun _ _ _ _ _ => rfl))

/-- Counterexample to claim C8: with the non-positive bound `r1 = -1` (`r2 = 1`, `k = 0`,
`pmax = 1`, `size = 2`), every allocation succeeding, no interruption and a quadrature that
reports success, `log_radial_integrator_init` returns an integrator. -/
theorem init_validation_counterexample :
    ∃ I, log_radial_integrator_init
        (stubEnv Real.log Real.exp Real.sqrt (Real.log 2) (Real.sqrt 2) (Real.sqrt 2)⁻¹)
        allocsOk none 1 (Dbl.fin (-1)) (Dbl.fin 1) 0 false (Dbl.fin 1) 2
      = .ok (InitRet.integrator I) :=
  init_returns_integrator _ allocsOk none 1 _ _ 0 false _ 2
    ⟨rfl, rfl, rfl⟩ (fun _ => ⟨rfl, rfl⟩) ⟨rfl, rfl, rfl, rfl⟩ rfl
    (fun m _ => init_cell_returns _ 0 _ _ _ _ _ _ m (fun _ _ _ _ _ => rfl))

/-- Claim C9, as amended: `log_radial_integrator_init` returns an integrator only if every
allocation succeeded (the three work arrays, the integrator, the three regions, which are
then all non-null), the interruption flag was never seen raised, and every cell was
evaluated.  If a work array cannot be allocated it fails an assertion (no value is
returned).  Once the work arrays are allocated (and the cosmology spline, if requested, is
built) and the table loop returns (no quadrature ends the process or retries forever): if
the build is interrupted at any cell or later, or the allocation of the integrator or of a
region fails, it returns `NULL` with `XLAL_ENOMEM`.  A partially built integrator is never
returned. -/
theorem init_failure_policy (E : Env α) (A : Allocs) (sig : Option Nat) (fuel : Nat)
    (r1 r2 : Dbl α) (k : Int) (cosmology : Bool) (pmax : Dbl α) (size : Nat) :
    (∀ I, log_radial_integrator_init E A sig fuel r1 r2 k cosmology pmax size
        = .ok (InitRet.integrator I) →
      (A.z0 = true ∧ A.z1 = true ∧ A.z2 = true ∧ A.integrator = true ∧ A.region0 = true
        ∧ A.region1 = true ∧ A.region2 = true) ∧
      (∀ t, t ≤ sz (size * size) + 1 → OMP_WAS_INTERRUPTED sig t = false) ∧
      (∀ m, m < sz (size * size) →
        ∃ c, init_cell E fuel r1 r2 k cosmology (grid E r1 r2 k pmax size) size m = .ok c) ∧
      (∃ z0, bicubic_interp_init A.region0 z0 size size (grid E r1 r2 k pmax size).xmin
          (grid E r1 r2 k pmax size).ymin (grid E r1 r2 k pmax size).d
          (grid E r1 r2 k pmax size).d = some I.region0) ∧
      (∃ z1, cubic_interp_init A.region1 z1 size (grid E r1 r2 k pmax size).xmin
          (grid E r1 r2 k pmax size).d = some I.region1) ∧
      (∃ z2, cubic_interp_init A.region2 z2 size (grid E r1 r2 k pmax size).umin
          (grid E r1 r2 k pmax size).d = some I.region2)) ∧
    ((A.z0 = false ∨ A.z1 = false ∨ A.z2 = false) →
      log_radial_integrator_init E A sig fuel r1 r2 k cosmology pmax size
        = .error Fault.assertion) ∧
    (A.z0 = true ∧ A.z1 = true ∧ A.z2 = true →
      (cosmology = true → A.spline = true ∧ A.spline_init = true) →
      (∃ z0, init_loop E sig fuel r1 r2 k cosmology (grid E r1 r2 k pmax size) size
        (sz (size * size)) 0 (fun _ => Dbl.fin 0) = .ok z0) →
      ((∃ t, t ≤ sz (size * size) + 1 ∧ OMP_WAS_INTERRUPTED sig t = true)
        ∨ A.integrator = false ∨ A.region0 = false ∨ A.region1 = false
        ∨ A.region2 = false) →
      log_radial_integrator_init E A sig fuel r1 r2 k cosmology pmax size
        = .ok (InitRet.null XlalErrno.XLAL_ENOMEM)) := by
  refine ⟨?_, init_assertion E A sig fuel r1 r2 k cosmology pmax size, ?_⟩
  · intro I h
    obtain ⟨hA, _, hsig, z0, hl, hI⟩ :=
      init_success_inv E A sig fuel r1 r2 k cosmology pmax size I h
    have hmono : ∀ t, t ≤ sz (size * size) + 1 → OMP_WAS_INTERRUPTED sig t = false :=
      fun t ht => OMP_WAS_INTERRUPTED_mono sig _ t ht hsig
    refine ⟨hA, hmono, ?_, ?_, ?_, ?_⟩
    · intro m hm
      exact init_loop_all_cells E sig fuel r1 r2 k cosmology _ size (sz (size * size)) 0 _ z0
        (fun t _ h2 => hmono t (by omega)) hl m (Nat.zero_le m) (by omega)
    · exact ⟨z0, by rw [hI]; simp [bicubic_interp_init, hA.2.2.2.2.1]⟩
    · exact ⟨_, by rw [hI]; simp only [cubic_interp_init, hA.2.2.2.2.2.1]; rfl⟩
    · exact ⟨_, by rw [hI]; simp only [cubic_interp_init, hA.2.2.2.2.2.2]; rfl⟩
  · intro hz hcos hloop hfail
    obtain ⟨z0, hl⟩ := hloop
    rw [init_unfold E A sig fuel r1 r2 k cosmology pmax size z0 hz hcos hl]
    apply if_neg
    rintro ⟨h1, h2, h3, h4, h5⟩
    rcases hfail with ⟨t, ht, hs⟩ | h | h | h | h
    · rw [OMP_WAS_INTERRUPTED_mono sig _ t ht h1] at hs
      cases hs
    · rw [h2] at h; cases h
    · rw [h3] at h; cases h
    · rw [h4] at h; cases h
    · rw [h5] at h; cases h

/-- Witness for `init_failure_policy`: over the rationals, a build of a `2 × 2` table that is
interrupted at cell `1` returns `NULL` with `XLAL_ENOMEM`. -/
theorem init_failure_policy_witness :
    OMP_WAS_INTERRUPTED (some 1) 1 = true ∧
    log_radial_integrator_init sampleEnv allocsOk (some 1) 1 (Dbl.fin 1) (Dbl.fin 2) 0 false
      (Dbl.fin 1) 2 = .ok (InitRet.null XlalErrno.XLAL_ENOMEM) :=
  ⟨rfl,
   (init_failure_policy sampleEnv allocsOk (some 1) 1 (Dbl.fin 1) (Dbl.fin 2) 0 false
      (Dbl.fin 1) 2).2.2 ⟨rfl, rfl, rfl⟩ (fun _ => ⟨rfl, rfl⟩)
      (init_loop_returns sampleEnv (some 1) 1 _ _ _ _ _ _ _ 0 _
        (fun m _ _ => init_cell_returns sampleEnv 0 _ _ _ _ _ _ m (fun _ _ _ _ _ => rfl)))
      (Or.inl ⟨1, by decide, rfl⟩)⟩

/-- Counterexample to claim C9: when the work array `z0` cannot be allocated,
`log_radial_integrator_init` fails its assertion; it does not return `NULL` with
`XLAL_ENOMEM`. -/
theorem init_alloc_counterexample :
    log_radial_integrator_init sampleEnv allocsNoZ0 none 1 (Dbl.fin 1) (Dbl.fin 2) 0 false
        (Dbl.fin 1) 2 = .error Fault.assertion ∧
    log_radial_integrator_init sampleEnv allocsNoZ0 none 1 (Dbl.fin 1) (Dbl.fin 2) 0 false
        (Dbl.fin 1) 2 ≠ .ok (InitRet.null XlalErrno.XLAL_ENOMEM) := by
  have h := init_assertion sampleEnv allocsNoZ0 none 1 (Dbl.fin 1) (Dbl.fin 2) 0 false
    (Dbl.fin 1) 2 (Or.inl rfl)
  refine ⟨h, ?_⟩
  rw [h]
  intro h'
  cases h'

/-- Claim C10: after a successful `log_radial_integrator_init (r1, r2, k, cosmology, pmax,
size)`, with `alpha = 4`, `p0 = 0.5 * (k >= 0 ? r2 : r1)` and `x0 = min (ln p0, ln pmax)`, the
integrator stores `xmax = ln pmax`, `ymax = x0 + alpha`, `vmax = x0 - M_SQRT1_2 * alpha`
(which is `x0 - alpha / sqrt 2` as soon as `M_SQRT1_2 * M_SQRT2 = 1`) and `r1`, `r2`, `k` as
given, and region0 has origin `(xmin, ymin) = (x0 - (1 + sqrt 2) alpha,
2 x0 - sqrt 2 alpha - xmax)` and the same step `d = (xmax - xmin) / (size - 1)` on both axes,
`size - 1` being computed in `size_t` (it is the number `size - 1` for `1 <= size < 2^64`). -/
theorem init_stores_grid (E : Env α) (A : Allocs) (sig : Option Nat) (fuel : Nat)
    (r1 r2 : Dbl α) (k : Int) (cosmology : Bool) (pmax : Dbl α) (size : Nat)
    (I : log_radial_integrator α) (p0 x0 xmin : Dbl α)
    (h : log_radial_integrator_init E A sig fuel r1 r2 k cosmology pmax size
      = .ok (InitRet.integrator I))
    (hp0 : p0 = Dbl.fin (1 / 2) * (if k ≥ 0 then r2 else r1))
    (hx0 : x0 = Dbl.GSL_MIN_DBL (E.log p0) (E.log pmax))
    (hxmin : xmin = x0 - (Dbl.fin 1 + Dbl.fin E.M_SQRT2) * Dbl.fin 4) :
    I.xmax = E.log pmax ∧
    I.ymax = x0 + Dbl.fin 4 ∧
    I.vmax = x0 - Dbl.fin E.M_SQRT1_2 * Dbl.fin 4 ∧
    (E.M_SQRT1_2 * E.M_SQRT2 = 1 → I.vmax = x0 - Dbl.fin 4 / Dbl.fin E.M_SQRT2) ∧
    I.r1 = r1 ∧ I.r2 = r2 ∧ I.k = k ∧
    I.region0.smin = xmin ∧
    I.region0.tmin = Dbl.fin 2 * x0 - Dbl.fin E.M_SQRT2 * Dbl.fin 4 - E.log pmax ∧
    I.region0.ds = (E.log pmax - xmin) / Dbl.ofNat (sz (size + 2 ^ 64 - 1)) ∧
    I.region0.dt = I.region0.ds ∧
    I.region0.ns = size ∧ I.region0.nt = size ∧
    (1 ≤ size → size < 2 ^ 64 → sz (size + 2 ^ 64 - 1) = size - 1) := by
  obtain ⟨_, _, _, z0, _, hI⟩ := init_success_inv E A sig fuel r1 r2 k cosmology pmax size I h
  subst hp0 hx0 hxmin
  rw [hI]
  refine ⟨rfl, rfl, rfl, ?_, rfl, rfl, rfl, rfl, rfl, rfl, rfl, rfl, rfl, ?_⟩
  · intro hs
    have hne : E.M_SQRT2 ≠ 0 := by
      intro h0
      rw [h0, mul_zero] at hs
      exact zero_ne_one hs
    show _ - Dbl.fin E.M_SQRT1_2 * Dbl.fin 4 = _
    rw [Dbl.fin_mul_fin, Dbl.fin_div_fin _ _ hne]
    congr 2
    field_simp
    linear_combination 4 * hs
  · intro h1 h2
    have : size + 2 ^ 64 - 1 = (size - 1) + 2 ^ 64 := by omega
    rw [sz, this, Nat.add_mod_right]
    exact Nat.mod_eq_of_lt (by omega)

/-- Witness for `init_stores_grid`: a build over the rationals with `r1 = 1`, `r2 = 2`,
`k = 0`, `pmax = 1`, `size = 2` succeeds and stores `xmax = log pmax`. -/
theorem init_stores_grid_witness :
    ∃ I, log_radial_integrator_init sampleEnv allocsOk none 1 (Dbl.fin 1) (Dbl.fin 2) 0 false
        (Dbl.fin 1) 2 = .ok (InitRet.integrator I) ∧
      I.xmax = sampleEnv.log (Dbl.fin 1) ∧ I.r1 = Dbl.fin 1 ∧ I.r2 = Dbl.fin 2 ∧ I.k = 0 := by
  obtain ⟨I, hI⟩ := init_returns_integrator sampleEnv allocsOk none 1 (Dbl.fin 1) (Dbl.fin 2)
    0 false (Dbl.fin 1) 2 ⟨rfl, rfl, rfl⟩ (fun _ => ⟨rfl, rfl⟩) ⟨rfl, rfl, rfl, rfl⟩ rfl
    (fun m _ => init_cell_returns sampleEnv 0 _ _ _ _ _ _ m (fun _ _ _ _ _ => rfl))
  have h := init_stores_grid sampleEnv allocsOk none 1 (Dbl.fin 1) (Dbl.fin 2) 0 false
    (Dbl.fin 1) 2 I _ _ _ hI rfl rfl rfl
  exact ⟨I, hI, h.1, h.2.2.2.2.1, h.2.2.2.2.2.1, h.2.2.2.2.2.2.1⟩

end InitTheorems


/-! ## Evaluation at a node of the region0 grid -/

section GridNode

/-- On positive arguments `log (2 p^2 / r0)` with `p = exp x`, `r0 = exp y` is
`ln 2 + 2 x - y`. -/
theorem log_b_of_node (x y : ℝ) :
    Real.log (2 * Real.exp x ^ 2 / Real.exp y) = Real.log 2 + 2 * x - y := by
  have h2 : (2 : ℝ) ≠ 0 := by norm_num
  have hx : Real.exp x ^ 2 ≠ 0 := pow_ne_zero 2 (Real.exp_pos x).ne'
  rw [Real.log_div (mul_ne_zero h2 hx) (Real.exp_pos y).ne', Real.log_mul h2 hx,
    Real.log_pow, Real.log_exp, Real.log_exp]
  push_cast
  ring

/-- The table of a successfully built integrator holds, at the flat index of the node
`(ix, iy)`, the return value of `log_radial_integral` at the parameters of that node. -/
theorem init_table_entry {α : Type} [LinearOrderedField α] (E : Env α) (A : Allocs)
    (sig : Option Nat) (fuel : Nat)
    (r1 r2 : Dbl α) (k : Int) (cosmology : Bool) (pmax : Dbl α) (size : Nat)
    (I : log_radial_integrator α) (ix iy : Nat)
    (h : log_radial_integrator_init E A sig fuel r1 r2 k cosmology pmax size
      = .ok (InitRet.integrator I))
    (hsize : size < 2 ^ 32) (hix : ix < size) (hiy : iy < size) :
    I.region0.nt = size ∧
    log_radial_integral E fuel r1 r2
      (E.exp (I.region0.smin + Dbl.ofNat ix * I.region0.ds))
      (Dbl.fin 2 * Dbl.gsl_pow_2 (E.exp (I.region0.smin + Dbl.ofNat ix * I.region0.ds))
        / E.exp (I.region0.tmin + Dbl.ofNat iy * I.region0.dt)) k cosmology
      = .ok (I.region0.data (ix * size + iy)) := by
  obtain ⟨_, _, hsig, z0, hl, hI⟩ :=
    init_success_inv E A sig fuel r1 r2 k cosmology pmax size I h
  have hss : size * size < 2 ^ 64 := by
    have : size * size < 2 ^ 32 * 2 ^ 32 := Nat.mul_lt_mul'' hsize hsize
    simpa using this
  have hsz : sz (size * size) = size * size := Nat.mod_eq_of_lt hss
  rw [hsz] at hl hsig
  have hm : ix * size + iy < size * size := by
    have h1 : ix * size + iy < ix * size + size := by omega
    have h2 : ix * size + size = (ix + 1) * size := by ring
    have h3 : (ix + 1) * size ≤ size * size := Nat.mul_le_mul_right size (by omega)
    omega
  obtain ⟨hcell, _⟩ := init_loop_complete E sig fuel r1 r2 k cosmology _ size (size * size)
    0 _ z0
    (fun t _ h2 => OMP_WAS_INTERRUPTED_mono sig _ t (by omega) hsig)
    (fun m c _ h2 hc => by
      rw [init_cell_index E fuel r1 r2 k cosmology _ size m c hc]
      exact cell_index_eq size m (by omega) hss)
    hl
  have hv := init_cell_value E fuel r1 r2 k cosmology _ size _ _
    (hcell (ix * size + iy) (Nat.zero_le _) (by omega))
  have hpos : 0 < size := by omega
  have hdiv : (ix * size + iy) / size = ix := by
    rw [Nat.add_comm, Nat.add_mul_div_right _ _ hpos, Nat.div_eq_of_lt hiy, Nat.zero_add]
  have hmod : (ix * size + iy) % size = iy := by
    rw [Nat.add_comm, Nat.add_mul_mod_self_right, Nat.mod_eq_of_lt hiy]
  rw [hdiv, hmod] at hv
  rw [hI]
  exact ⟨rfl, hv⟩

/-- At a node of the region0 grid selected by the region0 branch, the direct call of
`log_radial_integral` returns the stored sample `v` and `log_radial_integrator_eval` returns
`v + (exp x / exp y)^2`. -/
theorem eval_at_node_aux (E : Env ℝ) (A : Allocs) (sig : Option Nat) (fuel : Nat)
    (r1 r2 : Dbl ℝ) (k : Int) (cosmology : Bool) (pmax : Dbl ℝ) (size : Nat)
    (I : log_radial_integrator ℝ) (ix iy : Nat) (x y : ℝ)
    (hlog : ∀ t : ℝ, 0 < t → E.rlog t = Real.log t)
    (hexp : ∀ t : ℝ, E.rexp t = Real.exp t)
    (hln2 : E.M_LN2 = Real.log 2)
    (hinit : log_radial_integrator_init E A sig fuel r1 r2 k cosmology pmax size
      = .ok (InitRet.integrator I))
    (hsize : size < 2 ^ 32) (hix : ix < size) (hiy : iy < size)
    (hxnode : I.region0.smin + Dbl.ofNat ix * I.region0.ds = Dbl.fin x)
    (hynode : I.region0.tmin + Dbl.ofNat iy * I.region0.dt = Dbl.fin y)
    (hassert : Dbl.le (Dbl.fin x) I.xmax = true)
    (hbranch1 : Dbl.ge (Dbl.fin y) I.ymax = false)
    (hbranch2 : Dbl.le (Dbl.fin (1 / 2) * (Dbl.fin x + Dbl.fin y)) I.vmax = false)
    (hnode : E.bicubic_interp_eval I.region0 (Dbl.fin x) (Dbl.fin y)
      = I.region0.data (ix * I.region0.nt + iy)) :
    ∃ v : Dbl ℝ,
      v = I.region0.data (ix * I.region0.nt + iy) ∧
      log_radial_integral E fuel r1 r2 (E.exp (Dbl.fin x))
        (Dbl.fin 2 * Dbl.gsl_pow_2 (E.exp (Dbl.fin x)) / E.exp (Dbl.fin y)) k cosmology
        = .ok v ∧
      log_radial_integrator_eval E I (E.exp (Dbl.fin x))
        (Dbl.fin 2 * Dbl.gsl_pow_2 (E.exp (Dbl.fin x)) / E.exp (Dbl.fin y))
        (E.log (E.exp (Dbl.fin x)))
        (E.log (Dbl.fin 2 * Dbl.gsl_pow_2 (E.exp (Dbl.fin x)) / E.exp (Dbl.fin y)))
        = .ok (v + Dbl.fin ((Real.exp x / Real.exp y) ^ 2)) ∧
      0 < (Real.exp x / Real.exp y) ^ 2 := by
  obtain ⟨hnt, hv⟩ := init_table_entry E A sig fuel r1 r2 k cosmology pmax size I ix iy
    hinit hsize hix hiy
  rw [hxnode, hynode] at hv
  rw [hnt] at hnode ⊢
  have hex : 0 < Real.exp x := Real.exp_pos x
  have hey : 0 < Real.exp y := Real.exp_pos y
  have hp : E.exp (Dbl.fin x) = Dbl.fin (Real.exp x) := by simp [Env.exp, hexp]
  have hr0 : E.exp (Dbl.fin y) = Dbl.fin (Real.exp y) := by simp [Env.exp, hexp]
  have hb : Dbl.fin 2 * Dbl.gsl_pow_2 (E.exp (Dbl.fin x)) / E.exp (Dbl.fin y)
      = Dbl.fin (2 * Real.exp x ^ 2 / Real.exp y) := by
    rw [hp, hr0, Dbl.gsl_pow_2_fin, Dbl.fin_mul_fin, Dbl.fin_div_fin _ _ hey.ne']
  have hbpos : 0 < 2 * Real.exp x ^ 2 / Real.exp y := by positivity
  have hlp : E.log (Dbl.fin (Real.exp x)) = Dbl.fin x := by
    simp [Env.log, hex, hlog _ hex]
  have hlb : E.log (Dbl.fin (2 * Real.exp x ^ 2 / Real.exp y))
      = Dbl.fin (Real.log 2 + 2 * x - y) := by
    simp only [Env.log, hbpos, if_true, hlog _ hbpos, log_b_of_node]
  have hy : Dbl.fin E.M_LN2 + Dbl.fin 2 * Dbl.fin x - Dbl.fin (Real.log 2 + 2 * x - y)
      = Dbl.fin y := by
    rw [hln2, Dbl.fin_mul_fin, Dbl.fin_add_fin, Dbl.fin_sub_fin]
    congr 1
    ring
  have hpne : Dbl.eq (Dbl.fin (Real.exp x)) (Dbl.fin 0) = false := by
    simp [Dbl.eq, hex.ne']
  have hterm : Dbl.gsl_pow_2 (Dbl.fin (1 / 2) * Dbl.fin (2 * Real.exp x ^ 2 / Real.exp y)
      / Dbl.fin (Real.exp x)) = Dbl.fin ((Real.exp x / Real.exp y) ^ 2) := by
    rw [Dbl.fin_mul_fin, Dbl.fin_div_fin _ _ hex.ne', Dbl.gsl_pow_2_fin]
    congr 2
    field_simp
    ring
  refine ⟨I.region0.data (ix * size + iy), rfl, hv, ?_, by positivity⟩
  rw [hb, hp, hlp, hlb, eval_unfold_interp E I _ _ _ _ hpne hassert, hy, hbranch1,
    hbranch2, hterm, hnode]
  simp

/-- Claim C2, as amended: for a built integrator (`size < 2^32`) and a node
`(x, y) = (xmin + ix d, ymin + iy d)` of the region0 grid that is selected by the region0
branch, assuming the bicubic interpolant returns the stored sample at this node: with
`p = exp x` and `b = 2 p^2 / exp y`, the direct call `log_radial_integral (r1, r2, p, b, k,
cosmology)` returns the stored sample `v`, and `log_radial_integrator_eval (p, b, ln p, ln b)`
returns `v + (0.5 b / p)^2`, where `(0.5 b / p)^2 = (exp x / exp y)^2 > 0`. -/
theorem eval_at_region0_node (E : Env ℝ) (A : Allocs) (sig : Option Nat) (fuel : Nat)
    (r1 r2 : Dbl ℝ) (k : Int) (cosmology : Bool) (pmax : Dbl ℝ) (size : Nat)
    (I : log_radial_integrator ℝ) (ix iy : Nat) (x y : ℝ)
    (hlog : ∀ t : ℝ, 0 < t → E.rlog t = Real.log t)
    (hexp : ∀ t : ℝ, E.rexp t = Real.exp t)
    (hln2 : E.M_LN2 = Real.log 2)
    (hinit : log_radial_integrator_init E A sig fuel r1 r2 k cosmology pmax size
      = .ok (InitRet.integrator I))
    (hsize : size < 2 ^ 32) (hix : ix < size) (hiy : iy < size)
    (hxnode : I.region0.smin + Dbl.ofNat ix * I.region0.ds = Dbl.fin x)
    (hynode : I.region0.tmin + Dbl.ofNat iy * I.region0.dt = Dbl.fin y)
    (hassert : Dbl.le (Dbl.fin x) I.xmax = true)
    (hbranch1 : Dbl.ge (Dbl.fin y) I.ymax = false)
    (hbranch2 : Dbl.le (Dbl.fin (1 / 2) * (Dbl.fin x + Dbl.fin y)) I.vmax = false)
    (hnode : E.bicubic_interp_eval I.region0 (Dbl.fin x) (Dbl.fin y)
      = I.region0.data (ix * I.region0.nt + iy)) :
    ∃ v : Dbl ℝ,
      v = I.region0.data (ix * I.region0.nt + iy) ∧
      log_radial_integral E fuel r1 r2 (E.exp (Dbl.fin x))
        (Dbl.fin 2 * Dbl.gsl_pow_2 (E.exp (Dbl.fin x)) / E.exp (Dbl.fin y)) k cosmology
        = .ok v ∧
      log_radial_integrator_eval E I (E.exp (Dbl.fin x))
        (Dbl.fin 2 * Dbl.gsl_pow_2 (E.exp (Dbl.fin x)) / E.exp (Dbl.fin y))
        (E.log (E.exp (Dbl.fin x)))
        (E.log (Dbl.fin 2 * Dbl.gsl_pow_2 (E.exp (Dbl.fin x)) / E.exp (Dbl.fin y)))
        = .ok (v + Dbl.fin ((Real.exp x / Real.exp y) ^ 2)) ∧
      0 < (Real.exp x / Real.exp y) ^ 2 :=
  eval_at_node_aux E A sig fuel r1 r2 k cosmology pmax size I ix iy x y hlog hexp hln2 hinit
    hsize hix hiy hxnode hynode hassert hbranch1 hbranch2 hnode

end GridNode

/-! ## Finiteness of the tabulated values -/

section Finite

variable {α : Type} [LinearOrderedField α]

/-- A breakpoint kept above a positive finite entry and below a finite `r2` is positive
and finite. -/
theorem push_breakpoint_pos (bps : List (Dbl α)) (last c r2 : Dbl α)
    (hb : ∀ r ∈ bps, Dbl.IsPosFin r) (hl : Dbl.IsPosFin last) (hr2 : ∃ v, r2 = Dbl.fin v) :
    (∀ r ∈ (push_breakpoint bps last c r2).1, Dbl.IsPosFin r) ∧
    Dbl.IsPosFin (push_breakpoint bps last c r2).2 := by
  unfold push_breakpoint
  split
  · rename_i hc
    simp only [Bool.and_eq_true] at hc
    obtain ⟨hgt, hlt⟩ := hc
    obtain ⟨l, rfl, hlpos⟩ := hl
    obtain ⟨v2, rfl⟩ := hr2
    have hcpos : Dbl.IsPosFin c := by
      cases c with
      | fin v =>
        simp only [Dbl.gt, Dbl.lt, decide_eq_true_eq] at hgt
        exact ⟨v, rfl, lt_trans hlpos hgt⟩
      | pinf => simp [Dbl.lt] at hlt
      | ninf => simp [Dbl.gt, Dbl.lt] at hgt
      | nan => simp [Dbl.lt] at hlt
    refine ⟨?_, hcpos⟩
    intro r hr
    simp only [List.mem_append, List.mem_singleton] at hr
    rcases hr with hr | hr
    · exact hb r hr
    · rw [hr]; exact hcpos
  · exact ⟨hb, hl⟩

/-- Between positive finite limits every breakpoint is positive and finite. -/
theorem breakpoints_pos (E : Env α) (r1 r2 p b : Dbl α)
    (h1 : Dbl.IsPosFin r1) (h2 : Dbl.IsPosFin r2) :
    ∀ r ∈ breakpoints E r1 r2 p b, Dbl.IsPosFin r := by
  have hr2 : ∃ v, r2 = Dbl.fin v := by
    obtain ⟨v, hv, _⟩ := h2
    exact ⟨v, hv⟩
  unfold breakpoints
  split
  · have s1 := push_breakpoint_pos [r1] r1
      (Dbl.fin 1 / (Dbl.fin 1 / (Dbl.fin 2 * Dbl.gsl_pow_2 p / b)
        + E.sqrt (-(E.log (Dbl.fin (1 / 100)))) / p)) r2
      (fun r hr => by rw [List.mem_singleton] at hr; rw [hr]; exact h1) h1 hr2
    have s2 := push_breakpoint_pos _ _ (Dbl.fin 2 * Dbl.gsl_pow_2 p / b) r2 s1.1 s1.2 hr2
    have s3 := push_breakpoint_pos _ _
      (Dbl.fin 1 / (Dbl.fin 1 / (Dbl.fin 2 * Dbl.gsl_pow_2 p / b)
        - E.sqrt (-(E.log (Dbl.fin (1 / 100)))) / p)) r2 s2.1 s2.2 hr2
    intro r hr
    simp only [List.mem_append, List.mem_singleton] at hr
    rcases hr with hr | hr
    · exact s3.1 r hr
    · rw [hr]; exact h2
  · intro r hr
    simp only [List.mem_cons, List.mem_singleton, List.not_mem_nil, or_false] at hr
    rcases hr with hr | hr
    · rw [hr]; exact h1
    · rw [hr]; exact h2

/-- The breakpoint list is never empty. -/
theorem breakpoints_ne_nil (E : Env α) (r1 r2 p b : Dbl α) :
    breakpoints E r1 r2 p b ≠ [] := by
  unfold breakpoints
  split <;> simp

/-- With a positive finite Bessel factor, finite `p != 0` and `b`, and without cosmology, the
log-integrand is finite at every positive finite `r`. -/
theorem log_radial_integrand_fin (E : Env α) (scale p b : α) (k : Int) (r : Dbl α)
    (hI0 : ∀ t, ∃ i0, E.I0_scaled t = Dbl.fin i0 ∧ 0 < i0) (hp : p ≠ 0)
    (hr : Dbl.IsPosFin r) :
    ∃ w, log_radial_integrand E ⟨Dbl.fin scale, Dbl.fin p, Dbl.fin b, k, false⟩ r
      = Dbl.fin w := by
  obtain ⟨ρ, rfl, hρ⟩ := hr
  obtain ⟨i0, hi0, hi0pos⟩ := hI0 (Dbl.fin (b / ρ))
  have hpos : 0 < i0 * ρ ^ k := mul_pos hi0pos (zpow_pos hρ k)
  simp only [log_radial_integrand, hi0, Dbl.gsl_pow_int_fin ρ hρ.ne', Dbl.fin_mul_fin,
    Env.log, hpos, if_true, Dbl.fin_div_fin _ _ hρ.ne', Dbl.fin_div_fin _ _ hp,
    Dbl.fin_sub_fin, Dbl.gsl_pow_2_fin, Dbl.fin_add_fin, Bool.false_eq_true, if_false]
  exact ⟨_, rfl⟩

/-- Running maximum of finite values from a finite start is finite. -/
theorem max_log_offset_fin (E : Env α) (params : radial_integrand_params α) :
    ∀ (l : List (Dbl α)) (cur : Dbl α),
      (∀ r ∈ l, ∃ w, log_radial_integrand E params r = Dbl.fin w) →
      (∃ w, cur = Dbl.fin w) →
      ∃ w, max_log_offset E params l cur = Dbl.fin w := by
  intro l
  induction l with
  | nil => intro cur _ hc; exact hc
  | cons r rest ih =>
    intro cur hl hc
    simp only [max_log_offset]
    apply ih _ (fun r' hr' => hl r' (List.mem_cons_of_mem _ hr'))
    split
    · exact hl r (List.mem_cons_self _ _)
    · exact hc

/-- Running maximum of finite values over a non-empty list, started from `-INFINITY`, is
finite. -/
theorem max_log_offset_fin_of_ninf (E : Env α) (params : radial_integrand_params α)
    (l : List (Dbl α)) (hne : l ≠ [])
    (hl : ∀ r ∈ l, ∃ w, log_radial_integrand E params r = Dbl.fin w) :
    ∃ w, max_log_offset E params l Dbl.ninf = Dbl.fin w := by
  cases l with
  | nil => exact absurd rfl hne
  | cons r rest =>
    simp only [max_log_offset]
    obtain ⟨w, hw⟩ := hl r (List.mem_cons_self _ _)
    apply max_log_offset_fin E params rest _ (fun r' hr' => hl r' (List.mem_cons_of_mem _ hr'))
    rw [hw]
    exact ⟨w, by simp [Dbl.gt, Dbl.lt]⟩

/-- With a positive finite Bessel factor, positive finite limits, finite `p != 0` and `b`,
no cosmology, and a quadrature that reports success with result `1`, `log_radial_integral`
returns a finite value. -/
theorem log_radial_integral_fin (E : Env α) (fuel : Nat) (r1 r2 : Dbl α) (p b : α) (k : Int)
    (hI0 : ∀ t, ∃ i0, E.I0_scaled t = Dbl.fin i0 ∧ 0 < i0)
    (hq : ∀ f pts abstol reltol n,
      E.qagp f pts abstol reltol n = (GslStatus.GSL_SUCCESS, Dbl.fin 1))
    (h1 : Dbl.IsPosFin r1) (h2 : Dbl.IsPosFin r2) (hp : p ≠ 0) :
    ∃ w, log_radial_integral E (fuel + 1) r1 r2 (Dbl.fin p) (Dbl.fin b) k false
      = .ok (Dbl.fin w) := by
  obtain ⟨w, hw⟩ := max_log_offset_fin_of_ninf E ⟨Dbl.fin 0, Dbl.fin p, Dbl.fin b, k, false⟩
    (breakpoints E r1 r2 (Dbl.fin p) (Dbl.fin b)) (breakpoints_ne_nil E r1 r2 _ _)
    (fun r hr => log_radial_integrand_fin E 0 p b k r hI0 hp
      (breakpoints_pos E r1 r2 _ _ h1 h2 r hr))
  have hoff : log_offset_of E r1 r2 (Dbl.fin p) (Dbl.fin b) k false = Dbl.fin w := by
    simp only [log_offset_of, hw, Dbl.eq]
    simp
  have h1pos : (0 : α) < 1 := one_pos
  simp only [log_radial_integral, log_radial_integral_run, qagp_loop, hq, hoff, Env.log,
    h1pos, if_true, Dbl.fin_add_fin]
  exact ⟨_, rfl⟩

end Finite

/-! ## A built integrator with a region0 node: `size = 3`, node `(2, 1)` -/

section NodeExample

/-- The grid constants for `r1 = 1`, `r2 = 2`, `k = 0`, `pmax = 1`, `size = 3` with the real
libm. -/
theorem grid_example :
    grid
        (nodeEnv (stubEnv Real.log Real.exp Real.sqrt (Real.log 2) (Real.sqrt 2)
          (Real.sqrt 2)⁻¹) 7) (Dbl.fin 1) (Dbl.fin 2) 0 (Dbl.fin 1) 3
      = ⟨Dbl.fin 0, Dbl.fin 0, Dbl.fin (0 - (1 + Real.sqrt 2) * 4), Dbl.fin (0 + 4),
         Dbl.fin (2 * 0 - Real.sqrt 2 * 4 - 0),
         Dbl.fin ((0 - (0 - (1 + Real.sqrt 2) * 4)) / 2),
         Dbl.fin (-(1 + (Real.sqrt 2)⁻¹) * 4), Dbl.fin (0 - (Real.sqrt 2)⁻¹ * 4)⟩ := by
  have hs : sz 18446744073709551618 = 2 := by decide
  simp [grid, hs, Env.log, stubEnv, nodeEnv, Dbl.GSL_MIN_DBL, Dbl.lt, Dbl.fin_sub_fin,
    Dbl.fin_mul_fin, Dbl.fin_add_fin, Dbl.neg_fin, Dbl.ofNat, Dbl.fin_div_fin]

/-- The build for `r1 = 1`, `r2 = 2`, `k = 0`, `pmax = 1`, `size = 3` succeeds; its node
`(ix, iy) = (2, 1)` is `(x, y) = (0, 2 - 2 sqrt 2)`, is selected by the region0 branch, and
holds a finite sample. -/
theorem node_example :
    ∃ I : log_radial_integrator ℝ,
      log_radial_integrator_init
          (nodeEnv (stubEnv Real.log Real.exp Real.sqrt (Real.log 2) (Real.sqrt 2)
            (Real.sqrt 2)⁻¹) 7) allocsOk none 1 (Dbl.fin 1) (Dbl.fin 2) 0 false
        (Dbl.fin 1) 3 = .ok (InitRet.integrator I) ∧
      I.region0.smin + Dbl.ofNat 2 * I.region0.ds = Dbl.fin 0 ∧
      I.region0.tmin + Dbl.ofNat 1 * I.region0.dt = Dbl.fin (2 - 2 * Real.sqrt 2) ∧
      Dbl.le (Dbl.fin 0) I.xmax = true ∧
      Dbl.ge (Dbl.fin (2 - 2 * Real.sqrt 2)) I.ymax = false ∧
      Dbl.le (Dbl.fin (1 / 2) * (Dbl.fin 0 + Dbl.fin (2 - 2 * Real.sqrt 2))) I.vmax = false ∧
          (nodeEnv (stubEnv Real.log Real.exp Real.sqrt (Real.log 2) (Real.sqrt 2)
            (Real.sqrt 2)⁻¹) 7).bicubic_interp_eval I.region0 (Dbl.fin 0) (Dbl.fin (2 - 2 * Real.sqrt 2))
        = I.region0.data (2 * I.region0.nt + 1) ∧
      ∃ w : ℝ, I.region0.data (2 * I.region0.nt + 1) = Dbl.fin w := by
  obtain ⟨I, hI⟩ := init_returns_integrator
      (nodeEnv (stubEnv Real.log Real.exp Real.sqrt (Real.log 2) (Real.sqrt 2)
        (Real.sqrt 2)⁻¹) 7) allocsOk none 1 (Dbl.fin 1) (Dbl.fin 2)
    0 false (Dbl.fin 1) 3 ⟨rfl, rfl, rfl⟩ (fun _ => ⟨rfl, rfl⟩) ⟨rfl, rfl, rfl, rfl⟩ rfl
    (fun m _ => init_cell_returns
        (nodeEnv (stubEnv Real.log Real.exp Real.sqrt (Real.log 2) (Real.sqrt 2)
          (Real.sqrt 2)⁻¹) 7) 0 _ _ _ _ _ _ m (fun _ _ _ _ _ => rfl))
  obtain ⟨hnt, hentry⟩ := init_table_entry
      (nodeEnv (stubEnv Real.log Real.exp Real.sqrt (Real.log 2) (Real.sqrt 2)
        (Real.sqrt 2)⁻¹) 7) allocsOk none 1 (Dbl.fin 1) (Dbl.fin 2) 0 false
    (Dbl.fin 1) 3 I 2 1 hI (by norm_num) (by norm_num) (by norm_num)
  obtain ⟨_, _, _, z0, _, hIeq⟩ := init_success_inv
      (nodeEnv (stubEnv Real.log Real.exp Real.sqrt (Real.log 2) (Real.sqrt 2)
        (Real.sqrt 2)⁻¹) 7) allocsOk none 1 (Dbl.fin 1) (Dbl.fin 2)
    0 false (Dbl.fin 1) 3 I hI
  rw [grid_example] at hIeq
  have hs0 : (0 : ℝ) ≤ Real.sqrt 2 := Real.sqrt_nonneg 2
  have hs2 : Real.sqrt 2 * Real.sqrt 2 = 2 := Real.mul_self_sqrt (by norm_num)
  have hspos : (0 : ℝ) < Real.sqrt 2 := by
    rcases hs0.lt_or_eq with h | h
    · exact h
    · rw [← h] at hs2; norm_num at hs2
  have hinv : (Real.sqrt 2)⁻¹ = Real.sqrt 2 / 2 := by
    rw [eq_div_iff (two_ne_zero), inv_mul_eq_div, div_eq_iff hspos.ne']
    exact hs2.symm
  have hx : I.region0.smin + Dbl.ofNat 2 * I.region0.ds = Dbl.fin 0 := by
    rw [hIeq]
    simp only [Dbl.ofNat, Dbl.fin_mul_fin, Dbl.fin_add_fin]
    congr 1
    push_cast
    ring
  have hy : I.region0.tmin + Dbl.ofNat 1 * I.region0.dt = Dbl.fin (2 - 2 * Real.sqrt 2) := by
    rw [hIeq]
    simp only [Dbl.ofNat, Dbl.fin_mul_fin, Dbl.fin_add_fin]
    congr 1
    push_cast
    ring
  refine ⟨I, hI, hx, hy, ?_, ?_, ?_, ?_, ?_⟩
  · rw [hIeq]
    simp [Dbl.le]
  · rw [hIeq]
    simp only [Dbl.ge, Dbl.le, decide_eq_false_iff_not, not_le]
    linarith
  · rw [hIeq]
    simp only [Dbl.fin_add_fin, Dbl.fin_mul_fin, Dbl.le, decide_eq_false_iff_not, not_le,
      hinv]
    linarith
  · rw [hnt]
    rfl
  · rw [hnt]
    rw [hx, hy] at hentry
    have hp :
        (nodeEnv (stubEnv Real.log Real.exp Real.sqrt (Real.log 2) (Real.sqrt 2)
          (Real.sqrt 2)⁻¹) 7).exp (Dbl.fin 0) = Dbl.fin (Real.exp 0) := rfl
    have hr0 :
        (nodeEnv (stubEnv Real.log Real.exp Real.sqrt (Real.log 2) (Real.sqrt 2)
          (Real.sqrt 2)⁻¹) 7).exp (Dbl.fin (2 - 2 * Real.sqrt 2))
        = Dbl.fin (Real.exp (2 - 2 * Real.sqrt 2)) := rfl
    rw [hp, hr0, Dbl.gsl_pow_2_fin, Dbl.fin_mul_fin,
      Dbl.fin_div_fin _ _ (Real.exp_pos _).ne'] at hentry
    obtain ⟨w, hw⟩ := log_radial_integral_fin
        (nodeEnv (stubEnv Real.log Real.exp Real.sqrt (Real.log 2) (Real.sqrt 2)
          (Real.sqrt 2)⁻¹) 7) 0 (Dbl.fin 1) (Dbl.fin 2) (Real.exp 0)
      (2 * Real.exp 0 ^ 2 / Real.exp (2 - 2 * Real.sqrt 2)) 0
      (fun _ => ⟨1, rfl, one_pos⟩) (fun _ _ _ _ _ => rfl)
      ⟨1, rfl, one_pos⟩ ⟨2, rfl, two_pos⟩ (Real.exp_pos 0).ne'
    rw [hw] at hentry
    simp only [Except.ok.injEq] at hentry
    exact ⟨w, hentry.symm⟩

/-- Witness for `eval_at_region0_node`: the node `(2, 1)` of the `3 × 3` table built for
`r1 = 1`, `r2 = 2`, `k = 0`, `pmax = 1`. -/
theorem eval_at_region0_node_witness :
    ∃ (I : log_radial_integrator ℝ) (v : Dbl ℝ),
      log_radial_integrator_init
          (nodeEnv (stubEnv Real.log Real.exp Real.sqrt (Real.log 2) (Real.sqrt 2)
            (Real.sqrt 2)⁻¹) 7) allocsOk none 1 (Dbl.fin 1) (Dbl.fin 2) 0 false
        (Dbl.fin 1) 3 = .ok (InitRet.integrator I) ∧
      log_radial_integral
          (nodeEnv (stubEnv Real.log Real.exp Real.sqrt (Real.log 2) (Real.sqrt 2)
            (Real.sqrt 2)⁻¹) 7) 1 (Dbl.fin 1) (Dbl.fin 2) (
          (nodeEnv (stubEnv Real.log Real.exp Real.sqrt (Real.log 2) (Real.sqrt 2)
            (Real.sqrt 2)⁻¹) 7).exp (Dbl.fin 0))
        (Dbl.fin 2 * Dbl.gsl_pow_2 (
            (nodeEnv (stubEnv Real.log Real.exp Real.sqrt (Real.log 2) (Real.sqrt 2)
              (Real.sqrt 2)⁻¹) 7).exp (Dbl.fin 0))
          /
              (nodeEnv (stubEnv Real.log Real.exp Real.sqrt (Real.log 2) (Real.sqrt 2)
                (Real.sqrt 2)⁻¹) 7).exp (Dbl.fin (2 - 2 * Real.sqrt 2))) 0 false = .ok v ∧
      log_radial_integrator_eval
          (nodeEnv (stubEnv Real.log Real.exp Real.sqrt (Real.log 2) (Real.sqrt 2)
            (Real.sqrt 2)⁻¹) 7) I (
          (nodeEnv (stubEnv Real.log Real.exp Real.sqrt (Real.log 2) (Real.sqrt 2)
            (Real.sqrt 2)⁻¹) 7).exp (Dbl.fin 0))
        (Dbl.fin 2 * Dbl.gsl_pow_2 (
            (nodeEnv (stubEnv Real.log Real.exp Real.sqrt (Real.log 2) (Real.sqrt 2)
              (Real.sqrt 2)⁻¹) 7).exp (Dbl.fin 0))
          /
              (nodeEnv (stubEnv Real.log Real.exp Real.sqrt (Real.log 2) (Real.sqrt 2)
                (Real.sqrt 2)⁻¹) 7).exp (Dbl.fin (2 - 2 * Real.sqrt 2)))
        (
            (nodeEnv (stubEnv Real.log Real.exp Real.sqrt (Real.log 2) (Real.sqrt 2)
              (Real.sqrt 2)⁻¹) 7).log (
            (nodeEnv (stubEnv Real.log Real.exp Real.sqrt (Real.log 2) (Real.sqrt 2)
              (Real.sqrt 2)⁻¹) 7).exp (Dbl.fin 0)))
        (
            (nodeEnv (stubEnv Real.log Real.exp Real.sqrt (Real.log 2) (Real.sqrt 2)
              (Real.sqrt 2)⁻¹) 7).log (Dbl.fin 2 * Dbl.gsl_pow_2 (
            (nodeEnv (stubEnv Real.log Real.exp Real.sqrt (Real.log 2) (Real.sqrt 2)
              (Real.sqrt 2)⁻¹) 7).exp (Dbl.fin 0))
          /
              (nodeEnv (stubEnv Real.log Real.exp Real.sqrt (Real.log 2) (Real.sqrt 2)
                (Real.sqrt 2)⁻¹) 7).exp (Dbl.fin (2 - 2 * Real.sqrt 2))))
        = .ok (v + Dbl.fin ((Real.exp 0 / Real.exp (2 - 2 * Real.sqrt 2)) ^ 2)) := by
  obtain ⟨I, hI, hx, hy, ha, hb1, hb2, hn, _⟩ := node_example
  obtain ⟨v, _, hv1, hv2, _⟩ := eval_at_region0_node
      (nodeEnv (stubEnv Real.log Real.exp Real.sqrt (Real.log 2) (Real.sqrt 2)
        (Real.sqrt 2)⁻¹) 7) allocsOk none 1 (Dbl.fin 1)
    (Dbl.fin 2) 0 false (Dbl.fin 1) 3 I 2 1 0 (2 - 2 * Real.sqrt 2)
    (fun _ _ => rfl) (fun _ => rfl) rfl hI (by norm_num) (by norm_num) (by norm_num)
    hx hy ha hb1 hb2 hn
  exact ⟨I, v, hI, hv1, hv2⟩

/-- Counterexample to claim C2: in the `3 × 3` table built for `r1 = 1`, `r2 = 2`, `k = 0`,
`pmax = 1` (real libm, quadrature reporting success with result `1`), the node
`(ix, iy) = (2, 1)`, that is `(x, y) = (0, 2 - 2 sqrt 2)`, is selected by the region0 branch and
the interpolant returns its stored sample, yet `log_radial_integrator_eval (p, b, ln p, ln b)`
differs from `log_radial_integral (r1, r2, p, b, k, cosmology)`. -/
theorem eval_at_node_counterexample :
    ∃ I : log_radial_integrator ℝ,
      log_radial_integrator_init
          (nodeEnv (stubEnv Real.log Real.exp Real.sqrt (Real.log 2) (Real.sqrt 2)
            (Real.sqrt 2)⁻¹) 7) allocsOk none 1 (Dbl.fin 1) (Dbl.fin 2) 0 false
        (Dbl.fin 1) 3 = .ok (InitRet.integrator I) ∧
      I.region0.smin + Dbl.ofNat 2 * I.region0.ds = Dbl.fin 0 ∧
      I.region0.tmin + Dbl.ofNat 1 * I.region0.dt = Dbl.fin (2 - 2 * Real.sqrt 2) ∧
      Dbl.le (Dbl.fin 0) I.xmax = true ∧
      Dbl.ge (Dbl.fin (2 - 2 * Real.sqrt 2)) I.ymax = false ∧
      Dbl.le (Dbl.fin (1 / 2) * (Dbl.fin 0 + Dbl.fin (2 - 2 * Real.sqrt 2))) I.vmax = false ∧
          (nodeEnv (stubEnv Real.log Real.exp Real.sqrt (Real.log 2) (Real.sqrt 2)
            (Real.sqrt 2)⁻¹) 7).bicubic_interp_eval I.region0 (Dbl.fin 0) (Dbl.fin (2 - 2 * Real.sqrt 2))
        = I.region0.data (2 * I.region0.nt + 1) ∧
      log_radial_integrator_eval
          (nodeEnv (stubEnv Real.log Real.exp Real.sqrt (Real.log 2) (Real.sqrt 2)
            (Real.sqrt 2)⁻¹) 7) I (
          (nodeEnv (stubEnv Real.log Real.exp Real.sqrt (Real.log 2) (Real.sqrt 2)
            (Real.sqrt 2)⁻¹) 7).exp (Dbl.fin 0))
        (Dbl.fin 2 * Dbl.gsl_pow_2 (
            (nodeEnv (stubEnv Real.log Real.exp Real.sqrt (Real.log 2) (Real.sqrt 2)
              (Real.sqrt 2)⁻¹) 7).exp (Dbl.fin 0))
          /
              (nodeEnv (stubEnv Real.log Real.exp Real.sqrt (Real.log 2) (Real.sqrt 2)
                (Real.sqrt 2)⁻¹) 7).exp (Dbl.fin (2 - 2 * Real.sqrt 2)))
        (
            (nodeEnv (stubEnv Real.log Real.exp Real.sqrt (Real.log 2) (Real.sqrt 2)
              (Real.sqrt 2)⁻¹) 7).log (
            (nodeEnv (stubEnv Real.log Real.exp Real.sqrt (Real.log 2) (Real.sqrt 2)
              (Real.sqrt 2)⁻¹) 7).exp (Dbl.fin 0)))
        (
            (nodeEnv (stubEnv Real.log Real.exp Real.sqrt (Real.log 2) (Real.sqrt 2)
              (Real.sqrt 2)⁻¹) 7).log (Dbl.fin 2 * Dbl.gsl_pow_2 (
            (nodeEnv (stubEnv Real.log Real.exp Real.sqrt (Real.log 2) (Real.sqrt 2)
              (Real.sqrt 2)⁻¹) 7).exp (Dbl.fin 0))
          /
              (nodeEnv (stubEnv Real.log Real.exp Real.sqrt (Real.log 2) (Real.sqrt 2)
                (Real.sqrt 2)⁻¹) 7).exp (Dbl.fin (2 - 2 * Real.sqrt 2))))
      ≠ log_radial_integral
          (nodeEnv (stubEnv Real.log Real.exp Real.sqrt (Real.log 2) (Real.sqrt 2)
            (Real.sqrt 2)⁻¹) 7) 1 (Dbl.fin 1) (Dbl.fin 2) (
          (nodeEnv (stubEnv Real.log Real.exp Real.sqrt (Real.log 2) (Real.sqrt 2)
            (Real.sqrt 2)⁻¹) 7).exp (Dbl.fin 0))
        (Dbl.fin 2 * Dbl.gsl_pow_2 (
            (nodeEnv (stubEnv Real.log Real.exp Real.sqrt (Real.log 2) (Real.sqrt 2)
              (Real.sqrt 2)⁻¹) 7).exp (Dbl.fin 0))
          /
              (nodeEnv (stubEnv Real.log Real.exp Real.sqrt (Real.log 2) (Real.sqrt 2)
                (Real.sqrt 2)⁻¹) 7).exp (Dbl.fin (2 - 2 * Real.sqrt 2))) 0 false := by
  obtain ⟨I, hI, hx, hy, ha, hb1, hb2, hn, w, hw⟩ := node_example
  obtain ⟨v, hv, hv1, hv2, hpos⟩ := eval_at_node_aux
      (nodeEnv (stubEnv Real.log Real.exp Real.sqrt (Real.log 2) (Real.sqrt 2)
        (Real.sqrt 2)⁻¹) 7) allocsOk none 1 (Dbl.fin 1)
    (Dbl.fin 2) 0 false (Dbl.fin 1) 3 I 2 1 0 (2 - 2 * Real.sqrt 2)
    (fun _ _ => rfl) (fun _ => rfl) rfl hI (by norm_num) (by norm_num) (by norm_num)
    hx hy ha hb1 hb2 hn
  refine ⟨I, hI, hx, hy, ha, hb1, hb2, hn, ?_⟩
  rw [hv1, hv2, hv, hw, Dbl.fin_add_fin]
  intro h
  simp only [Except.ok.injEq, Dbl.fin.injEq] at h
  linarith

end NodeExample

/-! ## The boundary tables -/

section Boundary

variable {α : Type} [LinearOrderedField α]

/-- For a finite `x0` and `xmax` and `size >= 2` the grid constants are finite, with the
values of the declarations at the head of `log_radial_integrator_init`. -/
theorem grid_finite (E : Env α) (r1 r2 : Dbl α) (k : Int) (pmax : Dbl α) (size : Nat)
    (x0 xm : α)
    (hx0 : Dbl.GSL_MIN_DBL (E.log (Dbl.fin (1 / 2) * (if k ≥ 0 then r2 else r1))) (E.log pmax)
      = Dbl.fin x0)
    (hxm : E.log pmax = Dbl.fin xm) (h2 : 2 ≤ size) (hsz : size < 2 ^ 64) :
    grid E r1 r2 k pmax size
      = ⟨Dbl.fin xm, Dbl.fin x0, Dbl.fin (x0 - (1 + E.M_SQRT2) * 4), Dbl.fin (x0 + 4),
         Dbl.fin (2 * x0 - E.M_SQRT2 * 4 - xm),
         Dbl.fin ((xm - (x0 - (1 + E.M_SQRT2) * 4)) / ((size - 1 : ℕ) : α)),
         Dbl.fin (-(1 + E.M_SQRT1_2) * 4), Dbl.fin (x0 - E.M_SQRT1_2 * 4)⟩ := by
  have hs : sz (size + 2 ^ 64 - 1) = size - 1 := by
    have : size + 2 ^ 64 - 1 = (size - 1) + 2 ^ 64 := by omega
    rw [sz, this, Nat.add_mod_right]
    exact Nat.mod_eq_of_lt (by omega)
  have hne : ((size - 1 : ℕ) : α) ≠ 0 := by
    have : 0 < size - 1 := by omega
    exact_mod_cast this.ne'
  rw [hxm] at hx0
  simp only [grid, hxm, hx0, hs, Dbl.fin_add_fin, Dbl.fin_mul_fin, Dbl.fin_sub_fin,
    Dbl.neg_fin, Dbl.ofNat, Dbl.fin_div_fin _ _ hne]

/-- The indices read when the two boundary slices are extracted, without wrap-around. -/
theorem slice_indices (size i : Nat) (hsize : size < 2 ^ 32) (hi : i < size) :
    sz (sz (i * size) + sz (size + 2 ^ 64 - 1)) = i * size + (size - 1) ∧
    sz (sz (i * size) + sz (sz (size + 2 ^ 64 - 1) + 2 ^ 64 - i))
      = i * size + (size - 1 - i) := by
  have hss : size * size < 2 ^ 64 := by
    have : size * size < 2 ^ 32 * 2 ^ 32 := Nat.mul_lt_mul'' hsize hsize
    simpa using this
  have hle : i * size + size ≤ size * size := by
    have h3 : (i + 1) * size ≤ size * size := Nat.mul_le_mul_right size (by omega)
    have h4 : (i + 1) * size = i * size + size := by ring
    omega
  have h1 : sz (i * size) = i * size := Nat.mod_eq_of_lt (by omega)
  have h2 : sz (size + 2 ^ 64 - 1) = size - 1 := by
    have : size + 2 ^ 64 - 1 = (size - 1) + 2 ^ 64 := by omega
    rw [sz, this, Nat.add_mod_right]
    exact Nat.mod_eq_of_lt (by omega)
  have h3 : sz (size - 1 + 2 ^ 64 - i) = size - 1 - i := by
    have : size - 1 + 2 ^ 64 - i = (size - 1 - i) + 2 ^ 64 := by omega
    rw [sz, this, Nat.add_mod_right]
    exact Nat.mod_eq_of_lt (by omega)
  rw [h1, h2, h3]
  exact ⟨Nat.mod_eq_of_lt (by omega), Nat.mod_eq_of_lt (by omega)⟩

/-- The content of claim C11 in exact arithmetic, for a successfully built integrator with
finite `x0`, `xmax` and `M_SQRT2 = 2 M_SQRT1_2`. -/
theorem boundary_tables_aux (E : Env α) (A : Allocs) (sig : Option Nat) (fuel : Nat)
    (r1 r2 : Dbl α) (k : Int) (cosmology : Bool) (pmax : Dbl α) (size : Nat)
    (I : log_radial_integrator α) (x0 xm : α) (i : Nat)
    (hinit : log_radial_integrator_init E A sig fuel r1 r2 k cosmology pmax size
      = .ok (InitRet.integrator I))
    (hx0 : Dbl.GSL_MIN_DBL (E.log (Dbl.fin (1 / 2) * (if k ≥ 0 then r2 else r1))) (E.log pmax)
      = Dbl.fin x0)
    (hxm : E.log pmax = Dbl.fin xm)
    (hs : E.M_SQRT2 = 2 * E.M_SQRT1_2)
    (h2 : 2 ≤ size) (hsize : size < 2 ^ 32) (hi : i < size) :
    I.region0.tmin + Dbl.ofNat (size - 1) * I.region0.dt = I.ymax ∧
    (I.region1.tmin = I.region0.smin ∧ I.region1.dt = I.region0.ds ∧
      I.region1.data i = I.region0.data (i * size + (size - 1))) ∧
    Dbl.fin (1 / 2) * ((I.region0.smin + Dbl.ofNat i * I.region0.ds)
        + (I.region0.tmin + Dbl.ofNat (size - 1 - i) * I.region0.dt)) = I.vmax ∧
    Dbl.fin (1 / 2) * ((I.region0.smin + Dbl.ofNat i * I.region0.ds)
        - (I.region0.tmin + Dbl.ofNat (size - 1 - i) * I.region0.dt))
      = I.region2.tmin + Dbl.ofNat i * I.region2.dt ∧
    I.region2.data i = I.region0.data (i * size + (size - 1 - i)) := by
  obtain ⟨_, _, _, z0, _, hI⟩ :=
    init_success_inv E A sig fuel r1 r2 k cosmology pmax size I hinit
  rw [grid_finite E r1 r2 k pmax size x0 xm hx0 hxm h2
    (lt_trans hsize (by norm_num))] at hI
  obtain ⟨hidx1, hidx2⟩ := slice_indices size i hsize hi
  have hne : ((size - 1 : ℕ) : α) ≠ 0 := by
    have : 0 < size - 1 := by omega
    exact_mod_cast this.ne'
  have hcast : ((size - 1 - i : ℕ) : α) = ((size - 1 : ℕ) : α) - (i : α) :=
    Nat.cast_sub (by omega)
  rw [hI]
  simp only [Dbl.ofNat, Dbl.fin_mul_fin, Dbl.fin_add_fin, Dbl.fin_sub_fin, if_pos hi, hidx1,
    hidx2, true_and, and_true]
  clear hI hidx1 hidx2
  rw [hcast]
  generalize ((size - 1 : ℕ) : α) = N at hne
  refine ⟨congrArg Dbl.fin ?_, congrArg Dbl.fin ?_, congrArg Dbl.fin ?_⟩
  · field_simp
    ring
  · rw [hs]
    field_simp
    ring
  · rw [hs]
    field_simp
    ring

/-- Claim C11 (amended): with the arithmetic of the grid taken exactly (sums, products and
quotients without rounding, finite `x0 = min (ln p0, ln pmax)` and `xmax = ln pmax`, and
`M_SQRT2 = 2 M_SQRT1_2`, which holds for the C constants), for every successfully built
integrator with `2 <= size < 2^32` and every `i < size`: `ymin + (size - 1) d = ymax`, and
region1 has origin `xmin`, step `d` and `i`-th sample equal to region0's sample
`(i, size - 1)`, the one at `(xmin + i d, ymax)`; the anti-diagonal node
`(x, y) = (xmin + i d, ymin + (size - 1 - i) d)` satisfies `0.5 (x + y) = vmax` and
`0.5 (x - y) = umin + i d`, and region2 (origin `umin`, step `d`) has `i`-th sample equal to
region0's sample `(i, size - 1 - i)` at that node.  The equalities between samples do not
depend on the arithmetic; the equalities between coordinates do, and fail in binary64
arithmetic. -/
theorem boundary_tables (E : Env α) (A : Allocs) (sig : Option Nat) (fuel : Nat)
    (r1 r2 : Dbl α) (k : Int) (cosmology : Bool) (pmax : Dbl α) (size : Nat)
    (I : log_radial_integrator α) (x0 xm : α) (i : Nat)
    (hinit : log_radial_integrator_init E A sig fuel r1 r2 k cosmology pmax size
      = .ok (InitRet.integrator I))
    (hx0 : Dbl.GSL_MIN_DBL (E.log (Dbl.fin (1 / 2) * (if k ≥ 0 then r2 else r1))) (E.log pmax)
      = Dbl.fin x0)
    (hxm : E.log pmax = Dbl.fin xm)
    (hs : E.M_SQRT2 = 2 * E.M_SQRT1_2)
    (h2 : 2 ≤ size) (hsize : size < 2 ^ 32) (hi : i < size) :
    I.region0.tmin + Dbl.ofNat (size - 1) * I.region0.dt = I.ymax ∧
    (I.region1.tmin = I.region0.smin ∧ I.region1.dt = I.region0.ds ∧
      I.region1.data i = I.region0.data (i * size + (size - 1))) ∧
    Dbl.fin (1 / 2) * ((I.region0.smin + Dbl.ofNat i * I.region0.ds)
        + (I.region0.tmin + Dbl.ofNat (size - 1 - i) * I.region0.dt)) = I.vmax ∧
    Dbl.fin (1 / 2) * ((I.region0.smin + Dbl.ofNat i * I.region0.ds)
        - (I.region0.tmin + Dbl.ofNat (size - 1 - i) * I.region0.dt))
      = I.region2.tmin + Dbl.ofNat i * I.region2.dt ∧
    I.region2.data i = I.region0.data (i * size + (size - 1 - i)) :=
  boundary_tables_aux E A sig fuel r1 r2 k cosmology pmax size I x0 xm i hinit hx0 hxm hs
    h2 hsize hi

/-- Witness for `boundary_tables`: the `3 × 3` build for `r1 = 1`, `r2 = 2`, `k = 0`,
`pmax = 1` with the real libm, at `i = 1`. -/
theorem boundary_tables_witness :
    ∃ I : log_radial_integrator ℝ,
      log_radial_integrator_init
        (stubEnv Real.log Real.exp Real.sqrt (Real.log 2) (Real.sqrt 2) (Real.sqrt 2)⁻¹)
        allocsOk none 1 (Dbl.fin 1) (Dbl.fin 2) 0 false (Dbl.fin 1) 3
        = .ok (InitRet.integrator I) ∧
      I.region0.tmin + Dbl.ofNat (3 - 1) * I.region0.dt = I.ymax ∧
      I.region1.data 1 = I.region0.data (1 * 3 + (3 - 1)) ∧
      I.region2.data 1 = I.region0.data (1 * 3 + (3 - 1 - 1)) := by
  obtain ⟨I, hI⟩ := init_returns_integrator
    (stubEnv Real.log Real.exp Real.sqrt (Real.log 2) (Real.sqrt 2) (Real.sqrt 2)⁻¹)
    allocsOk none 1 (Dbl.fin 1) (Dbl.fin 2) 0 false (Dbl.fin 1) 3
    ⟨rfl, rfl, rfl⟩ (fun _ => ⟨rfl, rfl⟩) ⟨rfl, rfl, rfl, rfl⟩ rfl
    (fun m _ => init_cell_returns _ 0 _ _ _ _ _ _ m (fun _ _ _ _ _ => rfl))
  have h := boundary_tables
    (stubEnv Real.log Real.exp Real.sqrt (Real.log 2) (Real.sqrt 2) (Real.sqrt 2)⁻¹)
    allocsOk none 1 (Dbl.fin 1) (Dbl.fin 2) 0 false (Dbl.fin 1) 3 I 0 0 1 hI
    (by simp [stubEnv, Env.log, Dbl.GSL_MIN_DBL, Dbl.lt, Dbl.fin_mul_fin])
    (by simp [stubEnv, Env.log])
    (by
      show Real.sqrt 2 = 2 * (Real.sqrt 2)⁻¹
      have hne : Real.sqrt 2 ≠ 0 := Real.sqrt_ne_zero'.mpr (by norm_num)
      field_simp)
    (by norm_num) (by norm_num) (by norm_num)
  exact ⟨I, hI, h.1, h.2.1.2.2, h.2.2.2.2⟩

end Boundary

/-! ## The cosmological prior -/

section CosmologyTheorems

variable {α : Type} [LinearOrderedField α]

/-- The value returned by `log_dVC_dVL` is the first component of `log_dVC_dVL_run`. -/
theorem log_dVC_dVL_eq_run (E : Env α) (DL : Dbl α) :
    log_dVC_dVL E DL = (log_dVC_dVL_run E DL).1 := by
  simp only [log_dVC_dVL, log_dVC_dVL_run]
  split
  · rfl
  · split <;> rfl

/-- The comparison `<` is transitive. -/
theorem Dbl.lt_transitive (a b c : Dbl α) (h1 : Dbl.lt a b = true) (h2 : Dbl.lt b c = true) :
    Dbl.lt a c = true := by
  cases a <;> cases b <;> cases c <;> simp_all [Dbl.lt]
  exact lt_trans h1 h2

end CosmologyTheorems

/-! ## The breakpoints of `log_radial_integral` -/

section Breakpoints

variable {α : Type} [LinearOrderedField α]

/-- The breakpoint list in terms of the three candidates. -/
theorem breakpoints_eq (E : Env α) (r1 r2 p b : Dbl α) :
    breakpoints E r1 r2 p b
      = if Dbl.ne b (Dbl.fin 0) then
          (push_breakpoint
            (push_breakpoint (push_breakpoint [r1] r1 (bp_left E p b) r2).1
              (push_breakpoint [r1] r1 (bp_left E p b) r2).2 (bp_middle p b) r2).1
            (push_breakpoint (push_breakpoint [r1] r1 (bp_left E p b) r2).1
              (push_breakpoint [r1] r1 (bp_left E p b) r2).2 (bp_middle p b) r2).2
            (bp_right E p b) r2).1 ++ [r2]
        else [r1, r2] := rfl

/-- Three conditional appends after `r1`: the entries kept form a sublist of the candidates,
lie strictly between `r1` and `r2`, and increase strictly. -/
theorem push_three (r1 r2 L M R : Dbl α) :
    ∃ interior : List (Dbl α),
      (push_breakpoint
          (push_breakpoint (push_breakpoint [r1] r1 L r2).1
            (push_breakpoint [r1] r1 L r2).2 M r2).1
          (push_breakpoint (push_breakpoint [r1] r1 L r2).1
            (push_breakpoint [r1] r1 L r2).2 M r2).2 R r2).1 ++ [r2]
        = r1 :: (interior ++ [r2]) ∧
      List.Sublist interior [L, M, R] ∧
      (∀ c ∈ interior, Dbl.lt r1 c = true ∧ Dbl.lt c r2 = true) ∧
      List.Pairwise (fun x y => Dbl.lt x y = true) interior := by
  have tr := Dbl.lt_transitive (α := α)
  by_cases h1 : (Dbl.gt L r1 && Dbl.lt L r2) = true
  · by_cases h2 : (Dbl.gt M L && Dbl.lt M r2) = true
    · by_cases h3 : (Dbl.gt R M && Dbl.lt R r2) = true
      · refine ⟨[L, M, R], by simp [push_breakpoint, h1, h2, h3], List.Sublist.refl _, ?_, ?_⟩
        · simp only [Bool.and_eq_true, Dbl.gt] at h1 h2 h3
          intro c hc
          simp only [List.mem_cons, List.mem_singleton, List.not_mem_nil, or_false] at hc
          rcases hc with rfl | rfl | rfl
          · exact ⟨h1.1, h1.2⟩
          · exact ⟨tr _ _ _ h1.1 h2.1, h2.2⟩
          · exact ⟨tr _ _ _ (tr _ _ _ h1.1 h2.1) h3.1, h3.2⟩
        · simp only [Bool.and_eq_true, Dbl.gt] at h1 h2 h3
          simp [h2.1, h3.1, tr _ _ _ h2.1 h3.1]
      · refine ⟨[L, M], by simp [push_breakpoint, h1, h2, h3], by simp, ?_, ?_⟩
        · simp only [Bool.and_eq_true, Dbl.gt] at h1 h2
          intro c hc
          simp only [List.mem_cons, List.mem_singleton, List.not_mem_nil, or_false] at hc
          rcases hc with rfl | rfl
          · exact ⟨h1.1, h1.2⟩
          · exact ⟨tr _ _ _ h1.1 h2.1, h2.2⟩
        · simp only [Bool.and_eq_true, Dbl.gt] at h2
          simp [h2.1]
    · by_cases h3 : (Dbl.gt R L && Dbl.lt R r2) = true
      · refine ⟨[L, R], by simp [push_breakpoint, h1, h2, h3], by simp, ?_, ?_⟩
        · simp only [Bool.and_eq_true, Dbl.gt] at h1 h3
          intro c hc
          simp only [List.mem_cons, List.mem_singleton, List.not_mem_nil, or_false] at hc
          rcases hc with rfl | rfl
          · exact ⟨h1.1, h1.2⟩
          · exact ⟨tr _ _ _ h1.1 h3.1, h3.2⟩
        · simp only [Bool.and_eq_true, Dbl.gt] at h3
          simp [h3.1]
      · refine ⟨[L], by simp [push_breakpoint, h1, h2, h3], by simp, ?_, by simp⟩
        simp only [Bool.and_eq_true, Dbl.gt] at h1
        intro c hc
        simp only [List.mem_singleton] at hc
        subst hc
        exact ⟨h1.1, h1.2⟩
  · by_cases h2 : (Dbl.gt M r1 && Dbl.lt M r2) = true
    · by_cases h3 : (Dbl.gt R M && Dbl.lt R r2) = true
      · refine ⟨[M, R], by simp [push_breakpoint, h1, h2, h3], by simp, ?_, ?_⟩
        · simp only [Bool.and_eq_true, Dbl.gt] at h2 h3
          intro c hc
          simp only [List.mem_cons, List.mem_singleton, List.not_mem_nil, or_false] at hc
          rcases hc with rfl | rfl
          · exact ⟨h2.1, h2.2⟩
          · exact ⟨tr _ _ _ h2.1 h3.1, h3.2⟩
        · simp only [Bool.and_eq_true, Dbl.gt] at h3
          simp [h3.1]
      · refine ⟨[M], by simp [push_breakpoint, h1, h2, h3], by simp, ?_, by simp⟩
        simp only [Bool.and_eq_true, Dbl.gt] at h2
        intro c hc
        simp only [List.mem_singleton] at hc
        subst hc
        exact ⟨h2.1, h2.2⟩
    · by_cases h3 : (Dbl.gt R r1 && Dbl.lt R r2) = true
      · refine ⟨[R], by simp [push_breakpoint, h1, h2, h3], by simp, ?_, by simp⟩
        simp only [Bool.and_eq_true, Dbl.gt] at h3
        intro c hc
        simp only [List.mem_singleton] at hc
        subst hc
        exact ⟨h3.1, h3.2⟩
      · exact ⟨[], by simp [push_breakpoint, h1, h2, h3], by simp, by simp, by simp⟩

/-- Claim C19: for all `r1`, `r2`, `p`, `b` the breakpoint list built by `log_radial_integral`
is `r1`, then the interior entries, then `r2`, with between 2 and 5 entries; the interior
entries are a sublist of `[left, middle, right]` (drawn in this order), each lies strictly
between `r1` and `r2`, and they increase strictly; and for `b = 0` the list is `[r1, r2]`. -/
theorem breakpoints_structure (E : Env α) (r1 r2 p b : Dbl α) :
    (∃ interior : List (Dbl α),
      breakpoints E r1 r2 p b = r1 :: (interior ++ [r2]) ∧
      List.Sublist interior [bp_left E p b, bp_middle p b, bp_right E p b] ∧
      (∀ c ∈ interior, Dbl.lt r1 c = true ∧ Dbl.lt c r2 = true) ∧
      List.Pairwise (fun x y => Dbl.lt x y = true) interior) ∧
    2 ≤ (breakpoints E r1 r2 p b).length ∧ (breakpoints E r1 r2 p b).length ≤ 5 ∧
    breakpoints E r1 r2 p (Dbl.fin 0) = [r1, r2] := by
  have hex : ∃ interior : List (Dbl α),
      breakpoints E r1 r2 p b = r1 :: (interior ++ [r2]) ∧
      List.Sublist interior [bp_left E p b, bp_middle p b, bp_right E p b] ∧
      (∀ c ∈ interior, Dbl.lt r1 c = true ∧ Dbl.lt c r2 = true) ∧
      List.Pairwise (fun x y => Dbl.lt x y = true) interior := by
    rw [breakpoints_eq]
    split
    · exact push_three r1 r2 (bp_left E p b) (bp_middle p b) (bp_right E p b)
    · exact ⟨[], rfl, by simp, by simp, by simp⟩
  obtain ⟨interior, heq, hsub, hin, hpw⟩ := hex
  have hlen : interior.length ≤ 3 := by
    have := hsub.length_le
    simpa using this
  refine ⟨⟨interior, heq, hsub, hin, hpw⟩, ?_, ?_, breakpoints_b_zero E r1 r2 p⟩
  · rw [heq]
    simp
  · rw [heq]
    simp only [List.length_cons, List.length_append, List.length_nil]
    omega

end Breakpoints

/-! ## The candidate breakpoints and the Gaussian factor -/

section Gaussian

/-- The square of `sqrt (-ln eta)` for `eta = 0.01`. -/
theorem sqrt_neg_log_eta_sq :
    Real.sqrt (-Real.log (1 / 100)) ^ 2 = -Real.log (1 / 100) ∧
    0 ≤ -Real.log (1 / 100) := by
  have h : 0 ≤ -Real.log (1 / 100) := by
    have : Real.log (1 / 100) ≤ 0 := Real.log_nonpos (by norm_num) (by norm_num)
    linarith
  exact ⟨Real.sq_sqrt h, h⟩

/-- Values of the three candidates for finite `p > 0`, `b > 0` with the real libm. -/
theorem candidates_value (E : Env ℝ) (p b : ℝ)
    (hlog : ∀ t : ℝ, 0 < t → E.rlog t = Real.log t)
    (hsqrt : ∀ t : ℝ, 0 ≤ t → E.rsqrt t = Real.sqrt t)
    (hp : 0 < p) (hb : 0 < b) :
    bp_middle (Dbl.fin p) (Dbl.fin b) = Dbl.fin (2 * p ^ 2 / b) ∧
    bp_left E (Dbl.fin p) (Dbl.fin b)
      = Dbl.fin (1 / (1 / (2 * p ^ 2 / b) + Real.sqrt (-Real.log (1 / 100)) / p)) ∧
    (1 / (2 * p ^ 2 / b) ≠ Real.sqrt (-Real.log (1 / 100)) / p →
      bp_right E (Dbl.fin p) (Dbl.fin b)
        = Dbl.fin (1 / (1 / (2 * p ^ 2 / b) - Real.sqrt (-Real.log (1 / 100)) / p))) := by
  have hm : (2 * p ^ 2 / b) ≠ 0 := by positivity
  have heta : (0 : ℝ) < 1 / 100 := by norm_num
  obtain ⟨_, hs0⟩ := sqrt_neg_log_eta_sq
  have hmid : bp_middle (Dbl.fin p) (Dbl.fin b) = Dbl.fin (2 * p ^ 2 / b) := by
    simp only [bp_middle, Dbl.gsl_pow_2_fin, Dbl.fin_mul_fin, Dbl.fin_div_fin _ _ hb.ne']
  have hsq : E.sqrt (-(E.log (Dbl.fin (1 / 100)))) / Dbl.fin p
      = Dbl.fin (Real.sqrt (-Real.log (1 / 100)) / p) := by
    simp only [Env.log, heta, if_true, hlog _ heta, Dbl.neg_fin, Env.sqrt, hs0, hsqrt _ hs0,
      Dbl.fin_div_fin _ _ hp.ne']
  refine ⟨hmid, ?_, ?_⟩
  · have hD : 1 / (2 * p ^ 2 / b) + Real.sqrt (-Real.log (1 / 100)) / p ≠ 0 := by
      have : 0 ≤ Real.sqrt (-Real.log (1 / 100)) / p :=
        div_nonneg (Real.sqrt_nonneg _) hp.le
      have : 0 < 1 / (2 * p ^ 2 / b) := by positivity
      linarith
    simp only [bp_left, hmid, hsq, Dbl.fin_div_fin _ _ hm, Dbl.fin_add_fin,
      Dbl.fin_div_fin _ _ hD]
  · intro hne
    have hD : 1 / (2 * p ^ 2 / b) - Real.sqrt (-Real.log (1 / 100)) / p ≠ 0 :=
      sub_ne_zero.mpr hne
    simp only [bp_right, hmid, hsq, Dbl.fin_div_fin _ _ hm, Dbl.fin_sub_fin,
      Dbl.fin_div_fin _ _ hD]

/-- The Gaussian factor `exp (-(p/r - b/(2p))^2)` of the integrand at a finite `r ≠ 0`. -/
theorem gaussian_factor_value (E : Env ℝ) (p b r : ℝ) (k : ℤ)
    (hexp : ∀ t : ℝ, E.rexp t = Real.exp t) (hp : 0 < p) (hr : r ≠ 0) :
    E.exp (radial_exponent E ⟨Dbl.fin 0, Dbl.fin p, Dbl.fin b, k, false⟩ (Dbl.fin r))
      = Dbl.fin (Real.exp (-(p / r - b / (2 * p)) ^ 2)) := by
  have h2 : (1 / 2 : ℝ) * b / p = b / (2 * p) := by field_simp
  simp only [radial_exponent, Dbl.fin_div_fin _ _ hr, Dbl.fin_div_fin _ _ hp.ne',
    Dbl.fin_mul_fin, Dbl.fin_sub_fin, Dbl.gsl_pow_2_fin, Bool.false_eq_true, if_false,
    Env.exp, hexp, h2, zero_sub]

/-- Real algebra behind the candidates: with `m = 2 p^2 / b` and `s^2 = -ln eta`, the
exponent `-(p/r - b/(2p))^2` is `0` at `r = m` and `ln eta` at `r = 1/(1/m ± s/p)`. -/
theorem candidates_algebra (p b s le : ℝ) (hp : 0 < p) (hs : s ^ 2 = -le) :
    -(p / (2 * p ^ 2 / b) - b / (2 * p)) ^ 2 = 0 ∧
    (1 / (2 * p ^ 2 / b) + s / p ≠ 0 →
      -(p / (1 / (1 / (2 * p ^ 2 / b) + s / p)) - b / (2 * p)) ^ 2 = le ∧
      -p ^ 2 / (1 / (1 / (2 * p ^ 2 / b) + s / p)) ^ 2
          + b / (1 / (1 / (2 * p ^ 2 / b) + s / p)) = le + b ^ 2 / (4 * p ^ 2)) ∧
    (1 / (2 * p ^ 2 / b) - s / p ≠ 0 →
      -(p / (1 / (1 / (2 * p ^ 2 / b) - s / p)) - b / (2 * p)) ^ 2 = le ∧
      -p ^ 2 / (1 / (1 / (2 * p ^ 2 / b) - s / p)) ^ 2
          + b / (1 / (1 / (2 * p ^ 2 / b) - s / p)) = le + b ^ 2 / (4 * p ^ 2)) := by
  have hm : p / (2 * p ^ 2 / b) = b / (2 * p) := by
    field_simp
    ring
  have hinv : 1 / (2 * p ^ 2 / b) = b / (2 * p ^ 2) := by
    field_simp
  refine ⟨by rw [hm]; simp, ?_, ?_⟩
  · intro _
    have h1 : p / (1 / (1 / (2 * p ^ 2 / b) + s / p)) - b / (2 * p) = s := by
      rw [hinv]
      field_simp
      ring
    have h2 : -p ^ 2 / (1 / (1 / (2 * p ^ 2 / b) + s / p)) ^ 2
          + b / (1 / (1 / (2 * p ^ 2 / b) + s / p))
        = -(p / (1 / (1 / (2 * p ^ 2 / b) + s / p)) - b / (2 * p)) ^ 2
          + b ^ 2 / (4 * p ^ 2) := by
      rw [hinv]
      field_simp
      ring
    rw [h2, h1, hs]
    exact ⟨by ring, by ring⟩
  · intro _
    have h1 : p / (1 / (1 / (2 * p ^ 2 / b) - s / p)) - b / (2 * p) = -s := by
      rw [hinv]
      field_simp
      ring
    have h2 : -p ^ 2 / (1 / (1 / (2 * p ^ 2 / b) - s / p)) ^ 2
          + b / (1 / (1 / (2 * p ^ 2 / b) - s / p))
        = -(p / (1 / (1 / (2 * p ^ 2 / b) - s / p)) - b / (2 * p)) ^ 2
          + b ^ 2 / (4 * p ^ 2) := by
      rw [hinv]
      field_simp
      ring
    rw [h2, h1, neg_sq, hs]
    exact ⟨by ring, by ring⟩

/-- Content of claim C20 on the code's candidates. -/
theorem candidates_gaussian_aux (E : Env ℝ) (p b : ℝ) (k : ℤ)
    (hlog : ∀ t : ℝ, 0 < t → E.rlog t = Real.log t)
    (hexp : ∀ t : ℝ, E.rexp t = Real.exp t)
    (hsqrt : ∀ t : ℝ, 0 ≤ t → E.rsqrt t = Real.sqrt t)
    (hp : 0 < p) (hb : 0 < b) :
    E.exp (radial_exponent E ⟨Dbl.fin 0, Dbl.fin p, Dbl.fin b, k, false⟩
      (bp_middle (Dbl.fin p) (Dbl.fin b))) = Dbl.fin 1 ∧
    E.exp (radial_exponent E ⟨Dbl.fin 0, Dbl.fin p, Dbl.fin b, k, false⟩
      (bp_left E (Dbl.fin p) (Dbl.fin b))) = Dbl.fin (1 / 100) ∧
    (1 / (2 * p ^ 2 / b) ≠ Real.sqrt (-Real.log (1 / 100)) / p →
      E.exp (radial_exponent E ⟨Dbl.fin 0, Dbl.fin p, Dbl.fin b, k, false⟩
        (bp_right E (Dbl.fin p) (Dbl.fin b))) = Dbl.fin (1 / 100)) ∧
    (∀ r : ℝ, bp_left E (Dbl.fin p) (Dbl.fin b) = Dbl.fin r →
      -p ^ 2 / r ^ 2 + b / r = Real.log (1 / 100) + b ^ 2 / (4 * p ^ 2)) ∧
    (1 / (2 * p ^ 2 / b) ≠ Real.sqrt (-Real.log (1 / 100)) / p →
      ∀ r : ℝ, bp_right E (Dbl.fin p) (Dbl.fin b) = Dbl.fin r →
      -p ^ 2 / r ^ 2 + b / r = Real.log (1 / 100) + b ^ 2 / (4 * p ^ 2)) := by
  obtain ⟨hmid, hleft, hright⟩ := candidates_value E p b hlog hsqrt hp hb
  obtain ⟨hs2, hs0⟩ := sqrt_neg_log_eta_sq
  have hs2' : Real.sqrt (-Real.log (1 / 100)) ^ 2 = -Real.log (1 / 100) := hs2
  obtain ⟨a0, aL, aR⟩ := candidates_algebra p b (Real.sqrt (-Real.log (1 / 100)))
    (Real.log (1 / 100)) hp hs2'
  have hm : (2 * p ^ 2 / b) ≠ 0 := by positivity
  have hDL : 1 / (2 * p ^ 2 / b) + Real.sqrt (-Real.log (1 / 100)) / p ≠ 0 := by
    have : 0 ≤ Real.sqrt (-Real.log (1 / 100)) / p :=
      div_nonneg (Real.sqrt_nonneg _) hp.le
    have : 0 < 1 / (2 * p ^ 2 / b) := by positivity
    linarith
  have heta : Real.exp (Real.log (1 / 100)) = 1 / 100 := Real.exp_log (by norm_num)
  refine ⟨?_, ?_, ?_, ?_, ?_⟩
  · rw [hmid, gaussian_factor_value E p b _ k hexp hp hm, a0, Real.exp_zero]
  · rw [hleft, gaussian_factor_value E p b _ k hexp hp (one_div_ne_zero hDL), (aL hDL).1, heta]
  · intro hne
    have hDR := sub_ne_zero.mpr hne
    rw [hright hne, gaussian_factor_value E p b _ k hexp hp (one_div_ne_zero hDR),
      (aR hDR).1, heta]
  · intro r hr
    rw [hleft] at hr
    simp only [Dbl.fin.injEq] at hr
    rw [← hr]
    exact (aL hDL).2
  · intro hne r hr
    have hDR := sub_ne_zero.mpr hne
    rw [hright hne] at hr
    simp only [Dbl.fin.injEq] at hr
    rw [← hr]
    exact (aR hDR).2

/-- Claim C20: for `p > 0`, `b > 0` (real libm), with `eta = 0.01`, `middle = 2 p^2 / b`,
`left = 1 / (1/middle + sqrt (-ln eta) / p)` and `right = 1 / (1/middle - sqrt (-ln eta) / p)`
as computed by `log_radial_integral`: the Gaussian factor `exp (-(p/r - b/(2p))^2)` of the
integrand is `1` at `r = middle`, is `eta` at `r = left`, and at `r = right` whenever
`1/middle ≠ sqrt (-ln eta) / p`; equivalently `-p^2/r^2 + b/r = ln eta + b^2/(4 p^2)` at
`left` and `right`. -/
theorem candidates_gaussian (E : Env ℝ) (p b : ℝ) (k : ℤ)
    (hlog : ∀ t : ℝ, 0 < t → E.rlog t = Real.log t)
    (hexp : ∀ t : ℝ, E.rexp t = Real.exp t)
    (hsqrt : ∀ t : ℝ, 0 ≤ t → E.rsqrt t = Real.sqrt t)
    (hp : 0 < p) (hb : 0 < b) :
    bp_middle (Dbl.fin p) (Dbl.fin b) = Dbl.fin (2 * p ^ 2 / b) ∧
    bp_left E (Dbl.fin p) (Dbl.fin b)
      = Dbl.fin (1 / (1 / (2 * p ^ 2 / b) + Real.sqrt (-Real.log (1 / 100)) / p)) ∧
    (1 / (2 * p ^ 2 / b) ≠ Real.sqrt (-Real.log (1 / 100)) / p →
      bp_right E (Dbl.fin p) (Dbl.fin b)
        = Dbl.fin (1 / (1 / (2 * p ^ 2 / b) - Real.sqrt (-Real.log (1 / 100)) / p))) ∧
    E.exp (radial_exponent E ⟨Dbl.fin 0, Dbl.fin p, Dbl.fin b, k, false⟩
      (bp_middle (Dbl.fin p) (Dbl.fin b))) = Dbl.fin 1 ∧
    E.exp (radial_exponent E ⟨Dbl.fin 0, Dbl.fin p, Dbl.fin b, k, false⟩
      (bp_left E (Dbl.fin p) (Dbl.fin b))) = Dbl.fin (1 / 100) ∧
    (1 / (2 * p ^ 2 / b) ≠ Real.sqrt (-Real.log (1 / 100)) / p →
      E.exp (radial_exponent E ⟨Dbl.fin 0, Dbl.fin p, Dbl.fin b, k, false⟩
        (bp_right E (Dbl.fin p) (Dbl.fin b))) = Dbl.fin (1 / 100)) ∧
    (∀ r : ℝ, bp_left E (Dbl.fin p) (Dbl.fin b) = Dbl.fin r →
      -p ^ 2 / r ^ 2 + b / r = Real.log (1 / 100) + b ^ 2 / (4 * p ^ 2)) ∧
    (1 / (2 * p ^ 2 / b) ≠ Real.sqrt (-Real.log (1 / 100)) / p →
      ∀ r : ℝ, bp_right E (Dbl.fin p) (Dbl.fin b) = Dbl.fin r →
      -p ^ 2 / r ^ 2 + b / r = Real.log (1 / 100) + b ^ 2 / (4 * p ^ 2)) := by
  obtain ⟨h1, h2, h3⟩ := candidates_value E p b hlog hsqrt hp hb
  obtain ⟨g1, g2, g3, g4, g5⟩ := candidates_gaussian_aux E p b k hlog hexp hsqrt hp hb
  exact ⟨h1, h2, h3, g1, g2, g3, g4, g5⟩

/-- Witness for `candidates_gaussian`: `p = 1`, `b = 1`, where the Gaussian factor at
`left` is `0.01`. -/
theorem candidates_gaussian_witness :
    (0 : ℝ) < 1 ∧
    (stubEnv Real.log Real.exp Real.sqrt (Real.log 2) (Real.sqrt 2) (Real.sqrt 2)⁻¹).exp
      (radial_exponent
        (stubEnv Real.log Real.exp Real.sqrt (Real.log 2) (Real.sqrt 2) (Real.sqrt 2)⁻¹)
        ⟨Dbl.fin 0, Dbl.fin 1, Dbl.fin 1, 0, false⟩
        (bp_left
          (stubEnv Real.log Real.exp Real.sqrt (Real.log 2) (Real.sqrt 2) (Real.sqrt 2)⁻¹)
          (Dbl.fin 1) (Dbl.fin 1))) = Dbl.fin (1 / 100) :=
  ⟨one_pos,
   (candidates_gaussian
      (stubEnv Real.log Real.exp Real.sqrt (Real.log 2) (Real.sqrt 2) (Real.sqrt 2)⁻¹)
      1 1 0 (fun _ _ => rfl) (fun _ => rfl) (fun _ _ => rfl) one_pos one_pos).2.2.2.2.1⟩

end Gaussian


/-! ## The query coordinates and the tabulated coordinates -/

section Coordinates

/-- The interpolation path of `log_radial_integrator_eval` in terms of `eval_coordinates`. -/
theorem eval_uses_coordinates {α : Type} [LinearOrderedField α] (E : Env α)
    (I : log_radial_integrator α) (p b logP logB : Dbl α)
    (hp : Dbl.eq p (Dbl.fin 0) = false) (hx : Dbl.le logP I.xmax = true) :
    log_radial_integrator_eval E I p b logP logB
      = .ok ((if Dbl.ge (eval_coordinates E logP logB).2 I.ymax then
                E.cubic_interp_eval I.region1 (eval_coordinates E logP logB).1
              else if Dbl.le (Dbl.fin (1 / 2) * ((eval_coordinates E logP logB).1
                  + (eval_coordinates E logP logB).2)) I.vmax then
                E.cubic_interp_eval I.region2 (Dbl.fin (1 / 2)
                  * ((eval_coordinates E logP logB).1 - (eval_coordinates E logP logB).2))
              else
                E.bicubic_interp_eval I.region0 (eval_coordinates E logP logB).1
                  (eval_coordinates E logP logB).2)
            + Dbl.gsl_pow_2 (Dbl.fin (1 / 2) * b / p)) :=
  eval_unfold_interp E I p b logP logB hp hx

/-- The coordinates of a query at `(p, b)` with `b = 2 p^2 / r0`, for the real logarithm. -/
theorem eval_coordinates_value (E : Env ℝ) (p r0 : ℝ)
    (hlog : ∀ t : ℝ, 0 < t → E.rlog t = Real.log t) (hln2 : E.M_LN2 = Real.log 2)
    (hp : 0 < p) (hr0 : 0 < r0) :
    Dbl.fin 2 * Dbl.gsl_pow_2 (Dbl.fin p) / Dbl.fin r0 = Dbl.fin (2 * p ^ 2 / r0) ∧
    eval_coordinates E (E.log (Dbl.fin p))
        (E.log (Dbl.fin 2 * Dbl.gsl_pow_2 (Dbl.fin p) / Dbl.fin r0))
      = (Dbl.fin (Real.log p), Dbl.fin (Real.log r0)) := by
  have hb : 0 < 2 * p ^ 2 / r0 := by positivity
  have hbv : Dbl.fin 2 * Dbl.gsl_pow_2 (Dbl.fin p) / Dbl.fin r0 = Dbl.fin (2 * p ^ 2 / r0) := by
    simp only [Dbl.gsl_pow_2_fin, Dbl.fin_mul_fin, Dbl.fin_div_fin _ _ hr0.ne']
  have hlb : Real.log (2 * p ^ 2 / r0) = Real.log 2 + 2 * Real.log p - Real.log r0 := by
    have h2 : (2 : ℝ) ≠ 0 := by norm_num
    have hpp : p ^ 2 ≠ 0 := pow_ne_zero 2 hp.ne'
    rw [Real.log_div (mul_ne_zero h2 hpp) hr0.ne', Real.log_mul h2 hpp, Real.log_pow]
    push_cast
    ring
  refine ⟨hbv, ?_⟩
  rw [hbv]
  simp only [eval_coordinates, Env.log, hp, hb, if_true, hlog p hp, hlog _ hb, hln2,
    Dbl.fin_mul_fin, Dbl.fin_add_fin, Dbl.fin_sub_fin, hlb]
  congr 2
  ring

/-- Claim C28: for all `p > 0` and `r0 > 0` (real logarithm and exponential), with
`b = 2 p^2 / r0` as used to fill the table, the coordinates computed by
`log_radial_integrator_eval` from `(ln p, ln b)` are `x = ln p` and
`y = ln 2 + 2 ln p - ln b = ln r0`; for the cell with grid coordinates `(x, y)`, filled at
`p = exp x`, `r0 = exp y`, `b = 2 p^2 / r0`, the query at `(p, b)` has exactly the coordinates
`(x, y)`; and a query that takes the region0 branch evaluates the bicubic table at
`(ln p, ln r0)`. -/
theorem query_at_tabulated_coordinates (E : Env ℝ) (p r0 : ℝ)
    (hlog : ∀ t : ℝ, 0 < t → E.rlog t = Real.log t) (hln2 : E.M_LN2 = Real.log 2)
    (hexp : ∀ t : ℝ, E.rexp t = Real.exp t) (hp : 0 < p) (hr0 : 0 < r0) :
    eval_coordinates E (E.log (Dbl.fin p))
        (E.log (Dbl.fin 2 * Dbl.gsl_pow_2 (Dbl.fin p) / Dbl.fin r0))
      = (Dbl.fin (Real.log p), Dbl.fin (Real.log r0)) ∧
    (∀ x y : ℝ, eval_coordinates E (E.log (E.exp (Dbl.fin x)))
        (E.log (Dbl.fin 2 * Dbl.gsl_pow_2 (E.exp (Dbl.fin x)) / E.exp (Dbl.fin y)))
      = (Dbl.fin x, Dbl.fin y)) ∧
    (∀ I : log_radial_integrator ℝ, Dbl.le (Dbl.fin (Real.log p)) I.xmax = true →
      Dbl.ge (Dbl.fin (Real.log r0)) I.ymax = false →
      Dbl.le (Dbl.fin (1 / 2) * (Dbl.fin (Real.log p) + Dbl.fin (Real.log r0))) I.vmax = false →
      log_radial_integrator_eval E I (Dbl.fin p)
          (Dbl.fin 2 * Dbl.gsl_pow_2 (Dbl.fin p) / Dbl.fin r0) (E.log (Dbl.fin p))
          (E.log (Dbl.fin 2 * Dbl.gsl_pow_2 (Dbl.fin p) / Dbl.fin r0))
        = .ok (E.bicubic_interp_eval I.region0 (Dbl.fin (Real.log p)) (Dbl.fin (Real.log r0))
            + Dbl.gsl_pow_2 (Dbl.fin (1 / 2)
              * (Dbl.fin 2 * Dbl.gsl_pow_2 (Dbl.fin p) / Dbl.fin r0) / Dbl.fin p))) := by
  have hc := (eval_coordinates_value E p r0 hlog hln2 hp hr0).2
  refine ⟨hc, fun x y => ?_, fun I hx hy hv => ?_⟩
  · have h := (eval_coordinates_value E (Real.exp x) (Real.exp y) hlog hln2
      (Real.exp_pos x) (Real.exp_pos y)).2
    rw [Real.log_exp, Real.log_exp] at h
    simp only [Env.exp, hexp]
    exact h
  · have hlp : E.log (Dbl.fin p) = Dbl.fin (Real.log p) := by
      simp only [Env.log, hp, if_true, hlog p hp]
    have hp0 : Dbl.eq (Dbl.fin p) (Dbl.fin 0) = false := by
      simp [Dbl.eq, hp.ne']
    rw [eval_uses_coordinates E I _ _ _ _ hp0 (by rw [hlp]; exact hx), hc]
    simp only [hy, hv, Bool.false_eq_true, if_false]

/-- Witness for `query_at_tabulated_coordinates`: `p = 1`, `r0 = 1` with the real libm. -/
theorem query_at_tabulated_coordinates_witness :
    (0 : ℝ) < 1 ∧
    eval_coordinates
        (stubEnv Real.log Real.exp Real.sqrt (Real.log 2) (Real.sqrt 2) (Real.sqrt 2)⁻¹)
        ((stubEnv Real.log Real.exp Real.sqrt (Real.log 2) (Real.sqrt 2) (Real.sqrt 2)⁻¹).log
          (Dbl.fin 1))
        ((stubEnv Real.log Real.exp Real.sqrt (Real.log 2) (Real.sqrt 2) (Real.sqrt 2)⁻¹).log
          (Dbl.fin 2 * Dbl.gsl_pow_2 (Dbl.fin 1) / Dbl.fin 1))
      = (Dbl.fin (Real.log 1), Dbl.fin (Real.log 1)) :=
  ⟨one_pos, (query_at_tabulated_coordinates
    (stubEnv Real.log Real.exp Real.sqrt (Real.log 2) (Real.sqrt 2) (Real.sqrt 2)⁻¹) 1 1
    (fun _ _ => rfl) rfl (fun _ => rfl) one_pos one_pos).1⟩

end Coordinates

/-! ## Order of the candidate breakpoints -/

section CandidateOrder

/-- A candidate that lies above the last entry kept so far is kept exactly when it lies
strictly between `r1` and `r2`, whether or not an earlier candidate was kept. -/
theorem push_after_smaller {α : Type} [LinearOrderedField α] (bps : List (Dbl α))
    (r1 r2 last M : Dbl α)
    (hlast : last = r1 ∨ (Dbl.lt r1 last = true ∧ Dbl.lt last M = true)) :
    push_breakpoint bps last M r2
      = if Dbl.gt M r1 && Dbl.lt M r2 then (bps ++ [M], M) else (bps, last) := by
  rcases hlast with h | ⟨h1, h2⟩
  · rw [h]
    rfl
  · have hr1 : Dbl.gt M r1 = true := Dbl.lt_transitive r1 last M h1 h2
    have hL : Dbl.gt M last = true := h2
    simp only [push_breakpoint, hr1, hL]

/-- The state of the filter after the candidate `L`: the last entry is `r1`, or it is `L`
and `L` lies above `r1`. -/
theorem push_first_last {α : Type} [LinearOrderedField α] (r1 r2 L : Dbl α) :
    (push_breakpoint [r1] r1 L r2).2 = r1 ∨
    ((push_breakpoint [r1] r1 L r2).2 = L ∧ Dbl.lt r1 L = true) := by
  unfold push_breakpoint
  split
  · rename_i h
    simp only [Bool.and_eq_true] at h
    exact Or.inr ⟨rfl, h.1⟩
  · exact Or.inl rfl

/-- The state of the filter after the candidates `L < M`: the last entry is `r1`, `L` or `M`,
and the latter two lie above `r1`. -/
theorem push_second_last {α : Type} [LinearOrderedField α] (r1 r2 L M : Dbl α)
    (hLM : Dbl.lt L M = true) :
    (push_breakpoint (push_breakpoint [r1] r1 L r2).1 (push_breakpoint [r1] r1 L r2).2
        M r2).2 = r1 ∨
    (((push_breakpoint (push_breakpoint [r1] r1 L r2).1 (push_breakpoint [r1] r1 L r2).2
        M r2).2 = L ∨
      (push_breakpoint (push_breakpoint [r1] r1 L r2).1 (push_breakpoint [r1] r1 L r2).2
        M r2).2 = M) ∧
     Dbl.lt r1 (push_breakpoint (push_breakpoint [r1] r1 L r2).1
        (push_breakpoint [r1] r1 L r2).2 M r2).2 = true) := by
  have hl : (push_breakpoint [r1] r1 L r2).2 = r1 ∨
      (Dbl.lt r1 (push_breakpoint [r1] r1 L r2).2 = true ∧
        Dbl.lt (push_breakpoint [r1] r1 L r2).2 M = true) := by
    rcases push_first_last r1 r2 L with h | ⟨h, h1⟩
    · exact Or.inl h
    · exact Or.inr ⟨by rw [h]; exact h1, by rw [h]; exact hLM⟩
  rw [push_after_smaller _ r1 r2 _ M hl]
  split
  · rename_i h
    simp only [Bool.and_eq_true] at h
    exact Or.inr ⟨Or.inr rfl, h.1⟩
  · rcases push_first_last r1 r2 L with h | ⟨h, h1⟩
    · exact Or.inl h
    · exact Or.inr ⟨Or.inl h, by rw [h]; exact h1⟩

/-- Values and order of the three candidates for finite `p > 0`, `b > 0` with the real
libm: `0 < left < middle`, and `right` lies above `middle`, is `+∞`, or is negative,
according to the sign of `1/middle - sqrt (-ln eta) / p`. -/
theorem candidates_order_values (E : Env ℝ) (p b : ℝ)
    (hlog : ∀ t : ℝ, 0 < t → E.rlog t = Real.log t)
    (hsqrt : ∀ t : ℝ, 0 ≤ t → E.rsqrt t = Real.sqrt t)
    (hp : 0 < p) (hb : 0 < b) :
    ∃ l m : ℝ, bp_left E (Dbl.fin p) (Dbl.fin b) = Dbl.fin l ∧
      bp_middle (Dbl.fin p) (Dbl.fin b) = Dbl.fin m ∧ 0 < l ∧ l < m ∧
      ((∃ R : ℝ, bp_right E (Dbl.fin p) (Dbl.fin b) = Dbl.fin R ∧ m < R) ∨
       bp_right E (Dbl.fin p) (Dbl.fin b) = Dbl.pinf ∨
       (∃ R : ℝ, bp_right E (Dbl.fin p) (Dbl.fin b) = Dbl.fin R ∧ R < 0)) := by
  obtain ⟨hmid, hleft, hright⟩ := candidates_value E p b hlog hsqrt hp hb
  have hm : 0 < 2 * p ^ 2 / b := by positivity
  have hs : 0 < Real.sqrt (-Real.log (1 / 100)) := by
    apply Real.sqrt_pos.mpr
    have : Real.log (1 / 100) < 0 := Real.log_neg (by norm_num) (by norm_num)
    linarith
  have hsp : 0 < Real.sqrt (-Real.log (1 / 100)) / p := div_pos hs hp
  have him : 0 < 1 / (2 * p ^ 2 / b) := one_div_pos.mpr hm
  refine ⟨_, _, hleft, hmid, ?_, ?_, ?_⟩
  · exact one_div_pos.mpr (by linarith)
  · rw [one_div_lt (by linarith) hm]
    linarith
  · rcases lt_trichotomy (Real.sqrt (-Real.log (1 / 100)) / p) (1 / (2 * p ^ 2 / b))
      with h | h | h
    · refine Or.inl ⟨_, hright h.ne', ?_⟩
      rw [lt_one_div hm (by linarith)]
      linarith
    · refine Or.inr (Or.inl ?_)
      have heta : (0 : ℝ) < 1 / 100 := by norm_num
      obtain ⟨_, hs0⟩ := sqrt_neg_log_eta_sq
      have hsq : E.sqrt (-(E.log (Dbl.fin (1 / 100)))) / Dbl.fin p
          = Dbl.fin (Real.sqrt (-Real.log (1 / 100)) / p) := by
        simp only [Env.log, heta, if_true, hlog _ heta, Dbl.neg_fin, Env.sqrt, hs0,
          hsqrt _ hs0, Dbl.fin_div_fin _ _ hp.ne']
      rw [bp_right, hmid, hsq, Dbl.fin_div_fin _ _ hm.ne', Dbl.fin_sub_fin, ← h, sub_self]
      show Dbl.div (Dbl.fin 1) (Dbl.fin 0) = Dbl.pinf
      simp [Dbl.div]
    · refine Or.inr (Or.inr ⟨_, hright h.ne, ?_⟩)
      exact one_div_neg.mpr (by linarith)

/-- Claim C29: for `p > 0` and `b > 0` (real libm) the candidates of `log_radial_integral`
satisfy `0 < left < middle`, and `middle < right` whenever `right > 0`; otherwise `right` is
negative, and a `right` that is negative or infinite is never kept between limits with
`r1 >= 0`; `middle` is kept exactly when it lies strictly between `r1` and `r2`, and a
positive `right` likewise, so neither is discarded because an earlier candidate was kept. -/
theorem candidates_order (E : Env ℝ) (p b : ℝ)
    (hlog : ∀ t : ℝ, 0 < t → E.rlog t = Real.log t)
    (hsqrt : ∀ t : ℝ, 0 ≤ t → E.rsqrt t = Real.sqrt t)
    (hp : 0 < p) (hb : 0 < b) :
    (∃ l m : ℝ, bp_left E (Dbl.fin p) (Dbl.fin b) = Dbl.fin l ∧
      bp_middle (Dbl.fin p) (Dbl.fin b) = Dbl.fin m ∧ 0 < l ∧ l < m) ∧
    (Dbl.gt (bp_right E (Dbl.fin p) (Dbl.fin b)) (Dbl.fin 0) = true →
      Dbl.lt (bp_middle (Dbl.fin p) (Dbl.fin b)) (bp_right E (Dbl.fin p) (Dbl.fin b))
        = true) ∧
    (Dbl.gt (bp_right E (Dbl.fin p) (Dbl.fin b)) (Dbl.fin 0) = false →
      ∃ R : ℝ, bp_right E (Dbl.fin p) (Dbl.fin b) = Dbl.fin R ∧ R < 0) ∧
    (∀ r1 r2 : Dbl ℝ, Dbl.le (Dbl.fin 0) r1 = true →
      (Dbl.gt (bp_right E (Dbl.fin p) (Dbl.fin b)) (Dbl.fin 0) = false ∨
        bp_right E (Dbl.fin p) (Dbl.fin b) = Dbl.pinf) →
      breakpoints E r1 r2 (Dbl.fin p) (Dbl.fin b)
        = (push_breakpoint (push_breakpoint [r1] r1 (bp_left E (Dbl.fin p) (Dbl.fin b)) r2).1
            (push_breakpoint [r1] r1 (bp_left E (Dbl.fin p) (Dbl.fin b)) r2).2
            (bp_middle (Dbl.fin p) (Dbl.fin b)) r2).1 ++ [r2]) ∧
    (∀ r1 r2 : Dbl ℝ,
      push_breakpoint (push_breakpoint [r1] r1 (bp_left E (Dbl.fin p) (Dbl.fin b)) r2).1
          (push_breakpoint [r1] r1 (bp_left E (Dbl.fin p) (Dbl.fin b)) r2).2
          (bp_middle (Dbl.fin p) (Dbl.fin b)) r2
        = if Dbl.gt (bp_middle (Dbl.fin p) (Dbl.fin b)) r1
              && Dbl.lt (bp_middle (Dbl.fin p) (Dbl.fin b)) r2 then
            ((push_breakpoint [r1] r1 (bp_left E (Dbl.fin p) (Dbl.fin b)) r2).1
              ++ [bp_middle (Dbl.fin p) (Dbl.fin b)], bp_middle (Dbl.fin p) (Dbl.fin b))
          else push_breakpoint [r1] r1 (bp_left E (Dbl.fin p) (Dbl.fin b)) r2) ∧
    (∀ r1 r2 : Dbl ℝ,
      Dbl.gt (bp_right E (Dbl.fin p) (Dbl.fin b)) (Dbl.fin 0) = true →
      push_breakpoint
          (push_breakpoint (push_breakpoint [r1] r1 (bp_left E (Dbl.fin p) (Dbl.fin b)) r2).1
            (push_breakpoint [r1] r1 (bp_left E (Dbl.fin p) (Dbl.fin b)) r2).2
            (bp_middle (Dbl.fin p) (Dbl.fin b)) r2).1
          (push_breakpoint (push_breakpoint [r1] r1 (bp_left E (Dbl.fin p) (Dbl.fin b)) r2).1
            (push_breakpoint [r1] r1 (bp_left E (Dbl.fin p) (Dbl.fin b)) r2).2
            (bp_middle (Dbl.fin p) (Dbl.fin b)) r2).2
          (bp_right E (Dbl.fin p) (Dbl.fin b)) r2
        = if Dbl.gt (bp_right E (Dbl.fin p) (Dbl.fin b)) r1
              && Dbl.lt (bp_right E (Dbl.fin p) (Dbl.fin b)) r2 then
            ((push_breakpoint
                (push_breakpoint [r1] r1 (bp_left E (Dbl.fin p) (Dbl.fin b)) r2).1
                (push_breakpoint [r1] r1 (bp_left E (Dbl.fin p) (Dbl.fin b)) r2).2
                (bp_middle (Dbl.fin p) (Dbl.fin b)) r2).1
              ++ [bp_right E (Dbl.fin p) (Dbl.fin b)], bp_right E (Dbl.fin p) (Dbl.fin b))
          else push_breakpoint
            (push_breakpoint [r1] r1 (bp_left E (Dbl.fin p) (Dbl.fin b)) r2).1
            (push_breakpoint [r1] r1 (bp_left E (Dbl.fin p) (Dbl.fin b)) r2).2
            (bp_middle (Dbl.fin p) (Dbl.fin b)) r2) := by
  obtain ⟨l, m, hL, hM, hl0, hlm, hR⟩ := candidates_order_values E p b hlog hsqrt hp hb
  have hLM : Dbl.lt (Dbl.fin l) (Dbl.fin m) = true := by simp [Dbl.lt, hlm]
  have hbne : Dbl.ne (Dbl.fin b) (Dbl.fin (0 : ℝ)) = true := by simp [Dbl.ne, Dbl.eq, hb.ne']
  rw [hL, hM]
  refine ⟨⟨l, m, rfl, rfl, hl0, hlm⟩, ?_, ?_, ?_, ?_, ?_⟩
  · intro hg
    rcases hR with ⟨R, hR, hmR⟩ | hR | ⟨R, hR, hR0⟩
    · rw [hR]
      simp [Dbl.lt, hmR]
    · rw [hR]
      rfl
    · rw [hR] at hg
      simp only [Dbl.gt, Dbl.lt, decide_eq_true_eq] at hg
      exact absurd hg (not_lt.mpr hR0.le)
  · intro hg
    rcases hR with ⟨R, hR, hmR⟩ | hR | ⟨R, hR, hR0⟩
    · rw [hR] at hg
      simp only [Dbl.gt, Dbl.lt, decide_eq_false_iff_not, not_lt] at hg
      exact absurd hg (not_le.mpr (lt_trans (lt_trans hl0 hlm) hmR))
    · rw [hR] at hg
      simp [Dbl.gt, Dbl.lt] at hg
    · exact ⟨R, hR, hR0⟩
  · intro r1 r2 hr1 hcase
    rw [breakpoints_eq, if_pos hbne, hL, hM]
    congr 1
    have hnot : (Dbl.gt (bp_right E (Dbl.fin p) (Dbl.fin b))
          (push_breakpoint (push_breakpoint [r1] r1 (Dbl.fin l) r2).1
            (push_breakpoint [r1] r1 (Dbl.fin l) r2).2 (Dbl.fin m) r2).2
        && Dbl.lt (bp_right E (Dbl.fin p) (Dbl.fin b)) r2) = false := by
      rcases hR with ⟨R, hR, hmR⟩ | hR | ⟨R, hR, hR0⟩
      · rcases hcase with hc | hc
        · rw [hR] at hc
          simp only [Dbl.gt, Dbl.lt, decide_eq_false_iff_not, not_lt] at hc
          exact absurd hc (not_le.mpr (lt_trans (lt_trans hl0 hlm) hmR))
        · rw [hR] at hc
          cases hc
      · rw [hR]
        cases r2 <;> simp [Dbl.lt]
      · rw [hR]
        have hlow : Dbl.gt (Dbl.fin R)
            (push_breakpoint (push_breakpoint [r1] r1 (Dbl.fin l) r2).1
              (push_breakpoint [r1] r1 (Dbl.fin l) r2).2 (Dbl.fin m) r2).2 = false := by
          rcases push_second_last r1 r2 (Dbl.fin l) (Dbl.fin m) hLM with h | ⟨h | h, -⟩
          · rw [h]
            cases r1 with
            | fin v =>
              simp only [Dbl.le, decide_eq_true_eq] at hr1
              simp only [Dbl.gt, Dbl.lt, decide_eq_false_iff_not, not_lt]
              linarith
            | pinf => rfl
            | ninf => simp [Dbl.le] at hr1
            | nan => simp [Dbl.le] at hr1
          · rw [h]
            simp only [Dbl.gt, Dbl.lt, decide_eq_false_iff_not, not_lt]
            linarith
          · rw [h]
            simp only [Dbl.gt, Dbl.lt, decide_eq_false_iff_not, not_lt]
            linarith
        rw [hlow]
        rfl
    have hpush : ∀ (bps : List (Dbl ℝ)) (last c : Dbl ℝ),
        (Dbl.gt c last && Dbl.lt c r2) = false → push_breakpoint bps last c r2 = (bps, last) := by
      intro bps last c h
      simp only [push_breakpoint, h, Bool.false_eq_true, if_false]
    rw [hpush _ _ _ hnot]
  · intro r1 r2
    have hl : (push_breakpoint [r1] r1 (Dbl.fin l) r2).2 = r1 ∨
        (Dbl.lt r1 (push_breakpoint [r1] r1 (Dbl.fin l) r2).2 = true ∧
          Dbl.lt (push_breakpoint [r1] r1 (Dbl.fin l) r2).2 (Dbl.fin m) = true) := by
      rcases push_first_last r1 r2 (Dbl.fin l) with h | ⟨h, h1⟩
      · exact Or.inl h
      · exact Or.inr ⟨by rw [h]; exact h1, by rw [h]; exact hLM⟩
    exact push_after_smaller _ r1 r2 _ (Dbl.fin m) hl
  · intro r1 r2 hg
    have hlR : Dbl.lt (Dbl.fin l) (bp_right E (Dbl.fin p) (Dbl.fin b)) = true ∧
        Dbl.lt (Dbl.fin m) (bp_right E (Dbl.fin p) (Dbl.fin b)) = true := by
      rcases hR with ⟨R, hR, hmR⟩ | hR | ⟨R, hR, hR0⟩
      · rw [hR]
        simp [Dbl.lt, hmR, lt_trans hlm hmR]
      · rw [hR]
        exact ⟨rfl, rfl⟩
      · rw [hR] at hg
        simp only [Dbl.gt, Dbl.lt, decide_eq_true_eq] at hg
        exact absurd hg (not_lt.mpr hR0.le)
    apply push_after_smaller
    rcases push_second_last r1 r2 (Dbl.fin l) (Dbl.fin m) hLM with h | ⟨h | h, h1⟩
    · exact Or.inl h
    · exact Or.inr ⟨h1, by rw [h]; exact hlR.1⟩
    · exact Or.inr ⟨h1, by rw [h]; exact hlR.2⟩

/-- Witness for `candidates_order`: `p = 1`, `b = 1` with the real libm, where
`0 < left < middle`. -/
theorem candidates_order_witness :
    (0 : ℝ) < 1 ∧
    ∃ l m : ℝ,
      bp_left (stubEnv Real.log Real.exp Real.sqrt (Real.log 2) (Real.sqrt 2) (Real.sqrt 2)⁻¹)
        (Dbl.fin 1) (Dbl.fin 1) = Dbl.fin l ∧
      bp_middle (Dbl.fin (1 : ℝ)) (Dbl.fin 1) = Dbl.fin m ∧ 0 < l ∧ l < m :=
  ⟨one_pos, (candidates_order
    (stubEnv Real.log Real.exp Real.sqrt (Real.log 2) (Real.sqrt 2) (Real.sqrt 2)⁻¹) 1 1
    (fun _ _ => rfl) (fun _ _ => rfl) one_pos one_pos).1⟩

end CandidateOrder

/-! ## Outcomes of the integrand -/

section IntegrandOutcomes

variable {α : Type} [LinearOrderedField α]

end IntegrandOutcomes

/-! ## The retry loop of the quadrature -/

section Retry

variable {α : Type} [LinearOrderedField α]

/-- The retry loop after a sequence `codes` of round-off and subdivision-limit failures:
started with budget `N * 2^m0` and tolerance `A * 2^a0`, it arrives, with `a` round-off and
`m` subdivision failures in `codes`, at the call with budget `N * 2^(m0 + m)` and tolerance
`A * 2^(a0 + a)`. -/
theorem qagp_loop_trace (E : Env α) (f : Dbl α → IntegrandOut α) (pts : List (Dbl α))
    (reltol : Dbl α) (A : α) (N : Nat) (codes : List GslStatus) :
    ∀ (a0 m0 : Nat) (rel0 : Bool) (fuel : Nat),
      (∀ c ∈ codes, c = GslStatus.GSL_EROUND ∨ c = GslStatus.GSL_EMAXITER) →
      N * 2 ^ (m0 + codes.count GslStatus.GSL_EMAXITER) < 2 ^ 64 →
      (∀ (pre : List GslStatus) (c : GslStatus) (post : List GslStatus),
        codes = pre ++ c :: post →
        (E.qagp f pts (Dbl.fin (A * 2 ^ (a0 + pre.count GslStatus.GSL_EROUND))) reltol
          (N * 2 ^ (m0 + pre.count GslStatus.GSL_EMAXITER))).1 = c) →
      qagp_loop E f pts reltol (codes.length + fuel) (N * 2 ^ m0) (Dbl.fin (A * 2 ^ a0)) rel0
        = qagp_loop E f pts reltol fuel (N * 2 ^ (m0 + codes.count GslStatus.GSL_EMAXITER))
            (Dbl.fin (A * 2 ^ (a0 + codes.count GslStatus.GSL_EROUND)))
            (rel0 || decide (1 ≤ codes.count GslStatus.GSL_EROUND)) := by
  induction codes with
  | nil =>
    intro a0 m0 rel0 fuel _ _ _
    simp
  | cons c rest ih =>
    intro a0 m0 rel0 fuel hcodes hb hfail
    have h0 := hfail [] c rest rfl
    simp only [List.count_nil, Nat.add_zero] at h0
    have hrest : ∀ c' ∈ rest, c' = GslStatus.GSL_EROUND ∨ c' = GslStatus.GSL_EMAXITER :=
      fun c' hc' => hcodes c' (List.mem_cons_of_mem _ hc')
    rw [List.length_cons, show rest.length + 1 + fuel = (rest.length + fuel) + 1 by omega,
      qagp_loop]
    simp only [h0]
    rcases hcodes c (List.mem_cons_self _ _) with hc | hc
    · subst hc
      have hcR : (GslStatus.GSL_EROUND :: rest).count GslStatus.GSL_EROUND
          = rest.count GslStatus.GSL_EROUND + 1 := by simp
      have hcM : (GslStatus.GSL_EROUND :: rest).count GslStatus.GSL_EMAXITER
          = rest.count GslStatus.GSL_EMAXITER := by simp
      rw [hcM] at hb
      have hmul : (Dbl.fin (A * 2 ^ a0) * Dbl.fin 2 : Dbl α) = Dbl.fin (A * 2 ^ (a0 + 1)) := by
        rw [Dbl.fin_mul_fin, pow_succ, mul_assoc]
      rw [hmul, ih (a0 + 1) m0 true fuel hrest hb, hcR, hcM]
      · have e1 : a0 + 1 + rest.count GslStatus.GSL_EROUND
            = a0 + (rest.count GslStatus.GSL_EROUND + 1) := by omega
        rw [e1]
        simp
      · intro pre c' post hsplit
        have h := hfail (GslStatus.GSL_EROUND :: pre) c' post (by rw [hsplit]; rfl)
        have e1 : (GslStatus.GSL_EROUND :: pre).count GslStatus.GSL_EROUND
            = pre.count GslStatus.GSL_EROUND + 1 := by simp
        have e2 : (GslStatus.GSL_EROUND :: pre).count GslStatus.GSL_EMAXITER
            = pre.count GslStatus.GSL_EMAXITER := by simp
        rw [e1, e2] at h
        rw [show a0 + 1 + pre.count GslStatus.GSL_EROUND
          = a0 + (pre.count GslStatus.GSL_EROUND + 1) by omega]
        exact h
    · subst hc
      have hcR : (GslStatus.GSL_EMAXITER :: rest).count GslStatus.GSL_EROUND
          = rest.count GslStatus.GSL_EROUND := by simp
      have hcM : (GslStatus.GSL_EMAXITER :: rest).count GslStatus.GSL_EMAXITER
          = rest.count GslStatus.GSL_EMAXITER + 1 := by simp
      rw [hcM] at hb
      have hb2 : N * 2 ^ (m0 + 1 + rest.count GslStatus.GSL_EMAXITER) < 2 ^ 64 := by
        rw [show m0 + 1 + rest.count GslStatus.GSL_EMAXITER
          = m0 + (rest.count GslStatus.GSL_EMAXITER + 1) by omega]
        exact hb
      have hn : sz (N * 2 ^ m0 * 2) = N * 2 ^ (m0 + 1) := by
        rw [sz, Nat.mul_assoc, ← pow_succ]
        apply Nat.mod_eq_of_lt
        refine lt_of_le_of_lt (Nat.mul_le_mul_left N ?_) hb2
        exact Nat.pow_le_pow_right (by norm_num) (by omega)
      rw [hn, ih a0 (m0 + 1) rel0 fuel hrest hb2, hcR, hcM]
      · rw [show m0 + 1 + rest.count GslStatus.GSL_EMAXITER
          = m0 + (rest.count GslStatus.GSL_EMAXITER + 1) by omega]
      · intro pre c' post hsplit
        have h := hfail (GslStatus.GSL_EMAXITER :: pre) c' post (by rw [hsplit]; rfl)
        have e1 : (GslStatus.GSL_EMAXITER :: pre).count GslStatus.GSL_EROUND
            = pre.count GslStatus.GSL_EROUND := by simp
        have e2 : (GslStatus.GSL_EMAXITER :: pre).count GslStatus.GSL_EMAXITER
            = pre.count GslStatus.GSL_EMAXITER + 1 := by simp
        rw [e1, e2] at h
        rw [show m0 + 1 + pre.count GslStatus.GSL_EMAXITER
          = m0 + (pre.count GslStatus.GSL_EMAXITER + 1) by omega]
        exact h

/-- Claim C23: let the quadrature report the failures `codes` (each round-off or subdivision
limit, `a` and `m` of them) one after the other, the call after the failures `pre` being made
with `abstol = 1e-8 * 2^(round-off failures in pre)`, `reltol = 1e-8` and budget
`64 * 2^(subdivision failures in pre)`, and let the next call report `final` with result `R`.
If `final` is success, `log_radial_integral` leaves the loop there, with
`abstol = 1e-8 * 2^a`, budget `64 * 2^m`, the relaxed flag set iff `a >= 1`, and returns
`log_offset + log R`; if `final` is any other code than round-off or subdivision limit the
process exits with status 1. -/
theorem retry_loop_policy (E : Env α) (r1 r2 p b : Dbl α) (k : Int) (cosmology : Bool)
    (codes : List GslStatus) (final : GslStatus) (R : Dbl α) (fuel : Nat)
    (hcodes : ∀ c ∈ codes, c = GslStatus.GSL_EROUND ∨ c = GslStatus.GSL_EMAXITER)
    (hbudget : 64 * 2 ^ codes.count GslStatus.GSL_EMAXITER < 2 ^ 64)
    (hfail : ∀ (pre : List GslStatus) (c : GslStatus) (post : List GslStatus),
      codes = pre ++ c :: post →
      (E.qagp
        (radial_integrand E ⟨-log_offset_of E r1 r2 p b k cosmology, p, b, k, cosmology⟩)
        (breakpoints E r1 r2 p b)
        (Dbl.fin (1 / 100000000 * 2 ^ pre.count GslStatus.GSL_EROUND))
        (Dbl.fin (1 / 100000000))
        (64 * 2 ^ pre.count GslStatus.GSL_EMAXITER)).1 = c)
    (hfinal : E.qagp
        (radial_integrand E ⟨-log_offset_of E r1 r2 p b k cosmology, p, b, k, cosmology⟩)
        (breakpoints E r1 r2 p b)
        (Dbl.fin (1 / 100000000 * 2 ^ codes.count GslStatus.GSL_EROUND))
        (Dbl.fin (1 / 100000000))
        (64 * 2 ^ codes.count GslStatus.GSL_EMAXITER) = (final, R)) :
    (final = GslStatus.GSL_SUCCESS →
      log_radial_integral_run E (codes.length + (fuel + 1)) r1 r2 p b k cosmology
        = .ok (log_offset_of E r1 r2 p b k cosmology + E.log R,
            ⟨R, Dbl.fin (1 / 100000000 * 2 ^ codes.count GslStatus.GSL_EROUND),
             64 * 2 ^ codes.count GslStatus.GSL_EMAXITER,
             decide (1 ≤ codes.count GslStatus.GSL_EROUND)⟩)) ∧
    (final ≠ GslStatus.GSL_SUCCESS → final ≠ GslStatus.GSL_EROUND →
      final ≠ GslStatus.GSL_EMAXITER →
      log_radial_integral_run E (codes.length + (fuel + 1)) r1 r2 p b k cosmology
        = .error (Fault.exit 1)) := by
  have htrace := qagp_loop_trace E
    (radial_integrand E ⟨-log_offset_of E r1 r2 p b k cosmology, p, b, k, cosmology⟩)
    (breakpoints E r1 r2 p b) (Dbl.fin (1 / 100000000)) (1 / 100000000) 64 codes 0 0 false
    (fuel + 1) hcodes (by rw [Nat.zero_add]; exact hbudget)
    (fun pre c post h => by
      simp only [Nat.zero_add]
      exact hfail pre c post h)
  simp only [Nat.zero_add, pow_zero, mul_one, Nat.mul_one, Bool.false_or] at htrace
  constructor
  · intro hs
    rw [hs] at hfinal
    simp only [log_radial_integral_run]
    rw [htrace]
    simp only [qagp_loop, hfinal]
  · intro h1 h2 h3
    simp only [log_radial_integral_run]
    rw [htrace]
    simp only [qagp_loop, hfinal]

/-- Witness for `retry_loop_policy`: a quadrature that reports the subdivision limit, then
round-off, then success with result `3`; the successful call runs with `abstol = 2e-8` and
budget `128`, and the relaxed flag is set. -/
theorem retry_loop_policy_witness :
    log_radial_integral_run retryEnv 3 (Dbl.fin 1) (Dbl.fin 2) (Dbl.fin 1) (Dbl.fin 0) 0 false
      = .ok (log_offset_of retryEnv (Dbl.fin 1) (Dbl.fin 2) (Dbl.fin 1) (Dbl.fin 0) 0 false
              + retryEnv.log (Dbl.fin 3),
          ⟨Dbl.fin 3, Dbl.fin (1 / 100000000 * 2 ^ 1), 64 * 2 ^ 1, true⟩) := by
  have h := (retry_loop_policy retryEnv (Dbl.fin 1) (Dbl.fin 2) (Dbl.fin 1) (Dbl.fin 0) 0 false
    [GslStatus.GSL_EMAXITER, GslStatus.GSL_EROUND] GslStatus.GSL_SUCCESS (Dbl.fin 3) 0
    (by decide) (by decide)
    (by
      intro pre c post hsplit
      match pre, hsplit with
      | [], hsplit =>
        have hc : c = GslStatus.GSL_EMAXITER := by
          simp only [List.nil_append, List.cons.injEq] at hsplit
          exact hsplit.1.symm
        subst hc
        rfl
      | [x], hsplit =>
        simp only [List.singleton_append, List.cons.injEq] at hsplit
        obtain ⟨hx, hc, -⟩ := hsplit
        subst hx
        subst hc
        decide!
      | x :: y :: rest, hsplit =>
        simp only [List.cons_append, List.cons.injEq] at hsplit
        obtain ⟨-, -, h3⟩ := hsplit
        cases rest <;> cases h3)
    (by decide!)).1 rfl
  exact h

end Retry

/-! ## Rescaling of the integrand -/

section Rescaling

variable {α : Type} [LinearOrderedField α]

/-- Adding a finite constant commutes with a further addition. -/
theorem Dbl.add_fin_right_comm (x y : Dbl α) (s : α) :
    x + Dbl.fin s + y = x + y + Dbl.fin s := by
  cases x <;> cases y <;>
    first
    | rfl
    | (show Dbl.fin _ = Dbl.fin _
       congr 1
       ring)

/-- Adding the finite constant `0` changes nothing. -/
theorem Dbl.add_fin_zero (x : Dbl α) : x + Dbl.fin 0 = x := by
  cases x with
  | fin a =>
    show Dbl.fin (a + 0) = Dbl.fin a
    rw [add_zero]
  | pinf => rfl
  | ninf => rfl
  | nan => rfl

/-- The log-integrand with a finite `scale` is the log-integrand with `scale = 0` plus
`scale`. -/
theorem log_radial_integrand_scale (E : Env α) (s : α) (p b : Dbl α) (k : Int)
    (cosmology : Bool) (r : Dbl α) :
    log_radial_integrand E ⟨Dbl.fin s, p, b, k, cosmology⟩ r
      = log_radial_integrand E ⟨Dbl.fin 0, p, b, k, cosmology⟩ r + Dbl.fin s := by
  have hsub : ∀ x q : Dbl α, x + Dbl.fin s - q = x + Dbl.fin 0 - q + Dbl.fin s := by
    intro x q
    rw [Dbl.add_fin_zero]
    exact Dbl.add_fin_right_comm x (-q) s
  cases cosmology with
  | false =>
    simp only [log_radial_integrand, Bool.false_eq_true, if_false]
    exact hsub _ _
  | true =>
    simp only [log_radial_integrand, if_true]
    rw [hsub, Dbl.add_fin_right_comm]

/-- A value that is a number below `+∞`: finite or `-∞`. -/
theorem Dbl.low_cases {β : Type} (x : Dbl β) (h1 : x ≠ Dbl.nan) (h2 : x ≠ Dbl.pinf) :
    x = Dbl.ninf ∨ ∃ a, x = Dbl.fin a := by
  cases x with
  | fin a => exact Or.inr ⟨a, rfl⟩
  | pinf => exact absurd rfl h2
  | ninf => exact Or.inl rfl
  | nan => exact absurd rfl h1

/-- The comparison `<=` is transitive. -/
theorem Dbl.le_transitive (a b c : Dbl α) (h1 : Dbl.le a b = true) (h2 : Dbl.le b c = true) :
    Dbl.le a c = true := by
  cases a <;> cases b <;> cases c <;> simp_all [Dbl.le]
  exact le_trans h1 h2

/-- A value above another is not below it. -/
theorem Dbl.le_of_gt (x y : Dbl α) (h : Dbl.gt x y = true) : Dbl.le y x = true := by
  cases x <;> cases y <;> simp_all [Dbl.gt, Dbl.lt, Dbl.le]
  exact h.le

/-- Of two numbers, one that is not above the other is below or equal to it. -/
theorem Dbl.le_of_not_gt (x y : Dbl α) (hx : x ≠ Dbl.nan) (hy : y ≠ Dbl.nan)
    (h : ¬ Dbl.gt x y = true) : Dbl.le x y = true := by
  cases x <;> cases y <;> simp_all [Dbl.gt, Dbl.lt, Dbl.le]

/-- A number is below or equal to itself. -/
theorem Dbl.le_self (x : Dbl α) (hx : x ≠ Dbl.nan) : Dbl.le x x = true := by
  cases x <;> simp_all [Dbl.le]

/-- The running maximum of `max_log_offset` over values that are numbers below `+∞`: it is
such a number, it bounds the start value and every sampled value, and it is the start value
or one of the sampled values. -/
theorem max_log_offset_spec (E : Env α) (params : radial_integrand_params α) :
    ∀ (l : List (Dbl α)) (cur : Dbl α),
      (∀ r ∈ l, log_radial_integrand E params r ≠ Dbl.nan ∧
        log_radial_integrand E params r ≠ Dbl.pinf) →
      cur ≠ Dbl.nan → cur ≠ Dbl.pinf →
      (max_log_offset E params l cur ≠ Dbl.nan ∧ max_log_offset E params l cur ≠ Dbl.pinf) ∧
      Dbl.le cur (max_log_offset E params l cur) = true ∧
      (∀ r ∈ l, Dbl.le (log_radial_integrand E params r) (max_log_offset E params l cur)
        = true) ∧
      (max_log_offset E params l cur = cur ∨
        ∃ r ∈ l, max_log_offset E params l cur = log_radial_integrand E params r) := by
  intro l
  induction l with
  | nil =>
    intro cur _ h1 h2
    exact ⟨⟨h1, h2⟩, Dbl.le_self cur h1, fun r hr => absurd hr (List.not_mem_nil r),
      Or.inl rfl⟩
  | cons r rest ih =>
    intro cur hl h1 h2
    obtain ⟨hv1, hv2⟩ := hl r (List.mem_cons_self _ _)
    have hrest := fun r' hr' => hl r' (List.mem_cons_of_mem r hr')
    simp only [max_log_offset]
    by_cases hg : Dbl.gt (log_radial_integrand E params r) cur = true
    · rw [if_pos hg]
      obtain ⟨hn, hle, hall, hex⟩ := ih (log_radial_integrand E params r) hrest hv1 hv2
      have hcur : Dbl.le cur (log_radial_integrand E params r) = true :=
        Dbl.le_of_gt _ _ hg
      refine ⟨hn, Dbl.le_transitive _ _ _ hcur hle, ?_, ?_⟩
      · intro r' hr'
        rcases List.mem_cons.mp hr' with h | h
        · rw [h]
          exact hle
        · exact hall r' h
      · rcases hex with h | ⟨r', hr', h⟩
        · exact Or.inr ⟨r, List.mem_cons_self _ _, h⟩
        · exact Or.inr ⟨r', List.mem_cons_of_mem _ hr', h⟩
    · rw [if_neg hg]
      obtain ⟨hn, hle, hall, hex⟩ := ih cur hrest h1 h2
      have hcur : Dbl.le (log_radial_integrand E params r) cur = true :=
        Dbl.le_of_not_gt _ _ hv1 h1 hg
      refine ⟨hn, hle, ?_, ?_⟩
      · intro r' hr'
        rcases List.mem_cons.mp hr' with h | h
        · rw [h]
          exact Dbl.le_transitive _ _ _ hcur hle
        · exact hall r' h
      · rcases hex with h | ⟨r', hr', h⟩
        · exact Or.inl h
        · exact Or.inr ⟨r', List.mem_cons_of_mem _ hr', h⟩

/-- Only `-∞` is below or equal to `-∞`. -/
theorem Dbl.le_ninf (x : Dbl α) (h : Dbl.le x Dbl.ninf = true) : x = Dbl.ninf := by
  cases x <;> simp_all [Dbl.le]

/-- Claim C21: when the scale-0 log-integrand at every breakpoint is a number below `+∞`,
`log_offset` is `0` if every breakpoint value is `-∞` and otherwise is the (finite) maximum of
the breakpoint values, attained at one of them; with `scale = -log_offset` the rescaled
log-integrand is `<= 0` at every breakpoint and, when some breakpoint value is finite, equals
`0` at one of them. -/
theorem log_offset_rescaling (E : Env α) (r1 r2 p b : Dbl α) (k : Int) (cosmology : Bool)
    (H : ∀ r ∈ breakpoints E r1 r2 p b,
      log_radial_integrand E ⟨Dbl.fin 0, p, b, k, cosmology⟩ r ≠ Dbl.nan ∧
      log_radial_integrand E ⟨Dbl.fin 0, p, b, k, cosmology⟩ r ≠ Dbl.pinf) :
    ((∀ r ∈ breakpoints E r1 r2 p b,
        log_radial_integrand E ⟨Dbl.fin 0, p, b, k, cosmology⟩ r = Dbl.ninf) →
      log_offset_of E r1 r2 p b k cosmology = Dbl.fin 0) ∧
    ((∃ r ∈ breakpoints E r1 r2 p b,
        log_radial_integrand E ⟨Dbl.fin 0, p, b, k, cosmology⟩ r ≠ Dbl.ninf) →
      (∃ m, log_offset_of E r1 r2 p b k cosmology = Dbl.fin m) ∧
      (∃ r ∈ breakpoints E r1 r2 p b, log_offset_of E r1 r2 p b k cosmology
        = log_radial_integrand E ⟨Dbl.fin 0, p, b, k, cosmology⟩ r) ∧
      (∀ r ∈ breakpoints E r1 r2 p b,
        Dbl.le (log_radial_integrand E ⟨Dbl.fin 0, p, b, k, cosmology⟩ r)
          (log_offset_of E r1 r2 p b k cosmology) = true)) ∧
    (∀ r ∈ breakpoints E r1 r2 p b,
      Dbl.le (log_radial_integrand E
        ⟨-log_offset_of E r1 r2 p b k cosmology, p, b, k, cosmology⟩ r) (Dbl.fin 0) = true) ∧
    ((∃ r ∈ breakpoints E r1 r2 p b,
        log_radial_integrand E ⟨Dbl.fin 0, p, b, k, cosmology⟩ r ≠ Dbl.ninf) →
      ∃ r ∈ breakpoints E r1 r2 p b,
        log_radial_integrand E
          ⟨-log_offset_of E r1 r2 p b k cosmology, p, b, k, cosmology⟩ r = Dbl.fin 0) := by
  obtain ⟨⟨hn1, hn2⟩, -, hall, hex⟩ := max_log_offset_spec E
    ⟨Dbl.fin 0, p, b, k, cosmology⟩ (breakpoints E r1 r2 p b) Dbl.ninf H
    (by intro h; cases h) (by intro h; cases h)
  have hlo : log_offset_of E r1 r2 p b k cosmology
      = if Dbl.eq (max_log_offset E ⟨Dbl.fin 0, p, b, k, cosmology⟩
          (breakpoints E r1 r2 p b) Dbl.ninf) Dbl.ninf then Dbl.fin 0
        else max_log_offset E ⟨Dbl.fin 0, p, b, k, cosmology⟩
          (breakpoints E r1 r2 p b) Dbl.ninf := rfl
  rcases Dbl.low_cases _ hn1 hn2 with hR | ⟨m, hR⟩
  · rw [hR] at hall hlo
    have hl0 : log_offset_of E r1 r2 p b k cosmology = Dbl.fin 0 := by
      rw [hlo]
      rfl
    have hallninf : ∀ r ∈ breakpoints E r1 r2 p b,
        log_radial_integrand E ⟨Dbl.fin 0, p, b, k, cosmology⟩ r = Dbl.ninf :=
      fun r hr => Dbl.le_ninf _ (hall r hr)
    refine ⟨fun _ => hl0, ?_, ?_, ?_⟩
    · rintro ⟨r, hr, hne⟩
      exact absurd (hallninf r hr) hne
    · intro r hr
      rw [hl0, Dbl.neg_fin, log_radial_integrand_scale, hallninf r hr]
      rfl
    · rintro ⟨r, hr, hne⟩
      exact absurd (hallninf r hr) hne
  · rw [hR] at hall hex hlo
    have hlm : log_offset_of E r1 r2 p b k cosmology = Dbl.fin m := by
      rw [hlo]
      rfl
    have hex2 : ∃ r ∈ breakpoints E r1 r2 p b,
        Dbl.fin m = log_radial_integrand E ⟨Dbl.fin 0, p, b, k, cosmology⟩ r := by
      rcases hex with h | h
      · cases h
      · exact h
    refine ⟨?_, fun _ => ⟨⟨m, hlm⟩, ?_, ?_⟩, ?_, fun _ => ?_⟩
    · intro hninf
      obtain ⟨r, hr, h⟩ := hex2
      rw [hninf r hr] at h
      cases h
    · rw [hlm]
      exact hex2
    · rw [hlm]
      exact hall
    · intro r hr
      rw [hlm, Dbl.neg_fin, log_radial_integrand_scale]
      have h := hall r hr
      rcases Dbl.low_cases _ (H r hr).1 (H r hr).2 with hv | ⟨a, hv⟩
      · rw [hv]
        rfl
      · rw [hv] at h ⊢
        simp only [Dbl.le, decide_eq_true_eq] at h
        rw [Dbl.fin_add_fin]
        simp only [Dbl.le, decide_eq_true_eq]
        linarith
    · obtain ⟨r, hr, h⟩ := hex2
      refine ⟨r, hr, ?_⟩
      rw [hlm, Dbl.neg_fin, log_radial_integrand_scale, ← h, Dbl.fin_add_fin, add_neg_cancel]

/-- Witness for `log_offset_rescaling`: `r1 = 1`, `r2 = 2`, `p = 1`, `b = 0`, `k = 0` in the
sample environment, where the breakpoint values are `-1` and `-1/4`. -/
theorem log_offset_rescaling_witness :
    log_radial_integrand sampleEnv ⟨Dbl.fin 0, Dbl.fin 1, Dbl.fin 0, 0, false⟩ (Dbl.fin 2)
      = Dbl.fin (-1 / 4) ∧
    ∀ r ∈ breakpoints sampleEnv (Dbl.fin 1) (Dbl.fin 2) (Dbl.fin 1) (Dbl.fin 0),
      Dbl.le (log_radial_integrand sampleEnv
        ⟨-log_offset_of sampleEnv (Dbl.fin 1) (Dbl.fin 2) (Dbl.fin 1) (Dbl.fin 0) 0 false,
          Dbl.fin 1, Dbl.fin 0, 0, false⟩ r) (Dbl.fin 0) = true :=
  ⟨by decide!,
   (log_offset_rescaling sampleEnv (Dbl.fin 1) (Dbl.fin 2) (Dbl.fin 1) (Dbl.fin 0) 0 false
    (by decide!)).2.2.1⟩

end Rescaling

/-! ## The result does not depend on the offset -/

section OffsetInvariance

/-- With an exact `gsl_sf_exp_mult_e`, finite `r > 0`, `p > 0`, a finite Bessel factor and a
finite cosmology term, `radial_integrand` with the finite scale `s` returns `exp s` times
its value at scale `0`. -/
theorem radial_integrand_scaled (E : Env ℝ) (s r p b : ℝ) (k : ℤ) (cosmology : Bool)
    (hmult : ∀ x y : ℝ,
      E.exp_mult_e (Dbl.fin x) (Dbl.fin y) = (GslStatus.GSL_SUCCESS, Dbl.fin (y * Real.exp x)))
    (hI0 : ∃ i0, E.I0_scaled (Dbl.fin (b / r)) = Dbl.fin i0)
    (hL : cosmology = true → ∃ L, log_dVC_dVL E (Dbl.fin r) = Dbl.fin L)
    (hr : 0 < r) (hp : 0 < p) :
    (radial_integrand E ⟨Dbl.fin s, Dbl.fin p, Dbl.fin b, k, cosmology⟩ (Dbl.fin r)).value
      = Real.exp s
        * (radial_integrand E ⟨Dbl.fin 0, Dbl.fin p, Dbl.fin b, k, cosmology⟩
            (Dbl.fin r)).value := by
  obtain ⟨i0, hi0⟩ := hI0
  cases cosmology with
  | false =>
    simp only [radial_integrand, radial_exponent, Dbl.fin_div_fin _ _ hr.ne',
      Dbl.fin_div_fin _ _ hp.ne', Dbl.fin_mul_fin, Dbl.fin_sub_fin, Dbl.gsl_pow_2_fin,
      Dbl.gsl_pow_int_fin r hr.ne', hi0, hmult, Bool.false_eq_true, if_false,
      IntegrandOut.value]
    rw [sub_eq_add_neg s, Real.exp_add, zero_sub]
    ring
  | true =>
    obtain ⟨L, hLv⟩ := hL rfl
    simp only [radial_integrand, radial_exponent, Dbl.fin_div_fin _ _ hr.ne',
      Dbl.fin_div_fin _ _ hp.ne', Dbl.fin_mul_fin, Dbl.fin_sub_fin, Dbl.gsl_pow_2_fin,
      Dbl.gsl_pow_int_fin r hr.ne', hi0, hmult, hLv, Dbl.fin_add_fin, if_true,
      IntegrandOut.value]
    rw [sub_eq_add_neg s, add_assoc, Real.exp_add, zero_sub]
    ring

/-- The integral of the rescaled integrand is `exp (-log_offset)` times the integral of the
unscaled one, so adding `log_offset` to its logarithm gives the logarithm of the latter. -/
theorem offset_cancels (G0 Gs : ℝ → ℝ) (r1 r2 lo : ℝ)
    (hG : ∀ r ∈ Set.uIcc r1 r2, Gs r = Real.exp (-lo) * G0 r)
    (hpos : 0 < ∫ r in r1..r2, G0 r) :
    lo + Real.log (∫ r in r1..r2, Gs r) = Real.log (∫ r in r1..r2, G0 r) := by
  rw [intervalIntegral.integral_congr hG, intervalIntegral.integral_const_mul,
    Real.log_mul (Real.exp_pos _).ne' hpos.ne', Real.log_exp]
  ring

/-- Claim C22: with an exact exponential-multiply and finite Bessel and cosmology factors,
for `0 < r1 <= r2`, `p > 0` and a positive integral of the unscaled integrand over
`[r1, r2]`: for every finite `log_offset` the rescaled integrand is `exp (-log_offset)` times
the unscaled one and `log_offset + log (∫ rescaled) = log (∫ unscaled)`; and with a
quadrature that returns the integral of the integrand it is given, `log_radial_integral`
returns `log (∫ unscaled)` whatever finite `log_offset` the breakpoints produce. -/
theorem log_offset_invariance (E : Env ℝ) (r1 r2 p b : ℝ) (k : ℤ) (cosmology : Bool)
    (hlog : ∀ t : ℝ, 0 < t → E.rlog t = Real.log t)
    (hmult : ∀ x y : ℝ,
      E.exp_mult_e (Dbl.fin x) (Dbl.fin y) = (GslStatus.GSL_SUCCESS, Dbl.fin (y * Real.exp x)))
    (hI0 : ∀ r : ℝ, 0 < r → ∃ i0, E.I0_scaled (Dbl.fin (b / r)) = Dbl.fin i0)
    (hL : cosmology = true → ∀ r : ℝ, 0 < r → ∃ L, log_dVC_dVL E (Dbl.fin r) = Dbl.fin L)
    (hr1 : 0 < r1) (hr12 : r1 ≤ r2) (hp : 0 < p)
    (hpos : 0 < ∫ r in r1..r2,
      (radial_integrand E ⟨Dbl.fin 0, Dbl.fin p, Dbl.fin b, k, cosmology⟩ (Dbl.fin r)).value) :
    (∀ lo : ℝ,
      (∀ r ∈ Set.Icc r1 r2,
        (radial_integrand E ⟨Dbl.fin (-lo), Dbl.fin p, Dbl.fin b, k, cosmology⟩
            (Dbl.fin r)).value
          = Real.exp (-lo)
            * (radial_integrand E ⟨Dbl.fin 0, Dbl.fin p, Dbl.fin b, k, cosmology⟩
                (Dbl.fin r)).value) ∧
      lo + Real.log (∫ r in r1..r2,
          (radial_integrand E ⟨Dbl.fin (-lo), Dbl.fin p, Dbl.fin b, k, cosmology⟩
            (Dbl.fin r)).value)
        = Real.log (∫ r in r1..r2,
          (radial_integrand E ⟨Dbl.fin 0, Dbl.fin p, Dbl.fin b, k, cosmology⟩
            (Dbl.fin r)).value)) ∧
    (∀ (lo : ℝ) (fuel : Nat),
      log_offset_of E (Dbl.fin r1) (Dbl.fin r2) (Dbl.fin p) (Dbl.fin b) k cosmology
        = Dbl.fin lo →
      (∀ f pts abstol reltol n, E.qagp f pts abstol reltol n
        = (GslStatus.GSL_SUCCESS, Dbl.fin (∫ r in r1..r2, (f (Dbl.fin r)).value))) →
      log_radial_integral E (fuel + 1) (Dbl.fin r1) (Dbl.fin r2) (Dbl.fin p) (Dbl.fin b) k
          cosmology
        = .ok (Dbl.fin (Real.log (∫ r in r1..r2,
            (radial_integrand E ⟨Dbl.fin 0, Dbl.fin p, Dbl.fin b, k, cosmology⟩
              (Dbl.fin r)).value)))) := by
  have hscale : ∀ lo : ℝ, ∀ r ∈ Set.uIcc r1 r2,
      (radial_integrand E ⟨Dbl.fin (-lo), Dbl.fin p, Dbl.fin b, k, cosmology⟩
          (Dbl.fin r)).value
        = Real.exp (-lo)
          * (radial_integrand E ⟨Dbl.fin 0, Dbl.fin p, Dbl.fin b, k, cosmology⟩
              (Dbl.fin r)).value := by
    intro lo r hr
    rw [Set.uIcc_of_le hr12] at hr
    have hrpos : 0 < r := lt_of_lt_of_le hr1 hr.1
    exact radial_integrand_scaled E (-lo) r p b k cosmology hmult (hI0 r hrpos)
      (fun hc => hL hc r hrpos) hrpos hp
  have hcancel : ∀ lo : ℝ, lo + Real.log (∫ r in r1..r2,
        (radial_integrand E ⟨Dbl.fin (-lo), Dbl.fin p, Dbl.fin b, k, cosmology⟩
          (Dbl.fin r)).value)
      = Real.log (∫ r in r1..r2,
        (radial_integrand E ⟨Dbl.fin 0, Dbl.fin p, Dbl.fin b, k, cosmology⟩
          (Dbl.fin r)).value) :=
    fun lo => offset_cancels _ _ r1 r2 lo (hscale lo) hpos
  refine ⟨fun lo => ⟨fun r hr => hscale lo r (by rw [Set.uIcc_of_le hr12]; exact hr),
    hcancel lo⟩, ?_⟩
  intro lo fuel hlo hq
  have hpos2 : 0 < ∫ r in r1..r2,
      (radial_integrand E ⟨Dbl.fin (-lo), Dbl.fin p, Dbl.fin b, k, cosmology⟩
        (Dbl.fin r)).value := by
    rw [intervalIntegral.integral_congr (hscale lo), intervalIntegral.integral_const_mul]
    exact mul_pos (Real.exp_pos _) hpos
  simp only [log_radial_integral, log_radial_integral_run, qagp_loop, hq, hlo, Dbl.neg_fin,
    Env.log, hpos2, if_true, hlog _ hpos2, Dbl.fin_add_fin, hcancel lo]

/-- The integral over `[1, 2]` of the sample integrand `exp (-(1/r)^2)` (`p = 1`, `b = 0`,
`k = 0`, Bessel factor `1`, no cosmology) is positive. -/
theorem sample_integral_pos :
    0 < ∫ r in (1 : ℝ)..2,
      (radial_integrand
        (stubEnv Real.log Real.exp Real.sqrt (Real.log 2) (Real.sqrt 2) (Real.sqrt 2)⁻¹)
        ⟨Dbl.fin 0, Dbl.fin 1, Dbl.fin 0, 0, false⟩ (Dbl.fin r)).value := by
  have hval : ∀ r ∈ Set.uIcc (1 : ℝ) 2,
      (radial_integrand
        (stubEnv Real.log Real.exp Real.sqrt (Real.log 2) (Real.sqrt 2) (Real.sqrt 2)⁻¹)
        ⟨Dbl.fin 0, Dbl.fin 1, Dbl.fin 0, 0, false⟩ (Dbl.fin r)).value
        = Real.exp (-(1 / r) ^ 2) := by
    intro r hr
    rw [Set.uIcc_of_le (by norm_num)] at hr
    have hrpos : 0 < r := lt_of_lt_of_le one_pos hr.1
    rw [radial_integrand_value _ r 1 0 1 0 0 false (fun _ _ => rfl) rfl
      (fun h => absurd h (by decide)) hrpos one_pos]
    simp [IntegrandOut.value]
  rw [intervalIntegral.integral_congr hval]
  apply intervalIntegral.intervalIntegral_pos_of_pos_on _ (fun x _ => Real.exp_pos _)
    (by norm_num)
  apply ContinuousOn.intervalIntegrable
  apply Real.continuous_exp.comp_continuousOn
  apply ContinuousOn.neg
  apply ContinuousOn.pow
  apply ContinuousOn.div continuousOn_const continuousOn_id
  intro x hx
  rw [Set.uIcc_of_le (by norm_num)] at hx
  exact (lt_of_lt_of_le one_pos hx.1).ne'

/-- Witness for `log_offset_invariance`: `r1 = 1`, `r2 = 2`, `p = 1`, `b = 0`, `k = 0`
without cosmology and with the real libm; the offset `3` cancels. -/
theorem log_offset_invariance_witness :
    3 + Real.log (∫ r in (1 : ℝ)..2,
        (radial_integrand
          (stubEnv Real.log Real.exp Real.sqrt (Real.log 2) (Real.sqrt 2) (Real.sqrt 2)⁻¹)
          ⟨Dbl.fin (-3), Dbl.fin 1, Dbl.fin 0, 0, false⟩ (Dbl.fin r)).value)
      = Real.log (∫ r in (1 : ℝ)..2,
        (radial_integrand
          (stubEnv Real.log Real.exp Real.sqrt (Real.log 2) (Real.sqrt 2) (Real.sqrt 2)⁻¹)
          ⟨Dbl.fin 0, Dbl.fin 1, Dbl.fin 0, 0, false⟩ (Dbl.fin r)).value) :=
  ((log_offset_invariance
    (stubEnv Real.log Real.exp Real.sqrt (Real.log 2) (Real.sqrt 2) (Real.sqrt 2)⁻¹)
    1 2 1 0 0 false (fun _ _ => rfl) (fun _ _ => rfl) (fun _ _ => ⟨1, rfl⟩)
    (fun h => absurd h (by decide)) one_pos (by norm_num) one_pos sample_integral_pos).1 3).2

end OffsetInvariance

/-! ## The region0 branch stays inside the table -/

section Region0Domain

variable {α : Type} [LinearOrderedField α]

/-- The minimum of two values, when finite and taken against a finite second value, is at
most that second value. -/
theorem GSL_MIN_DBL_le (a : Dbl α) (x0 xm : α)
    (h : Dbl.GSL_MIN_DBL a (Dbl.fin xm) = Dbl.fin x0) : x0 ≤ xm := by
  unfold Dbl.GSL_MIN_DBL at h
  split at h
  · rename_i hlt
    rw [h] at hlt
    simp only [Dbl.lt, decide_eq_true_eq] at hlt
    exact hlt.le
  · injection h with h
    exact h.ge

/-- The inequalities behind the region0 branch: with `xmin = x0 - (1 + s) 4`,
`ymin = 2 x0 - 4 s - xm`, `ymax = x0 + 4`, `vmax = x0 - 4 t` and `s = 2 t`, a point with
`x <= xm`, `y < ymax` and `(x + y) / 2 > vmax` has `xmin < x` and `ymin < y`. -/
theorem region0_inequalities (x0 xm s t x y : α) (hs : s = 2 * t) (hx : x ≤ xm)
    (hy : y < x0 + 4) (hv : x0 - t * 4 < 1 / 2 * (x + y)) :
    x0 - (1 + s) * 4 < x ∧ 2 * x0 - s * 4 - xm < y := by
  subst hs
  constructor <;> linarith

/-- The content of claim C27 in exact arithmetic, for a successfully built integrator with
finite `x0`, `xmax`, `0 < M_SQRT2 = 2 M_SQRT1_2` and a query with finite `logP = x` and
`logB = lb`. -/
theorem region0_domain_aux (E : Env α) (A : Allocs) (sig : Option Nat) (fuel : Nat)
    (r1 r2 : Dbl α) (k : Int) (cosmology : Bool) (pmax : Dbl α) (size : Nat)
    (I : log_radial_integrator α) (x0 xm x lb : α) (p b : Dbl α)
    (hinit : log_radial_integrator_init E A sig fuel r1 r2 k cosmology pmax size
      = .ok (InitRet.integrator I))
    (hx0 : Dbl.GSL_MIN_DBL (E.log (Dbl.fin (1 / 2) * (if k ≥ 0 then r2 else r1))) (E.log pmax)
      = Dbl.fin x0)
    (hxm : E.log pmax = Dbl.fin xm)
    (hpos : 0 < E.M_SQRT2) (hs : E.M_SQRT2 = 2 * E.M_SQRT1_2)
    (h2 : 2 ≤ size) (hsz : size < 2 ^ 64)
    (hp : Dbl.eq p (Dbl.fin 0) = false)
    (hx : Dbl.le (Dbl.fin x) I.xmax = true)
    (hy : Dbl.ge (Dbl.fin (E.M_LN2 + 2 * x - lb)) I.ymax = false)
    (hv : Dbl.le (Dbl.fin (1 / 2) * (Dbl.fin x + Dbl.fin (E.M_LN2 + 2 * x - lb))) I.vmax
      = false) :
    ∃ xmin ymin d : α,
      (I.region0.smin = Dbl.fin xmin ∧ I.region0.tmin = Dbl.fin ymin ∧
        I.region0.ds = Dbl.fin d ∧ I.region0.dt = Dbl.fin d ∧
        I.region0.ns = size ∧ I.region0.nt = size) ∧
      0 < d ∧
      I.xmax = Dbl.fin (xmin + ((size - 1 : ℕ) : α) * d) ∧
      I.ymax = Dbl.fin (ymin + ((size - 1 : ℕ) : α) * d) ∧
      (xmin < x ∧ x ≤ xmin + ((size - 1 : ℕ) : α) * d) ∧
      (ymin < E.M_LN2 + 2 * x - lb ∧
        E.M_LN2 + 2 * x - lb < ymin + ((size - 1 : ℕ) : α) * d) ∧
      log_radial_integrator_eval E I p b (Dbl.fin x) (Dbl.fin lb)
        = .ok (E.bicubic_interp_eval I.region0 (Dbl.fin x) (Dbl.fin (E.M_LN2 + 2 * x - lb))
            + Dbl.gsl_pow_2 (Dbl.fin (1 / 2) * b / p)) := by
  have heval : log_radial_integrator_eval E I p b (Dbl.fin x) (Dbl.fin lb)
      = .ok (E.bicubic_interp_eval I.region0 (Dbl.fin x) (Dbl.fin (E.M_LN2 + 2 * x - lb))
          + Dbl.gsl_pow_2 (Dbl.fin (1 / 2) * b / p)) := by
    rw [eval_unfold_interp E I p b _ _ hp hx]
    simp only [Dbl.fin_mul_fin, Dbl.fin_add_fin, Dbl.fin_sub_fin] at hy hv ⊢
    simp only [hy, hv, Bool.false_eq_true, if_false]
  obtain ⟨_, _, _, z0, _, hI⟩ :=
    init_success_inv E A sig fuel r1 r2 k cosmology pmax size I hinit
  rw [grid_finite E r1 r2 k pmax size x0 xm hx0 hxm h2 hsz] at hI
  have hle : x0 ≤ xm := by
    rw [hxm] at hx0
    exact GSL_MIN_DBL_le _ x0 xm hx0
  have hN : (0 : α) < ((size - 1 : ℕ) : α) := by
    have : 0 < size - 1 := by omega
    exact_mod_cast this
  subst hI
  simp only [Dbl.le, Dbl.ge, Dbl.fin_mul_fin, Dbl.fin_add_fin, decide_eq_true_eq,
    decide_eq_false_iff_not, not_le] at hx hy hv
  obtain ⟨hxmin, hymin⟩ := region0_inequalities x0 xm E.M_SQRT2 E.M_SQRT1_2 x
    (E.M_LN2 + 2 * x - lb) hs hx hy hv
  have hw : 0 < xm - (x0 - (1 + E.M_SQRT2) * 4) := by linarith
  have hNd : ((size - 1 : ℕ) : α) * ((xm - (x0 - (1 + E.M_SQRT2) * 4)) / ((size - 1 : ℕ) : α))
      = xm - (x0 - (1 + E.M_SQRT2) * 4) := mul_div_cancel₀ _ hN.ne'
  refine ⟨x0 - (1 + E.M_SQRT2) * 4, 2 * x0 - E.M_SQRT2 * 4 - xm,
    (xm - (x0 - (1 + E.M_SQRT2) * 4)) / ((size - 1 : ℕ) : α),
    ⟨rfl, rfl, rfl, rfl, rfl, rfl⟩, div_pos hw hN, ?_, ?_, ⟨hxmin, ?_⟩, ⟨hymin, ?_⟩, heval⟩
  · show Dbl.fin xm = _
    rw [hNd]
    congr 1
    ring
  · show Dbl.fin (x0 + 4) = _
    rw [hNd]
    congr 1
    ring
  · rw [hNd]
    linarith
  · rw [hNd]
    linarith

/-- Claim C27 (amended): with the arithmetic of the grid and of the query coordinates taken
exactly (sums, products and quotients without rounding, and `0 < M_SQRT2 = 2 M_SQRT1_2`,
which holds for the C constants), for a successfully built integrator with `2 <= size` and
finite `x0 = min (ln p0, ln pmax)` and `xmax = ln pmax` (that is `p0 > 0`, `pmax > 0`), every
query with finite `logP = x`, `logB` that takes the region0 branch of
`log_radial_integrator_eval` evaluates the bicubic table at a point `(x, y)` with
`xmin < x <= xmax` and `ymin < y < ymax`, where `xmax = xmin + (size - 1) d`,
`ymax = ymin + (size - 1) d` and `d > 0` are the origin, extent and step of region0.  In
binary64 arithmetic a query at `x = xmax` can lie beyond `xmin + (size - 1) d`. -/
theorem region0_domain (E : Env α) (A : Allocs) (sig : Option Nat) (fuel : Nat)
    (r1 r2 : Dbl α) (k : Int) (cosmology : Bool) (pmax : Dbl α) (size : Nat)
    (I : log_radial_integrator α) (x0 xm x lb : α) (p b : Dbl α)
    (hinit : log_radial_integrator_init E A sig fuel r1 r2 k cosmology pmax size
      = .ok (InitRet.integrator I))
    (hx0 : Dbl.GSL_MIN_DBL (E.log (Dbl.fin (1 / 2) * (if k ≥ 0 then r2 else r1))) (E.log pmax)
      = Dbl.fin x0)
    (hxm : E.log pmax = Dbl.fin xm)
    (hpos : 0 < E.M_SQRT2) (hs : E.M_SQRT2 = 2 * E.M_SQRT1_2)
    (h2 : 2 ≤ size) (hsz : size < 2 ^ 64)
    (hp : Dbl.eq p (Dbl.fin 0) = false)
    (hx : Dbl.le (Dbl.fin x) I.xmax = true)
    (hy : Dbl.ge (Dbl.fin (E.M_LN2 + 2 * x - lb)) I.ymax = false)
    (hv : Dbl.le (Dbl.fin (1 / 2) * (Dbl.fin x + Dbl.fin (E.M_LN2 + 2 * x - lb))) I.vmax
      = false) :
    ∃ xmin ymin d : α,
      (I.region0.smin = Dbl.fin xmin ∧ I.region0.tmin = Dbl.fin ymin ∧
        I.region0.ds = Dbl.fin d ∧ I.region0.dt = Dbl.fin d ∧
        I.region0.ns = size ∧ I.region0.nt = size) ∧
      0 < d ∧
      I.xmax = Dbl.fin (xmin + ((size - 1 : ℕ) : α) * d) ∧
      I.ymax = Dbl.fin (ymin + ((size - 1 : ℕ) : α) * d) ∧
      (xmin < x ∧ x ≤ xmin + ((size - 1 : ℕ) : α) * d) ∧
      (ymin < E.M_LN2 + 2 * x - lb ∧
        E.M_LN2 + 2 * x - lb < ymin + ((size - 1 : ℕ) : α) * d) ∧
      log_radial_integrator_eval E I p b (Dbl.fin x) (Dbl.fin lb)
        = .ok (E.bicubic_interp_eval I.region0 (Dbl.fin x) (Dbl.fin (E.M_LN2 + 2 * x - lb))
            + Dbl.gsl_pow_2 (Dbl.fin (1 / 2) * b / p)) :=
  region0_domain_aux E A sig fuel r1 r2 k cosmology pmax size I x0 xm x lb p b hinit hx0 hxm
    hpos hs h2 hsz hp hx hy hv

/-- Witness for `region0_domain`: the `3 × 3` build for `r1 = 1`, `r2 = 2`, `k = 0`,
`pmax = 1` with the real libm, queried at `logP = 0`, `logB = ln 2`, that is at
`(x, y) = (0, 0)`. -/
theorem region0_domain_witness :
    ∃ (I : log_radial_integrator ℝ) (xmin ymin d : ℝ),
      log_radial_integrator_init
        (stubEnv Real.log Real.exp Real.sqrt (Real.log 2) (Real.sqrt 2) (Real.sqrt 2)⁻¹)
        allocsOk none 1 (Dbl.fin 1) (Dbl.fin 2) 0 false (Dbl.fin 1) 3
        = .ok (InitRet.integrator I) ∧
      I.region0.smin = Dbl.fin xmin ∧ I.region0.tmin = Dbl.fin ymin ∧ 0 < d ∧
      xmin < 0 ∧ (0 : ℝ) ≤ xmin + ((3 - 1 : ℕ) : ℝ) * d ∧
      ymin < Real.log 2 + 2 * 0 - Real.log 2 ∧
      Real.log 2 + 2 * 0 - Real.log 2 < ymin + ((3 - 1 : ℕ) : ℝ) * d := by
  obtain ⟨I, hI⟩ := init_returns_integrator
    (stubEnv Real.log Real.exp Real.sqrt (Real.log 2) (Real.sqrt 2) (Real.sqrt 2)⁻¹)
    allocsOk none 1 (Dbl.fin 1) (Dbl.fin 2) 0 false (Dbl.fin 1) 3
    ⟨rfl, rfl, rfl⟩ (fun _ => ⟨rfl, rfl⟩) ⟨rfl, rfl, rfl, rfl⟩ rfl
    (fun m _ => init_cell_returns _ 0 _ _ _ _ _ _ m (fun _ _ _ _ _ => rfl))
  have hsq : (0 : ℝ) < Real.sqrt 2 := Real.sqrt_pos.mpr (by norm_num)
  have hx0 : Dbl.GSL_MIN_DBL
      ((stubEnv Real.log Real.exp Real.sqrt (Real.log 2) (Real.sqrt 2) (Real.sqrt 2)⁻¹).log
        (Dbl.fin (1 / 2) * (if (0 : ℤ) ≥ 0 then Dbl.fin 2 else Dbl.fin 1)))
      ((stubEnv Real.log Real.exp Real.sqrt (Real.log 2) (Real.sqrt 2) (Real.sqrt 2)⁻¹).log
        (Dbl.fin 1)) = Dbl.fin 0 := by
    simp [stubEnv, Env.log, Dbl.GSL_MIN_DBL, Dbl.lt, Dbl.fin_mul_fin]
  have hxm : (stubEnv Real.log Real.exp Real.sqrt (Real.log 2) (Real.sqrt 2)
      (Real.sqrt 2)⁻¹).log (Dbl.fin 1) = Dbl.fin 0 := by
    simp [stubEnv, Env.log]
  obtain ⟨_, _, _, z0, _, hIv⟩ := init_success_inv _ _ _ _ _ _ _ _ _ _ I hI
  rw [grid_finite _ _ _ _ _ 3 0 0 hx0 hxm (by norm_num) (by norm_num)] at hIv
  have hxq : Dbl.le (Dbl.fin (0 : ℝ)) I.xmax = true := by
    rw [hIv]
    simp [Dbl.le]
  have hyq : Dbl.ge (Dbl.fin (Real.log 2 + 2 * 0 - Real.log 2)) I.ymax = false := by
    rw [hIv]
    simp [Dbl.ge, Dbl.le]
  have hvq : Dbl.le (Dbl.fin (1 / 2)
      * (Dbl.fin 0 + Dbl.fin (Real.log 2 + 2 * 0 - Real.log 2))) I.vmax = false := by
    rw [hIv]
    simp only [Dbl.fin_mul_fin, Dbl.fin_add_fin, Dbl.le, decide_eq_false_iff_not, not_le]
    show (0 : ℝ) - (Real.sqrt 2)⁻¹ * 4 < 1 / 2 * (0 + (Real.log 2 + 2 * 0 - Real.log 2))
    have : 0 < (Real.sqrt 2)⁻¹ := inv_pos.mpr hsq
    linarith
  obtain ⟨xmin, ymin, d, ⟨h1, h2, -⟩, hd, -, -, ⟨h5, h6⟩, ⟨h7, h8⟩, -⟩ := region0_domain
    (stubEnv Real.log Real.exp Real.sqrt (Real.log 2) (Real.sqrt 2) (Real.sqrt 2)⁻¹)
    allocsOk none 1 (Dbl.fin 1) (Dbl.fin 2) 0 false (Dbl.fin 1) 3 I 0 0 0 (Real.log 2)
    (Dbl.fin 1) (Dbl.fin 1) hI hx0 hxm hsq
    (by
      show Real.sqrt 2 = 2 * (Real.sqrt 2)⁻¹
      have hne : Real.sqrt 2 ≠ 0 := hsq.ne'
      field_simp)
    (by norm_num) (by norm_num) (by simp [Dbl.eq]) hxq hyq hvq
  exact ⟨I, xmin, ymin, d, hI, h1, h2, hd, h5, h6, h7, h8⟩

end Region0Domain

/-! ## The table does not depend on the order of the cells -/

section Schedule

variable {α : Type} [LinearOrderedField α]

/-- Without interruption the sequential loop is the loop executed in increasing order. -/
theorem init_loop_eq_order (E : Env α) (fuel : Nat) (r1 r2 : Dbl α) (k : Int)
    (cosmology : Bool) (g : Grid α) (size : Nat) :
    ∀ (todo i : Nat) (z : Nat → Dbl α),
      init_loop E none fuel r1 r2 k cosmology g size todo i z
        = init_loop_order E fuel r1 r2 k cosmology g size (List.range' i todo) z := by
  intro todo
  induction todo with
  | zero => intro i z; rfl
  | succ n ih =>
    intro i z
    simp only [init_loop, OMP_WAS_INTERRUPTED, Bool.false_eq_true, if_false, List.range',
      init_loop_order]
    cases init_cell E fuel r1 r2 k cosmology g size i with
    | error e => rfl
    | ok c => exact ih (i + 1) _

/-- If every cell of `order` returns the value `v m` for its own index `m`, the loop executed
in the order `order` returns the table that holds `v` on the cells of `order` and is
unchanged elsewhere. -/
theorem init_loop_order_table (E : Env α) (fuel : Nat) (r1 r2 : Dbl α) (k : Int)
    (cosmology : Bool) (g : Grid α) (size : Nat) (v : Nat → Dbl α) :
    ∀ (order : List Nat) (z : Nat → Dbl α),
      (∀ m ∈ order, init_cell E fuel r1 r2 k cosmology g size m = .ok (m, v m)) →
      ∃ z', init_loop_order E fuel r1 r2 k cosmology g size order z = .ok z' ∧
        ∀ j, z' j = if j ∈ order then v j else z j := by
  intro order
  induction order with
  | nil =>
    intro z _
    exact ⟨z, rfl, fun j => by simp⟩
  | cons i rest ih =>
    intro z h
    obtain ⟨z', hz', hv⟩ := ih (Function.update z i (v i))
      (fun m hm => h m (List.mem_cons_of_mem _ hm))
    refine ⟨z', ?_, fun j => ?_⟩
    · simp only [init_loop_order, h i (List.mem_cons_self _ _)]
      exact hz'
    · rw [hv j]
      by_cases hj : j ∈ rest
      · rw [if_pos hj, if_pos (List.mem_cons_of_mem _ hj)]
      · rw [if_neg hj]
        by_cases hji : j = i
        · rw [hji, Function.update_same, if_pos (List.mem_cons_self _ _)]
        · rw [Function.update_noteq hji, if_neg]
          intro hmem
          rcases List.mem_cons.mp hmem with h1 | h1
          · exact hji h1
          · exact hj h1

/-- The flat index `i` and the pair `(i / size, i % size)` determine each other. -/
theorem flat_index_bijection (size : Nat) (hpos : 0 < size) :
    (∀ i, i < size * size →
      i / size < size ∧ i % size < size ∧ i / size * size + i % size = i) ∧
    (∀ ix iy, ix < size → iy < size →
      ix * size + iy < size * size ∧ (ix * size + iy) / size = ix ∧
      (ix * size + iy) % size = iy) := by
  constructor
  · intro i hi
    refine ⟨Nat.div_lt_of_lt_mul hi, Nat.mod_lt _ hpos, Nat.div_add_mod' i size⟩
  · intro ix iy hix hiy
    refine ⟨?_, ?_, ?_⟩
    · have h3 : (ix + 1) * size ≤ size * size := Nat.mul_le_mul_right size (by omega)
      have h4 : (ix + 1) * size = ix * size + size := by ring
      omega
    · rw [Nat.add_comm, Nat.add_mul_div_right _ _ hpos, Nat.div_eq_of_lt hiy, Nat.zero_add]
    · rw [Nat.add_comm, Nat.add_mul_mod_self_right, Nat.mod_eq_of_lt hiy]

/-- The content of claim C25 for a successfully built integrator. -/
theorem table_build_aux (E : Env α) (A : Allocs) (sig : Option Nat) (fuel : Nat)
    (r1 r2 : Dbl α) (k : Int) (cosmology : Bool) (pmax : Dbl α) (size : Nat)
    (I : log_radial_integrator α)
    (hinit : log_radial_integrator_init E A sig fuel r1 r2 k cosmology pmax size
      = .ok (InitRet.integrator I))
    (hsize : size < 2 ^ 32) :
    (I.region0.smin = (grid E r1 r2 k pmax size).xmin ∧
      I.region0.tmin = (grid E r1 r2 k pmax size).ymin ∧
      I.region0.ds = (grid E r1 r2 k pmax size).d ∧
      I.region0.dt = (grid E r1 r2 k pmax size).d) ∧
    (∀ order : List Nat, List.Perm order (List.range (size * size)) →
      ∃ z, init_loop_order E fuel r1 r2 k cosmology (grid E r1 r2 k pmax size) size order
          (fun _ => Dbl.fin 0) = .ok z ∧
        ∀ j, j < size * size → z j = I.region0.data j) ∧
    (I.region1.tmin = (grid E r1 r2 k pmax size).xmin ∧
      I.region1.dt = (grid E r1 r2 k pmax size).d ∧
      ∀ i, i < size → I.region1.data i = I.region0.data (i * size + (size - 1))) ∧
    (I.region2.tmin = -(Dbl.fin 1 + Dbl.fin E.M_SQRT1_2) * Dbl.fin 4 ∧
      I.region2.dt = (grid E r1 r2 k pmax size).d ∧
      ∀ i, i < size → I.region2.data i = I.region0.data (i * size + (size - 1 - i))) := by
  obtain ⟨_, _, hsig, z0, hl, hI⟩ :=
    init_success_inv E A sig fuel r1 r2 k cosmology pmax size I hinit
  have hss : size * size < 2 ^ 64 := by
    have : size * size < 2 ^ 32 * 2 ^ 32 := Nat.mul_lt_mul'' hsize hsize
    simpa using this
  have hsz : sz (size * size) = size * size := Nat.mod_eq_of_lt hss
  rw [hsz] at hl hsig
  obtain ⟨hcell, _⟩ := init_loop_complete E sig fuel r1 r2 k cosmology _ size (size * size)
    0 _ z0
    (fun t _ h2 => OMP_WAS_INTERRUPTED_mono sig _ t (by omega) hsig)
    (fun m c _ h2 hc => by
      rw [init_cell_index E fuel r1 r2 k cosmology _ size m c hc]
      exact cell_index_eq size m (by omega) hss)
    hl
  subst hI
  refine ⟨⟨rfl, rfl, rfl, rfl⟩, ?_, ⟨rfl, rfl, ?_⟩, ⟨rfl, rfl, ?_⟩⟩
  · intro order hperm
    obtain ⟨z, hz, hv⟩ := init_loop_order_table E fuel r1 r2 k cosmology
      (grid E r1 r2 k pmax size) size z0 order (fun _ => Dbl.fin 0)
      (fun m hm => hcell m (Nat.zero_le _) (by
        have := (hperm.mem_iff).mp hm
        rw [List.mem_range] at this
        omega))
    refine ⟨z, hz, fun j hj => ?_⟩
    rw [hv j, if_pos ((hperm.mem_iff).mpr (List.mem_range.mpr hj))]
  · intro i hi
    show (if i < size then z0 (sz (sz (i * size) + sz (size + 2 ^ 64 - 1))) else Dbl.fin 0)
      = z0 (i * size + (size - 1))
    rw [if_pos hi, (slice_indices size i hsize hi).1]
  · intro i hi
    show (if i < size then
        z0 (sz (sz (i * size) + sz (sz (size + 2 ^ 64 - 1) + 2 ^ 64 - i))) else Dbl.fin 0)
      = z0 (i * size + (size - 1 - i))
    rw [if_pos hi, (slice_indices size i hsize hi).2]

/-- Claim C25: for a successfully built integrator (so without interruption) with
`2 <= size < 2^32`: for every `(ix, iy)` in `[0, size)^2` the entry `z0[ix * size + iy]` of
region0 is the return value of `log_radial_integral (r1, r2, p, b, k, cosmology)` at
`p = exp (xmin + ix d)`, `b = 2 p^2 / exp (ymin + iy d)`; the flat index `i` and
`(i / size, i % size)` determine each other, and executing the cells in any order that is a
permutation of `0 .. size^2 - 1` gives the same table; region1 holds `z0[i, size - 1]` with
origin `xmin`, region2 holds `z0[i, size - 1 - i]` with origin `umin = -(1 + M_SQRT1_2) 4`,
both with step `d`. -/
theorem table_build (E : Env α) (A : Allocs) (sig : Option Nat) (fuel : Nat)
    (r1 r2 : Dbl α) (k : Int) (cosmology : Bool) (pmax : Dbl α) (size : Nat)
    (I : log_radial_integrator α)
    (hinit : log_radial_integrator_init E A sig fuel r1 r2 k cosmology pmax size
      = .ok (InitRet.integrator I))
    (h2 : 2 ≤ size) (hsize : size < 2 ^ 32) :
    (∀ ix iy, ix < size → iy < size →
      log_radial_integral E fuel r1 r2
        (E.exp ((grid E r1 r2 k pmax size).xmin + Dbl.ofNat ix * (grid E r1 r2 k pmax size).d))
        (Dbl.fin 2 * Dbl.gsl_pow_2
            (E.exp ((grid E r1 r2 k pmax size).xmin
              + Dbl.ofNat ix * (grid E r1 r2 k pmax size).d))
          / E.exp ((grid E r1 r2 k pmax size).ymin
              + Dbl.ofNat iy * (grid E r1 r2 k pmax size).d)) k cosmology
        = .ok (I.region0.data (ix * size + iy))) ∧
    ((∀ i, i < size * size →
        i / size < size ∧ i % size < size ∧ i / size * size + i % size = i) ∧
      (∀ ix iy, ix < size → iy < size →
        ix * size + iy < size * size ∧ (ix * size + iy) / size = ix ∧
        (ix * size + iy) % size = iy)) ∧
    (∀ order : List Nat, List.Perm order (List.range (size * size)) →
      ∃ z, init_loop_order E fuel r1 r2 k cosmology (grid E r1 r2 k pmax size) size order
          (fun _ => Dbl.fin 0) = .ok z ∧
        ∀ j, j < size * size → z j = I.region0.data j) ∧
    (I.region0.smin = (grid E r1 r2 k pmax size).xmin ∧
      I.region0.tmin = (grid E r1 r2 k pmax size).ymin ∧
      I.region0.ds = (grid E r1 r2 k pmax size).d ∧
      I.region0.dt = (grid E r1 r2 k pmax size).d) ∧
    (I.region1.tmin = (grid E r1 r2 k pmax size).xmin ∧
      I.region1.dt = (grid E r1 r2 k pmax size).d ∧
      ∀ i, i < size → I.region1.data i = I.region0.data (i * size + (size - 1))) ∧
    (I.region2.tmin = -(Dbl.fin 1 + Dbl.fin E.M_SQRT1_2) * Dbl.fin 4 ∧
      I.region2.dt = (grid E r1 r2 k pmax size).d ∧
      ∀ i, i < size → I.region2.data i = I.region0.data (i * size + (size - 1 - i))) := by
  obtain ⟨hg, hord, hr1, hr2⟩ :=
    table_build_aux E A sig fuel r1 r2 k cosmology pmax size I hinit hsize
  refine ⟨fun ix iy hix hiy => ?_, flat_index_bijection size (by omega), hord, hg, hr1, hr2⟩
  have h := (init_table_entry E A sig fuel r1 r2 k cosmology pmax size I ix iy hinit hsize
    hix hiy).2
  rw [hg.1, hg.2.1, hg.2.2.1, hg.2.2.2] at h
  exact h

/-- Witness for `table_build`: the `2 × 2` build over the rationals with `r1 = 1`, `r2 = 2`,
`k = 0`, `pmax = 1`; the cells executed in the order `3, 1, 0, 2` give the same table. -/
theorem table_build_witness :
    ∃ I z, log_radial_integrator_init sampleEnv allocsOk none 1 (Dbl.fin 1) (Dbl.fin 2) 0 false
        (Dbl.fin 1) 2 = .ok (InitRet.integrator I) ∧
      init_loop_order sampleEnv 1 (Dbl.fin 1) (Dbl.fin 2) 0 false
        (grid sampleEnv (Dbl.fin 1) (Dbl.fin 2) 0 (Dbl.fin 1) 2) 2 [3, 1, 0, 2]
        (fun _ => Dbl.fin 0) = .ok z ∧
      (∀ j, j < 2 * 2 → z j = I.region0.data j) ∧
      I.region1.data 0 = I.region0.data (0 * 2 + (2 - 1)) := by
  obtain ⟨I, hI⟩ := init_returns_integrator sampleEnv allocsOk none 1 (Dbl.fin 1) (Dbl.fin 2)
    0 false (Dbl.fin 1) 2 ⟨rfl, rfl, rfl⟩ (fun _ => ⟨rfl, rfl⟩) ⟨rfl, rfl, rfl, rfl⟩ rfl
    (fun m _ => init_cell_returns sampleEnv 0 _ _ _ _ _ _ m (fun _ _ _ _ _ => rfl))
  have h := table_build sampleEnv allocsOk none 1 (Dbl.fin 1) (Dbl.fin 2) 0 false
    (Dbl.fin 1) 2 I hI (by decide) (by decide)
  obtain ⟨z, hz, hv⟩ := h.2.2.1 [3, 1, 0, 2] (by decide)
  exact ⟨I, z, hI, hz, hv, h.2.2.2.2.1.2.2 0 (by decide)⟩

end Schedule

/-! ## Construction of the cosmology spline -/

section Process

variable {α : Type} [LinearOrderedField α]

/-- The spline state after one call that returns: one more allocation and initialisation
when the cosmology flag is set, unchanged otherwise. -/
theorem init_state_spline (E : Env α) (c : InitCall α) (s : SplineState)
    (out : InitRet α × SplineState)
    (h : log_radial_integrator_init_state E c s = .ok out) :
    out.2 = if c.cosmology then ⟨s.allocs + 1, s.inits + 1⟩ else s := by
  unfold log_radial_integrator_init_state at h
  split at h
  · cases h
  · cases hc : c.cosmology with
    | false =>
      simp only [hc, Bool.false_eq_true, if_false] at h ⊢
      split at h
      · cases h
      · injection h with h
        rw [← h]
    | true =>
      simp only [hc, if_true, dVC_dVL_init_state] at h ⊢
      split at h
      · cases h
      · rename_i s1 hs1
        split at hs1
        · cases hs1
        · split at hs1
          · cases hs1
          · injection hs1 with hs1
            split at h
            · cases h
            · injection h with h
              rw [← h, ← hs1]

/-- A call that returns an integrator in the function model returns it in the process model,
with the spline state advanced when the cosmology flag is set. -/
theorem init_state_of_returns (E : Env α) (c : InitCall α) (s : SplineState)
    (I : log_radial_integrator α)
    (h : log_radial_integrator_init E c.A c.sig c.fuel c.r1 c.r2 c.k c.cosmology c.pmax c.size
      = .ok (InitRet.integrator I)) :
    log_radial_integrator_init_state E c s
      = .ok (InitRet.integrator I,
          if c.cosmology then ⟨s.allocs + 1, s.inits + 1⟩ else s) := by
  obtain ⟨⟨h0, h1, h2, -⟩, hcos, -⟩ := init_success_inv E c.A c.sig c.fuel c.r1 c.r2 c.k
    c.cosmology c.pmax c.size I h
  cases hc : c.cosmology with
  | false =>
    simp only [log_radial_integrator_init_state, h0, h1, h2, hc, Bool.and_self,
      Bool.true_eq_false, Bool.false_eq_true, if_false]
    rw [hc] at h
    rw [h]
  | true =>
    obtain ⟨ha, hi⟩ := hcos hc
    simp only [log_radial_integrator_init_state, h0, h1, h2, hc, Bool.and_self,
      Bool.true_eq_false, if_false, if_true, dVC_dVL_init_state, ha, hi]
    rw [hc] at h
    rw [h]

/-- The number of spline constructions after a sequence of calls that all return. -/
theorem run_calls_count (E : Env α) :
    ∀ (calls : List (InitCall α)) (s s1 : SplineState),
      run_calls E calls s = .ok s1 →
      s1.allocs = s.allocs + (calls.filter (fun c => c.cosmology)).length ∧
      s1.inits = s.inits + (calls.filter (fun c => c.cosmology)).length := by
  intro calls
  induction calls with
  | nil =>
    intro s s1 h
    injection h with h
    rw [← h]
    exact ⟨rfl, rfl⟩
  | cons c rest ih =>
    intro s s1 h
    rw [run_calls] at h
    split at h
    · cases h
    · rename_i out hout
      have hs := init_state_spline E c s out hout
      obtain ⟨h1, h2⟩ := ih out.2 s1 h
      rw [h1, h2, hs]
      cases hc : c.cosmology with
      | false =>
        simp [List.filter_cons, hc]
      | true =>
        simp only [List.filter_cons, hc, if_true, List.length_cons]
        constructor <;> omega

/-- Every sample call returns, and advances the spline state exactly when its cosmology
flag is set. -/
theorem sampleCall_state (flag : Bool) (s : SplineState) :
    ∃ I, log_radial_integrator_init_state sampleEnv (sampleCall flag) s
      = .ok (InitRet.integrator I, if flag then ⟨s.allocs + 1, s.inits + 1⟩ else s) := by
  obtain ⟨I, hI⟩ := init_returns_integrator sampleEnv allocsOk none 1 (Dbl.fin 1) (Dbl.fin 2)
    0 flag (Dbl.fin 1) 2 ⟨rfl, rfl, rfl⟩ (fun _ => ⟨rfl, rfl⟩) ⟨rfl, rfl, rfl, rfl⟩ rfl
    (fun m _ => init_cell_returns sampleEnv 0 _ _ _ _ _ _ m (fun _ _ _ _ _ => rfl))
  exact ⟨I, init_state_of_returns sampleEnv (sampleCall flag) s I hI⟩

/-- Two sample calls in a row return, each advancing the spline state when its flag is set. -/
theorem sample_run (a b : Bool) (s : SplineState) :
    run_calls sampleEnv [sampleCall a, sampleCall b] s
      = .ok (if b then
          ⟨(if a then (⟨s.allocs + 1, s.inits + 1⟩ : SplineState) else s).allocs + 1,
           (if a then (⟨s.allocs + 1, s.inits + 1⟩ : SplineState) else s).inits + 1⟩
        else (if a then ⟨s.allocs + 1, s.inits + 1⟩ else s)) := by
  obtain ⟨I1, h1⟩ := sampleCall_state a s
  obtain ⟨I2, h2⟩ := sampleCall_state b (if a then ⟨s.allocs + 1, s.inits + 1⟩ else s)
  simp only [run_calls, h1, h2]

/-- Claim C26 (amended): across any sequence of `log_radial_integrator_init` calls that all
return, the cosmology spline is allocated and initialised once per call that has the
cosmology flag set, so the numbers of allocations and of initialisations both grow by the
number of such calls; a call without the flag that returns leaves the spline state as it
was. -/
theorem spline_constructions (E : Env α) (calls : List (InitCall α)) (s s1 : SplineState)
    (h : run_calls E calls s = .ok s1) :
    s1.allocs = s.allocs + (calls.filter (fun c => c.cosmology)).length ∧
    s1.inits = s.inits + (calls.filter (fun c => c.cosmology)).length ∧
    (∀ (c : InitCall α) (s0 : SplineState) (out : InitRet α × SplineState),
      c.cosmology = false → log_radial_integrator_init_state E c s0 = .ok out → out.2 = s0) := by
  obtain ⟨h1, h2⟩ := run_calls_count E calls s s1 h
  refine ⟨h1, h2, ?_⟩
  intro c s0 out hc hout
  have hs := init_state_spline E c s0 out hout
  rw [hc] at hs
  exact hs

/-- Witness for `spline_constructions`: a call with the cosmology flag followed by a call
without it, over the rationals, starting with no spline: one allocation and one
initialisation. -/
theorem spline_constructions_witness :
    run_calls sampleEnv [sampleCall true, sampleCall false] ⟨0, 0⟩ = .ok ⟨1, 1⟩ ∧
    ((⟨1, 1⟩ : SplineState).allocs
        = (⟨0, 0⟩ : SplineState).allocs
          + ([sampleCall true, sampleCall false].filter (fun c => c.cosmology)).length ∧
      (⟨1, 1⟩ : SplineState).inits
        = (⟨0, 0⟩ : SplineState).inits
          + ([sampleCall true, sampleCall false].filter (fun c => c.cosmology)).length ∧
      (∀ (c : InitCall ℚ) (s0 : SplineState) (out : InitRet ℚ × SplineState),
        c.cosmology = false →
        log_radial_integrator_init_state sampleEnv c s0 = .ok out → out.2 = s0)) :=
  ⟨sample_run true false ⟨0, 0⟩,
   spline_constructions sampleEnv [sampleCall true, sampleCall false] ⟨0, 0⟩ ⟨1, 1⟩
     (sample_run true false ⟨0, 0⟩)⟩

/-- Counterexample to claim C26 as stated: two calls with the cosmology flag set, over the
rationals, starting with no spline. The first call leaves one allocated and initialised
spline; the second call, entered in that state, allocates and initialises again, so the
process ends with two constructions. -/
theorem spline_once_counterexample :
    (∃ I, log_radial_integrator_init_state sampleEnv (sampleCall true) ⟨0, 0⟩
      = .ok (InitRet.integrator I, ⟨1, 1⟩)) ∧
    (∃ I, log_radial_integrator_init_state sampleEnv (sampleCall true) ⟨1, 1⟩
      = .ok (InitRet.integrator I, ⟨2, 2⟩)) ∧
    run_calls sampleEnv [sampleCall true, sampleCall true] ⟨0, 0⟩ = .ok ⟨2, 2⟩ ∧
    ¬ ((⟨2, 2⟩ : SplineState).allocs ≤ 1) :=
  ⟨sampleCall_state true ⟨0, 0⟩, sampleCall_state true ⟨1, 1⟩,
   sample_run true true ⟨0, 0⟩, by decide⟩

end Process

/-! ## The grid in binary64 arithmetic

The theorems on the grid coordinates above (`boundary_tables`, `region0_domain`) are stated
for exact arithmetic.  The statements of this section evaluate the same source lines with
every operation rounded to binary64, at two concrete configurations. -/

section Binary64Theorems

/-- The rounding `binary64` on known cases: `0.1` and `-1/3` round to the nearest double,
`2^53 + 1` and `2^53 + 3` are ties and go to the even significand, a double is left as it
is, the largest double is `2^1024 - 2^971` and half a unit above it overflows, and below
`2^-1022` the spacing is `2^-1074`. -/
theorem binary64_examples :
    binary64 (1 / 10) = Dbl.fin (3602879701896397 / 36028797018963968) ∧
    binary64 (-(1 / 3)) = Dbl.fin (-(6004799503160661 / 18014398509481984)) ∧
    binary64 9007199254740993 = Dbl.fin 9007199254740992 ∧
    binary64 9007199254740995 = Dbl.fin 9007199254740996 ∧
    binary64 (7248263982714163 / 4503599627370496)
      = Dbl.fin (7248263982714163 / 4503599627370496) ∧
    binary64 (2 ^ 1024 - 2 ^ 970 - 1) = Dbl.fin (2 ^ 1024 - 2 ^ 971) ∧
    binary64 (2 ^ 1024 - 2 ^ 970) = Dbl.pinf ∧
    binary64 (3 / 2 ^ 1075) = Dbl.fin (2 / 2 ^ 1074) ∧
    binary64 (1 / 2 ^ 1075) = Dbl.fin 0 := by
  decide!

/-- The constants of `binary64Env` are doubles, `M_SQRT2` is positive and twice `M_SQRT1_2`
(the two doubles have the same significand), and `M_SQRT2 * M_SQRT2` is not `2`. -/
theorem binary64Env_constants :
    binary64 binary64Env.M_SQRT2 = Dbl.fin binary64Env.M_SQRT2 ∧
    binary64 binary64Env.M_SQRT1_2 = Dbl.fin binary64Env.M_SQRT1_2 ∧
    binary64 binary64Env.M_LN2 = Dbl.fin binary64Env.M_LN2 ∧
    binary64Env.M_SQRT2 = 2 * binary64Env.M_SQRT1_2 ∧ 0 < binary64Env.M_SQRT2 ∧
    binary64Env.M_SQRT2 * binary64Env.M_SQRT2 ≠ 2 := by
  decide!

/-- Counterexample to claim C11 as stated: `r1 = 10`, `r2 = 1000`, `k = 2`, `pmax = 1000`,
`size = 64` in binary64 arithmetic.  The grid constants are the eight doubles listed.  The
`y` coordinate computed for the last column, `ymin + 63 * d`, is a double below `ymax`, and
so is the exact value of `ymin + 63 d` for the doubles `ymin` and `d`.  At the anti-diagonal
node `i = 2` (flat index `2 * 64 + 61`) the computed `0.5 * (x + y)` is a double above
`vmax`, as is the exact value of `0.5 ((xmin + 2 d) + (ymin + 61 d))`, and the computed
`0.5 * (x - y)` is a double below the computed `umin + 2 * d`. -/
theorem boundary_tables_counterexample :
    grid_binary64 binary64Env (Dbl.fin 10) (Dbl.fin 1000) 2 (Dbl.fin 1000) 64
      = ⟨Dbl.fin (243045032034301 / 35184372088832),
         Dbl.fin (3498513339538481 / 562949953421312),
         Dbl.fin (-(1937812310409653 / 562949953421312)),
         Dbl.fin (5750313153223729 / 562949953421312),
         Dbl.fin (-(152439339469481 / 1125899906842624)),
         Dbl.fin (5919017470941937 / 36028797018963968),
         Dbl.fin (-(3844062731816691 / 562949953421312)),
         Dbl.fin (7625001685628151 / 2251799813685248)⟩ ∧
    cell_coordinates_binary64
        (grid_binary64 binary64Env (Dbl.fin 10) (Dbl.fin 1000) 2 (Dbl.fin 1000) 64) 64 63
      = (Dbl.fin (-(1937812310409653 / 562949953421312)),
         Dbl.fin (359394572076483 / 35184372088832)) ∧
    Dbl.lt (Dbl.fin (359394572076483 / 35184372088832 : ℚ))
      (Dbl.fin (5750313153223729 / 562949953421312)) = true ∧
    Dbl.lt
      ((grid_binary64 binary64Env (Dbl.fin 10) (Dbl.fin 1000) 2 (Dbl.fin 1000) 64).ymin
        + Dbl.ofNat 63
          * (grid_binary64 binary64Env (Dbl.fin 10) (Dbl.fin 1000) 2 (Dbl.fin 1000) 64).d)
      (grid_binary64 binary64Env (Dbl.fin 10) (Dbl.fin 1000) 2 (Dbl.fin 1000) 64).ymax
      = true ∧
    cell_coordinates_binary64
        (grid_binary64 binary64Env (Dbl.fin 10) (Dbl.fin 1000) 2 (Dbl.fin 1000) 64) 64
        (2 * 64 + (64 - 1 - 2))
      = (Dbl.fin (-(3505686028885435 / 1125899906842624)),
         Dbl.fin (2782671928628397 / 281474976710656)) ∧
    Dbl.mul64 (Dbl.fin (1 / 2))
        (Dbl.add64 (Dbl.fin (-(3505686028885435 / 1125899906842624)))
          (Dbl.fin (2782671928628397 / 281474976710656)))
      = Dbl.fin (7625001685628153 / 2251799813685248) ∧
    Dbl.gt (Dbl.fin (7625001685628153 / 2251799813685248 : ℚ))
      (Dbl.fin (7625001685628151 / 2251799813685248)) = true ∧
    Dbl.gt
      (Dbl.fin (1 / 2)
        * (((grid_binary64 binary64Env (Dbl.fin 10) (Dbl.fin 1000) 2 (Dbl.fin 1000) 64).xmin
            + Dbl.ofNat 2
              * (grid_binary64 binary64Env (Dbl.fin 10) (Dbl.fin 1000) 2 (Dbl.fin 1000) 64).d)
          + ((grid_binary64 binary64Env (Dbl.fin 10) (Dbl.fin 1000) 2 (Dbl.fin 1000) 64).ymin
            + Dbl.ofNat 61
              * (grid_binary64 binary64Env (Dbl.fin 10) (Dbl.fin 1000) 2 (Dbl.fin 1000) 64).d)))
      (grid_binary64 binary64Env (Dbl.fin 10) (Dbl.fin 1000) 2 (Dbl.fin 1000) 64).vmax
      = true ∧
    Dbl.mul64 (Dbl.fin (1 / 2))
        (Dbl.sub64 (Dbl.fin (-(3505686028885435 / 1125899906842624)))
          (Dbl.fin (2782671928628397 / 281474976710656)))
      = Dbl.fin (-(914773358962439 / 140737488355328)) ∧
    Dbl.add64 (Dbl.fin (-(3844062731816691 / 562949953421312)))
        (Dbl.mul64 (Dbl.ofNat64 2) (Dbl.fin (5919017470941937 / 36028797018963968)))
      = Dbl.fin (-(7318186871699511 / 1125899906842624)) ∧
    Dbl.lt (Dbl.fin (-(914773358962439 / 140737488355328) : ℚ))
      (Dbl.fin (-(7318186871699511 / 1125899906842624))) = true := by
  decide!

/-- Counterexample to claim C27 as stated: `r1 = 1`, `r2 = 10`, `k = 2`, `pmax = 5`,
`size = 400` in binary64 arithmetic, queried at `p = 5`, `b = 10` with `logP = log 5` and
`logB = log 10`.  The grid constants are the eight doubles listed.  The query passes the
assertion and takes the region0 branch at `x = xmax`.  The coordinates computed for the last
cell, `xmin + 399 * d` and `ymin + 399 * d`, are doubles below `xmax` and `ymax`, so the
query lies beyond the last column; the same holds for the exact values of `xmin + 399 d` and
`ymin + 399 d` for the doubles `xmin`, `ymin`, `d`, and for `xmin + 399 d` rounded once (a
fused multiply-add). -/
theorem region0_domain_counterexample :
    grid_binary64 binary64Env (Dbl.fin 1) (Dbl.fin 10) 2 (Dbl.fin 5) 400
      = ⟨Dbl.fin (7248263982714163 / 4503599627370496),
         Dbl.fin (7248263982714163 / 4503599627370496),
         Dbl.fin (-(70785822689201 / 8796093022208)),
         Dbl.fin (6315665623049037 / 1125899906842624),
         Dbl.fin (-(35601450600369 / 8796093022208)),
         Dbl.fin (871992084202207 / 36028797018963968),
         Dbl.fin (-(3844062731816691 / 562949953421312)),
         Dbl.fin (-(5489839362337383 / 4503599627370496))⟩ ∧
    eval_path_binary64 binary64Env
        (grid_binary64 binary64Env (Dbl.fin 1) (Dbl.fin 10) 2 (Dbl.fin 5) 400).xmax
        (grid_binary64 binary64Env (Dbl.fin 1) (Dbl.fin 10) 2 (Dbl.fin 5) 400).ymax
        (grid_binary64 binary64Env (Dbl.fin 1) (Dbl.fin 10) 2 (Dbl.fin 5) 400).vmax
        (Dbl.fin 5) (Dbl.fin 10) (binary64Env.log (Dbl.fin 5)) (binary64Env.log (Dbl.fin 10))
      = EvalPath.region0 (Dbl.fin (7248263982714163 / 4503599627370496))
          (Dbl.fin (3624131991357081 / 2251799813685248)) ∧
    cell_coordinates_binary64
        (grid_binary64 binary64Env (Dbl.fin 1) (Dbl.fin 10) 2 (Dbl.fin 5) 400) 400
        (399 * 400 + 399)
      = (Dbl.fin (453016498919635 / 281474976710656),
         Dbl.fin (1578916405762259 / 281474976710656)) ∧
    Dbl.lt (Dbl.fin (453016498919635 / 281474976710656 : ℚ))
      (Dbl.fin (7248263982714163 / 4503599627370496)) = true ∧
    Dbl.lt (Dbl.fin (1578916405762259 / 281474976710656 : ℚ))
      (Dbl.fin (6315665623049037 / 1125899906842624)) = true ∧
    Dbl.lt
      ((grid_binary64 binary64Env (Dbl.fin 1) (Dbl.fin 10) 2 (Dbl.fin 5) 400).xmin
        + Dbl.ofNat 399
          * (grid_binary64 binary64Env (Dbl.fin 1) (Dbl.fin 10) 2 (Dbl.fin 5) 400).d)
      (Dbl.fin (7248263982714163 / 4503599627370496)) = true ∧
    Dbl.lt
      ((grid_binary64 binary64Env (Dbl.fin 1) (Dbl.fin 10) 2 (Dbl.fin 5) 400).ymin
        + Dbl.ofNat 399
          * (grid_binary64 binary64Env (Dbl.fin 1) (Dbl.fin 10) 2 (Dbl.fin 5) 400).d)
      (grid_binary64 binary64Env (Dbl.fin 1) (Dbl.fin 10) 2 (Dbl.fin 5) 400).ymax = true ∧
    Dbl.lt
      (Dbl.rnd
        ((grid_binary64 binary64Env (Dbl.fin 1) (Dbl.fin 10) 2 (Dbl.fin 5) 400).xmin
          + Dbl.ofNat 399
            * (grid_binary64 binary64Env (Dbl.fin 1) (Dbl.fin 10) 2 (Dbl.fin 5) 400).d))
      (Dbl.fin (7248263982714163 / 4503599627370496)) = true := by
  decide!

end Binary64Theorems

end DistanceIntegrator

/-! ## Theorems about `SFTfileIO.c` -/

namespace SFTfileIO

section ReadTheorems

variable {α : Type} [LinearOrderedField α] [FloorRing α]

/-- Values of `int4` inside the range. -/
theorem int4_of_range (n : Int) (h1 : -2 ^ 31 ≤ n) (h2 : n < 2 ^ 31) : int4 n = .ok n := by
  unfold int4
  rw [if_pos ⟨h1, h2⟩]

/-- Values of `int4` above the range. -/
theorem int4_of_large (n : Int) (h : 2 ^ 31 ≤ n) : int4 n = .error SFTFault.undefined := by
  unfold int4
  rw [if_neg (fun hc => absurd hc.2 (not_lt.mpr h))]

/-- The number of bins `(UINT4) (fmax - fmin) + 1` for a difference in `[-1, 2^31)`. -/
theorem readlen_value (d : Int) (h1 : -1 ≤ d) (h2 : d < 2 ^ 31) :
    u32 (uint4_of_int d + 1) = (d + 1).toNat := by
  rcases (show d = -1 ∨ 0 ≤ d by omega) with h | h
  · subst h
    decide
  · have hm : d % 2 ^ 32 = d := Int.emod_eq_of_lt h (by omega)
    have ht : (d % 2 ^ 32).toNat + 1 = (d + 1).toNat := by
      rw [hm]
      omega
    rw [uint4_of_int, ht, u32]
    exact Nat.mod_eq_of_lt (by omega)

/-- The read request for a band that is not the special value `fMin = fMax = 0`. -/
theorem read_request_band_aux (fMin fMax : α) (header : SFTHeader α)
    (hle : fMin ≤ fMax) (hnz : ¬ (fMin = 0 ∧ fMax = 0)) (hT : 0 < header.timeBase)
    (hlo : -2 ^ 31 ≤ ⌊fMin * header.timeBase⌋) (hhi : ⌈fMax * header.timeBase⌉ < 2 ^ 31)
    (hdiff : ⌈fMax * header.timeBase⌉ - ⌊fMin * header.timeBase⌋ < 2 ^ 31) :
    LALReadSFTfile_request fMin fMax header
      = .ok ⟨⌊fMin * header.timeBase⌋, ⌈fMax * header.timeBase⌉,
          (⌈fMax * header.timeBase⌉ - ⌊fMin * header.timeBase⌋ + 1).toNat⟩ ∧
    1 ≤ (⌈fMax * header.timeBase⌉ - ⌊fMin * header.timeBase⌋ + 1).toNat ∧
    ((⌊fMin * header.timeBase⌋ : ℤ) : α) / header.timeBase ≤ fMin ∧
    fMax ≤ ((⌈fMax * header.timeBase⌉ : ℤ) : α) / header.timeBase := by
  have hmul : fMin * header.timeBase ≤ fMax * header.timeBase :=
    mul_le_mul_of_nonneg_right hle hT.le
  have hfc : ⌊fMin * header.timeBase⌋ ≤ ⌈fMax * header.timeBase⌉ := by
    have h1 : ((⌊fMin * header.timeBase⌋ : ℤ) : α) ≤ ((⌈fMax * header.timeBase⌉ : ℤ) : α) :=
      le_trans (Int.floor_le _) (le_trans hmul (Int.le_ceil _))
    exact_mod_cast h1
  refine ⟨?_, by omega, ?_, ?_⟩
  · simp only [LALReadSFTfile_request, hle, hnz, if_false, not_true_eq_false,
      int4_of_range _ hlo (lt_of_le_of_lt hfc hhi),
      int4_of_range _ (le_trans hlo hfc) hhi,
      int4_of_range _ (show -2 ^ 31 ≤ ⌈fMax * header.timeBase⌉ - ⌊fMin * header.timeBase⌋
        by omega) hdiff,
      readlen_value _ (show -1 ≤ ⌈fMax * header.timeBase⌉ - ⌊fMin * header.timeBase⌋
        by omega) hdiff]
  · rw [div_le_iff₀ hT]
    exact Int.floor_le _
  · rw [le_div_iff₀ hT]
    exact Int.le_ceil _

/-- The read request for the special value `fMin = fMax = 0`. -/
theorem read_request_all_aux (header : SFTHeader α)
    (hf : 0 ≤ header.fminBinIndex) (hl : 0 ≤ header.length)
    (hsum : header.fminBinIndex + header.length < 2 ^ 31) :
    LALReadSFTfile_request (0 : α) 0 header
      = .ok ⟨header.fminBinIndex, header.fminBinIndex + header.length - 1,
          header.length.toNat⟩ := by
  have hd : header.fminBinIndex + header.length - 1 - header.fminBinIndex
      = header.length - 1 := by ring
  have hr := readlen_value (header.length - 1) (by omega) (by omega)
  have hl1 : header.length - 1 + 1 = header.length := by ring
  rw [hl1] at hr
  simp only [LALReadSFTfile_request, le_refl, not_true_eq_false, if_false, and_self, if_true,
    int4_of_range _ (show -2 ^ 31 ≤ header.fminBinIndex + header.length by omega) hsum,
    int4_of_range _ (show -2 ^ 31 ≤ header.fminBinIndex + header.length - 1 by omega)
      (show header.fminBinIndex + header.length - 1 < 2 ^ 31 by omega),
    hd, int4_of_range _ (show -2 ^ 31 ≤ header.length - 1 by omega)
      (show header.length - 1 < 2 ^ 31 by omega), hr]

/-- C13 (amended): for `fMin ≤ fMax` and a header with `timeBase > 0` whose bin indices fit the
32-bit signed type (`-2^31 ≤ floor(fMin·T)`, `ceil(fMax·T) < 2^31`, difference below `2^31`, and
`0 ≤ fminBinIndex`, `0 ≤ length`, `fminBinIndex + length < 2^31` for the header), `LALReadSFTfile`
requests bins `floor(fMin·T)` through `ceil(fMax·T)` with
`readlen = fmaxBinIndex − fminBinIndex + 1 ≥ 1` and the requested band inside the returned band
when the limits are not both zero, and the header's whole band
`fminBinIndex .. fminBinIndex + length − 1` when `fMin = fMax = 0`. -/
theorem read_request_bins (fMin fMax : α) (header : SFTHeader α)
    (hle : fMin ≤ fMax) (hT : 0 < header.timeBase)
    (hlo : -2 ^ 31 ≤ ⌊fMin * header.timeBase⌋) (hhi : ⌈fMax * header.timeBase⌉ < 2 ^ 31)
    (hdiff : ⌈fMax * header.timeBase⌉ - ⌊fMin * header.timeBase⌋ < 2 ^ 31)
    (hf : 0 ≤ header.fminBinIndex) (hl : 0 ≤ header.length)
    (hsum : header.fminBinIndex + header.length < 2 ^ 31) :
    (¬ (fMin = 0 ∧ fMax = 0) →
      LALReadSFTfile_request fMin fMax header
        = .ok ⟨⌊fMin * header.timeBase⌋, ⌈fMax * header.timeBase⌉,
            (⌈fMax * header.timeBase⌉ - ⌊fMin * header.timeBase⌋ + 1).toNat⟩ ∧
      1 ≤ (⌈fMax * header.timeBase⌉ - ⌊fMin * header.timeBase⌋ + 1).toNat ∧
      ((⌊fMin * header.timeBase⌋ : ℤ) : α) / header.timeBase ≤ fMin ∧
      fMax ≤ ((⌈fMax * header.timeBase⌉ : ℤ) : α) / header.timeBase) ∧
    (fMin = 0 ∧ fMax = 0 →
      LALReadSFTfile_request fMin fMax header
        = .ok ⟨header.fminBinIndex, header.fminBinIndex + header.length - 1,
            header.length.toNat⟩) := by
  refine ⟨fun hnz => read_request_band_aux fMin fMax header hle hnz hT hlo hhi hdiff, ?_⟩
  rintro ⟨h1, h2⟩
  subst h1
  subst h2
  exact read_request_all_aux header hf hl hsum

/-- C13 witness: the band 99.5 Hz to 100.25 Hz with `T = 2` gives bins 199 to 201, three bins. -/
theorem read_request_bins_witness :
    LALReadSFTfile_request (199 / 2 : ℚ) (401 / 4) ⟨2, 50, 1000⟩ = .ok ⟨199, 201, 3⟩ ∧
    ((199 : ℤ) : ℚ) / 2 ≤ 199 / 2 ∧ (401 / 4 : ℚ) ≤ ((201 : ℤ) : ℚ) / 2 := by
  have hf1 : ⌊(199 / 2 : ℚ) * 2⌋ = 199 := by decide!
  have hc1 : ⌈(401 / 4 : ℚ) * 2⌉ = 201 := by decide!
  have h := (read_request_bins (199 / 2 : ℚ) (401 / 4) ⟨2, 50, 1000⟩ (by decide!) (by decide!)
    (by decide!) (by decide!) (by decide!) (by decide) (by decide) (by decide)).1 (by decide!)
  simp only [hf1, hc1] at h
  exact ⟨h.1, h.2.2.1, h.2.2.2⟩

/-- C13 counterexample: for `fMin = fMax = 3000000000` and `T = 1` the value `floor(fMin·T)`
does not fit the 32-bit signed bin index, so the conversion `(INT4) floor(...)` has no
defined result and no request for bins `3000000000 .. 3000000000` is made. -/
theorem read_request_bins_counterexample :
    ((3000000000 : ℚ) ≤ 3000000000 ∧ ¬ ((3000000000 : ℚ) = 0 ∧ (3000000000 : ℚ) = 0) ∧
      (0 : ℚ) < (⟨1, 0, 10⟩ : SFTHeader ℚ).timeBase) ∧
    ⌊(3000000000 : ℚ) * 1⌋ = 3000000000 ∧
    LALReadSFTfile_request (3000000000 : ℚ) 3000000000 ⟨1, 0, 10⟩
      = .error SFTFault.undefined ∧
    LALReadSFTfile_request (3000000000 : ℚ) 3000000000 ⟨1, 0, 10⟩
      ≠ .ok ⟨3000000000, 3000000000, 1⟩ := by
  have hfl : ⌊(3000000000 : ℚ) * 1⌋ = 3000000000 := by decide!
  have hne : ¬ ((3000000000 : ℚ) = 0 ∧ (3000000000 : ℚ) = 0) := by decide!
  have hle : (3000000000 : ℚ) ≤ 3000000000 := le_refl _
  have hr : LALReadSFTfile_request (3000000000 : ℚ) 3000000000 ⟨1, 0, 10⟩
      = .error SFTFault.undefined := by
    simp only [LALReadSFTfile_request, hle, hne, not_true_eq_false, if_false, hfl,
      int4_of_large 3000000000 (by decide)]
  refine ⟨⟨hle, hne, by decide!⟩, hfl, hr, ?_⟩
  rw [hr]
  exact fun h => Except.noConfusion h

end ReadTheorems


section CopyTheorems

variable {α LALUnit : Type}

/-- The two cases of `LALCopySFT` for non-null arguments in which no bin outside the source
is read. -/
theorem copy_sft_aux (d s : SFTtype α LALUnit) (ddata sdata : List (α × α))
    (hd : d.data = some ddata) (hs : s.data = some sdata) :
    (ddata.length < sdata.length →
      LALCopySFT (some d) (some s) = .error (SFTFault.abort SFTStatus.SFTFILEIOH_ECOPYSIZE)) ∧
    (ddata.length = sdata.length →
      LALCopySFT (some d) (some s)
        = .ok ⟨s.name, s.epoch, s.f0, s.deltaF, s.sampleUnits, some sdata⟩) := by
  constructor
  · intro h
    simp only [LALCopySFT, hd, hs, h, if_true]
  · intro h
    have h1 : ¬ (ddata.length < sdata.length) := by omega
    have h2 : ¬ (sdata.length < ddata.length) := by omega
    simp only [LALCopySFT, hd, hs, h1, h2, if_false, List.drop_length, List.append_nil]
    rw [h, List.take_length]

/-- C15 (amended): for non-null arguments `LALCopySFT` fails with `SFTFILEIOH_ECOPYSIZE`
whenever the destination has fewer bins than the source, and when the two have the same number
of bins it succeeds and leaves in `dest` the name, epoch, `f0`, `deltaF`, `sampleUnits` and
every bin of `src`. -/
theorem copy_sft_sizes (d s : SFTtype α LALUnit) (ddata sdata : List (α × α))
    (hd : d.data = some ddata) (hs : s.data = some sdata) :
    (ddata.length < sdata.length →
      LALCopySFT (some d) (some s) = .error (SFTFault.abort SFTStatus.SFTFILEIOH_ECOPYSIZE)) ∧
    (ddata.length = sdata.length →
      LALCopySFT (some d) (some s)
        = .ok ⟨s.name, s.epoch, s.f0, s.deltaF, s.sampleUnits, some sdata⟩) :=
  copy_sft_aux d s ddata sdata hd hs

/-- C15 witness: a one-bin source copied into a one-bin destination, and rejected by a
destination without bins. -/
theorem copy_sft_sizes_witness :
    LALCopySFT (some (⟨"", (0, 0), 0, 0, (), some []⟩ : SFTtype ℚ Unit))
        (some ⟨"H1", (700000000, 0), 100, 1 / 1800, (), some [(1, 2)]⟩)
      = .error (SFTFault.abort SFTStatus.SFTFILEIOH_ECOPYSIZE) ∧
    LALCopySFT (some (⟨"", (0, 0), 0, 0, (), some [(0, 0)]⟩ : SFTtype ℚ Unit))
        (some ⟨"H1", (700000000, 0), 100, 1 / 1800, (), some [(1, 2)]⟩)
      = .ok ⟨"H1", (700000000, 0), 100, 1 / 1800, (), some [(1, 2)]⟩ :=
  ⟨(copy_sft_sizes (⟨"", (0, 0), 0, 0, (), some []⟩ : SFTtype ℚ Unit)
      ⟨"H1", (700000000, 0), 100, 1 / 1800, (), some [(1, 2)]⟩ [] [(1, 2)] rfl rfl).1
      (by decide),
   (copy_sft_sizes (⟨"", (0, 0), 0, 0, (), some [(0, 0)]⟩ : SFTtype ℚ Unit)
      ⟨"H1", (700000000, 0), 100, 1 / 1800, (), some [(1, 2)]⟩ [(0, 0)] [(1, 2)] rfl rfl).2
      rfl⟩

/-- C15 counterexample: a destination with two bins and a source with one bin have different
lengths, yet `LALCopySFT` does not fail with `SFTFILEIOH_ECOPYSIZE`: the size check passes and
the copy of two bins runs past the end of the one-bin source. -/
theorem copy_sft_sizes_counterexample :
    ([(0, 0), (0, 0)] : List (ℚ × ℚ)).length ≠ ([(1, 2)] : List (ℚ × ℚ)).length ∧
    LALCopySFT (some (⟨"", (0, 0), 0, 0, (), some [(0, 0), (0, 0)]⟩ : SFTtype ℚ Unit))
        (some ⟨"H1", (700000000, 0), 100, 1 / 1800, (), some [(1, 2)]⟩)
      = .error SFTFault.out_of_bounds_read ∧
    LALCopySFT (some (⟨"", (0, 0), 0, 0, (), some [(0, 0), (0, 0)]⟩ : SFTtype ℚ Unit))
        (some ⟨"H1", (700000000, 0), 100, 1 / 1800, (), some [(1, 2)]⟩)
      ≠ .error (SFTFault.abort SFTStatus.SFTFILEIOH_ECOPYSIZE) := by
  have h : LALCopySFT (some (⟨"", (0, 0), 0, 0, (), some [(0, 0), (0, 0)]⟩ : SFTtype ℚ Unit))
        (some ⟨"H1", (700000000, 0), 100, 1 / 1800, (), some [(1, 2)]⟩)
      = .error SFTFault.out_of_bounds_read := rfl
  refine ⟨by decide, h, ?_⟩
  rw [h]
  intro hc
  cases hc

end CopyTheorems


section GlobTheorems

/-- One pass of `amatch` at a pattern character that stands for itself. -/
theorem amatch_run_plain (n : Nat) (ch : Char) (p : List Char) (h : plain_char ch) :
    amatch_run (n + 1) [] (ch :: p) = .ok false ∧
    ∀ (x : Char) (s : List Char),
      amatch_run (n + 1) (x :: s) (ch :: p)
        = if ch = x then amatch_run n s p else .ok false := by
  obtain ⟨h1, h2, h3, h4⟩ := h
  constructor
  · simp [amatch_run, h1]
  · intro x s
    by_cases hx : ch = x
    · subst hx
      simp [amatch_run, h1, h2, h3, h4]
    · simp [amatch_run, h1, h2, h3, h4, hx]

/-- A pattern of characters that stand for themselves matches exactly itself. -/
theorem amatch_run_literal (c : List Char) (hc : ∀ ch ∈ c, plain_char ch) (n : Nat)
    (s : List Char) (hn : c.length < n) :
    amatch_run n s c = .ok (decide (s = c)) := by
  induction c generalizing n s with
  | nil =>
    obtain ⟨m, rfl⟩ : ∃ m, n = m + 1 := ⟨n - 1, by simp at hn; omega⟩
    cases s <;> simp [amatch_run]
  | cons ch c ih =>
    obtain ⟨m, rfl⟩ : ∃ m, n = m + 1 := ⟨n - 1, by simp at hn; omega⟩
    have hp := amatch_run_plain m ch c (hc ch (List.mem_cons_self _ _))
    cases s with
    | nil =>
      rw [hp.1]
      simp
    | cons x s =>
      rw [hp.2 x s]
      by_cases hx : ch = x
      · rw [if_pos hx, ih (fun d hd => hc d (List.mem_cons_of_mem _ hd)) m s
          (by simp at hn; omega)]
        subst hx
        simp
      · rw [if_neg hx]
        have : ¬ (x :: s = ch :: c) := by
          intro h
          exact hx (List.cons_eq_cons.mp h).1.symm
        simp [this]

/-- The loop over the suffixes of the string returns whether the recursive call accepts
some non-empty suffix. -/
theorem star_loop_spec (sub : List Char → Except GlobFault Bool) (f : List Char → Bool)
    (hsub : ∀ t, sub t = .ok (f t)) (s : List Char) :
    ∃ b : Bool, star_loop sub s = .ok b ∧
      (b = true ↔ ∃ t, t ≠ [] ∧ t <:+ s ∧ f t = true) := by
  induction s with
  | nil =>
    refine ⟨false, rfl, ?_⟩
    constructor
    · intro h
      cases h
    · rintro ⟨t, ht, hs, -⟩
      exact absurd (List.suffix_nil.mp hs) ht
  | cons x s ih =>
    obtain ⟨b, hb, hiff⟩ := ih
    cases hf : f (x :: s) with
    | true =>
      refine ⟨true, ?_, ?_⟩
      · rw [star_loop, hsub, hf]
      · constructor
        · intro _
          exact ⟨x :: s, List.cons_ne_nil _ _, List.suffix_refl _, hf⟩
        · intro _
          rfl
    | false =>
      refine ⟨b, ?_, ?_⟩
      · rw [star_loop, hsub, hf]
        exact hb
      · rw [hiff]
        constructor
        · rintro ⟨t, ht, hs, hft⟩
          exact ⟨t, ht, List.suffix_cons_iff.mpr (Or.inr hs), hft⟩
        · rintro ⟨t, ht, hs, hft⟩
          rcases List.suffix_cons_iff.mp hs with h | h
          · rw [h, hf] at hft
            cases hft
          · exact ⟨t, ht, h, hft⟩

/-- Skipping the characters before the first occurrence of `q` loses no suffix that starts
with `q`. -/
theorem suffix_dropWhile_ne (q : Char) (c s : List Char) :
    (q :: c) <:+ s.dropWhile (fun x => x != q) ↔ (q :: c) <:+ s := by
  induction s with
  | nil => simp
  | cons x s ih =>
    by_cases hx : x = q
    · subst hx
      simp [List.dropWhile]
    · have hb : (x != q) = true := by simp [hx]
      rw [List.dropWhile_cons, if_pos hb, ih, List.suffix_cons_iff]
      constructor
      · intro h
        exact Or.inr h
      · rintro (h | h)
        · exact absurd (List.cons_eq_cons.mp h).1.symm hx
        · exact h

/-- A star followed by characters that stand for themselves accepts exactly the strings that
end with them. -/
theorem amatch_run_star (c : List Char) (hc : ∀ ch ∈ c, plain_char ch) (n : Nat)
    (s : List Char) (hn : c.length < n) :
    ∃ b : Bool, amatch_run (n + 1) s ('*' :: c) = .ok b ∧ (b = true ↔ c <:+ s) := by
  cases c with
  | nil =>
    refine ⟨true, ?_, ?_⟩
    · simp [amatch_run]
    · simp
  | cons q c =>
    obtain ⟨h1, h2, h3, h4⟩ := hc q (List.mem_cons_self _ _)
    have hq : (q == '*') = false := by simp [h1]
    obtain ⟨b, hb, hiff⟩ := star_loop_spec (fun t => amatch_run n t (q :: c))
      (fun t => decide (t = q :: c)) (fun t => amatch_run_literal (q :: c) hc n t hn)
      (s.dropWhile (fun x => x != q))
    refine ⟨b, ?_, ?_⟩
    · simp only [amatch_run, ne_eq, not_true_eq_false, and_false, if_false, if_true,
        List.dropWhile_cons, hq, Bool.false_eq_true, h2, h3, h4, not_false_eq_true, and_self]
      exact hb
    · rw [hiff, ← suffix_dropWhile_ne q c s]
      constructor
      · rintro ⟨t, -, hs, ht⟩
        rw [decide_eq_true_eq] at ht
        rw [← ht]
        exact hs
      · intro h
        exact ⟨q :: c, List.cons_ne_nil _ _, h, by simp⟩

/-- The pattern `a*c` with `a` and `c` standing for themselves: the run returns, and accepts
exactly the strings `a ++ t` with `t` ending in `c`. -/
theorem amatch_run_prefix_star (a c : List Char) (ha : ∀ ch ∈ a, plain_char ch)
    (hc : ∀ ch ∈ c, plain_char ch) (n : Nat) (s : List Char)
    (hn : a.length + c.length < n) :
    ∃ b : Bool, amatch_run (n + 1) s (a ++ '*' :: c) = .ok b ∧
      (b = true ↔ ∃ t, s = a ++ t ∧ c <:+ t) := by
  induction a generalizing n s with
  | nil =>
    obtain ⟨b, hb, hiff⟩ := amatch_run_star c hc n s (by simpa using hn)
    refine ⟨b, by simpa using hb, ?_⟩
    rw [hiff]
    constructor
    · intro h
      exact ⟨s, rfl, h⟩
    · rintro ⟨t, ht, h⟩
      rw [List.nil_append] at ht
      rw [ht]
      exact h
  | cons ch a ih =>
    obtain ⟨m, rfl⟩ : ∃ m, n = m + 1 := ⟨n - 1, by simp at hn; omega⟩
    have hp := amatch_run_plain (m + 1) ch (a ++ '*' :: c) (ha ch (List.mem_cons_self _ _))
    cases s with
    | nil =>
      refine ⟨false, hp.1, ?_⟩
      constructor
      · intro h
        cases h
      · rintro ⟨t, ht, -⟩
        cases ht
    | cons x s =>
      by_cases hx : ch = x
      · obtain ⟨b, hb, hiff⟩ := ih (fun d hd => ha d (List.mem_cons_of_mem _ hd)) m s
          (by simp at hn; omega)
        refine ⟨b, ?_, ?_⟩
        · rw [List.cons_append, hp.2 x s, if_pos hx]
          exact hb
        · rw [hiff]
          subst hx
          constructor
          · rintro ⟨t, ht, h⟩
            exact ⟨t, by rw [ht, List.cons_append], h⟩
          · rintro ⟨t, ht, h⟩
            rw [List.cons_append] at ht
            exact ⟨t, (List.cons_eq_cons.mp ht).2, h⟩
      · refine ⟨false, ?_, ?_⟩
        · rw [List.cons_append, hp.2 x s, if_neg hx]
        · constructor
          · intro h
            cases h
          · rintro ⟨t, ht, -⟩
            rw [List.cons_append] at ht
            exact absurd (List.cons_eq_cons.mp ht).1.symm hx

/-- A string is `a ++ t` with `t` ending in `c` exactly when it starts with `a`, ends with
`c` and is at least as long as the two together. -/
theorem prefix_suffix_split (a c s : List Char) :
    (∃ t, s = a ++ t ∧ c <:+ t) ↔ (a <+: s ∧ c <:+ s ∧ a.length + c.length ≤ s.length) := by
  constructor
  · rintro ⟨t, rfl, h⟩
    refine ⟨List.prefix_append _ _, h.trans (List.suffix_append _ _), ?_⟩
    have := h.length_le
    rw [List.length_append]
    omega
  · rintro ⟨⟨t, rfl⟩, h2, h3⟩
    refine ⟨t, rfl, ?_⟩
    apply List.suffix_of_suffix_length_le h2 (List.suffix_append _ _)
    rw [List.length_append] at h3
    omega

/-- C14: for strings `a` and `c` without the pattern characters `*`, `?`, `[` and backslash
and every string `s`, `amatch (s, a ++ "*" ++ c)` returns, and it returns true if and only if
`s` starts with `a`, ends with `c` and has length at least `|a| + |c|`. -/
theorem amatch_star_pattern (a c s : List Char) (ha : ∀ ch ∈ a, plain_char ch)
    (hc : ∀ ch ∈ c, plain_char ch) :
    ∃ b : Bool, amatch s (a ++ '*' :: c) = .ok b ∧
      (b = true ↔ (a <+: s ∧ c <:+ s ∧ a.length + c.length ≤ s.length)) := by
  obtain ⟨b, hb, hiff⟩ := amatch_run_prefix_star a c ha hc (a.length + c.length + 1) s
    (Nat.lt_succ_self _)
  refine ⟨b, ?_, ?_⟩
  · rw [amatch, List.length_append, List.length_cons]
    exact hb
  · rw [hiff, prefix_suffix_split]

/-- C14 witness: the pattern `a*c` accepts `abbc`, which starts with `a`, ends with `c` and
has four characters. -/
theorem amatch_star_pattern_witness :
    (∀ ch ∈ ['a'], plain_char ch) ∧ (∀ ch ∈ ['c'], plain_char ch) ∧
    amatch ['a', 'b', 'b', 'c'] (['a'] ++ '*' :: ['c']) = .ok true := by
  have ha : ∀ ch ∈ ['a'], plain_char ch := by
    intro ch h
    rw [List.mem_singleton] at h
    subst h
    unfold plain_char BACKSLASH
    decide
  have hc : ∀ ch ∈ ['c'], plain_char ch := by
    intro ch h
    rw [List.mem_singleton] at h
    subst h
    unfold plain_char BACKSLASH
    decide
  obtain ⟨b, hb, hiff⟩ := amatch_star_pattern ['a'] ['c'] ['a', 'b', 'b', 'c'] ha hc
  have hbt : b = true :=
    hiff.mpr ⟨⟨['b', 'b', 'c'], rfl⟩, ⟨['a', 'b', 'b'], rfl⟩, by decide⟩
  rw [hbt] at hb
  exact ⟨ha, hc, hb⟩

end GlobTheorems

end SFTfileIO

/-! ## Theorems about `ppe_utils.c` -/

namespace PpeUtils

section MedianTheorems

/-- The window of `subtract_running_median` for data of more than 30 points: `15 + i` points
from the start of the data for `i < 15`, 30 points starting at `i - 15` for
`15 <= i <= length - 15`, and `15 + (length - i)` points starting at `i - 15` after that
(`i` is the loop index, running from `1` to `length`). -/
theorem median_window_sizes (length i : Nat) (hl : 30 < length) (hl2 : length < 2 ^ 31)
    (hi : i ≤ length) :
    (i < 15 → median_window length i = (15 + i, 0)) ∧
    (15 ≤ i → i ≤ length - 15 → median_window length i = (30, ((i - 15 : Nat) : Int))) ∧
    (length - 15 < i →
      median_window length i = (15 + (length - i), ((i - 15 : Nat) : Int))) := by
  have h30 : (30 : Nat) / 2 = 15 := by decide
  have e32 : (2 : Nat) ^ 32 = 4294967296 := by decide
  have e31 : (2 : Nat) ^ 31 = 2147483648 := by decide
  rw [e31] at hl2
  have hs5 : int4_of_uint4 (i - 15) = ((i - 15 : Nat) : Int) := by
    have : i - 15 < 2 ^ 31 := by
      rw [e31]
      omega
    simp only [int4_of_uint4, this, if_true]
  have hs1 : uint4_sub length 15 = length - 15 := by
    simp only [uint4_sub, uint4, e32]
    omega
  have hs2 : 15 ≤ i → uint4_sub i 15 = i - 15 := by
    intro h
    simp only [uint4_sub, uint4, e32]
    omega
  refine ⟨?_, ?_, ?_⟩
  · intro h
    have hs4 : uint4 (15 + i) = 15 + i := by
      simp only [uint4, e32]
      omega
    simp only [median_window, hl, if_true, h30, h, hs4]
  · intro h1 h2
    have hn : ¬ (i < 15) := by omega
    have hn2 : ¬ (i > length - 15) := by omega
    simp only [median_window, hl, if_true, h30, hn, if_false, hs1, hn2, hs2 h1, hs5]
  · intro h
    have hn : ¬ (i < 15) := by omega
    have hn2 : i > length - 15 := h
    have hs3 : uint4 (uint4_sub length i + 15) = 15 + (length - i) := by
      simp only [uint4_sub, uint4, e32]
      omega
    simp only [median_window, hl, if_true, h30, hn, if_false, hs1, hn2, hs2 (by omega), hs3, hs5]

/-- C18 at the input of 31 points `(0, 0), (1, 0), ..., (30, 0)` and the first point
(`i = 1`): the documented window has `30 - 15 + (1 - 1) = 15` points, the code takes the
median over the 16 points with indices `0 .. 15`. -/
theorem running_median_first_point (median : List ℚ → ℚ) :
    30 - 15 + (1 - 1) = 15 ∧
    median_window 31 1 = (16, 0) ∧
    subtract_median_at median ((List.range 31).map (fun k => ((k : ℚ), (0 : ℚ)))) 1
      = .ok (0 - median ((List.range 16).map (fun k => (k : ℚ))),
             0 - median (List.replicate 16 0)) := by
  refine ⟨by decide, by decide, ?_⟩
  rfl

end MedianTheorems

section RechopTheorems

/-- A chain that ends at `b` can be continued by a chain that starts from `b`. -/
theorem chain_append_of_getLast {R : Nat → Nat → Prop} (a b : Nat) (l1 l2 : List Nat)
    (h1 : List.Chain R a l1) (hb : l1.getLast? = some b) (h2 : List.Chain R b l2) :
    List.Chain R a (l1 ++ l2) := by
  induction l1 generalizing a with
  | nil => cases hb
  | cons x l1 ih =>
    rw [List.chain_cons] at h1
    rw [List.cons_append, List.chain_cons]
    refine ⟨h1.1, ?_⟩
    cases l1 with
    | nil =>
      simp only [List.getLast?_singleton, Option.some.injEq] at hb
      subst hb
      exact h2
    | cons y l1 =>
      rw [List.getLast?_cons_cons] at hb
      exact ih x h1.2 hb

/-- A store into `newindex` at position `count` extends the stored prefix by one entry. -/
theorem newindex_write_take (cap : Nat) (buf buf1 : List Nat) (count v : Nat)
    (hlen : buf.length = cap) (h : newindex_write cap buf count v = .ok buf1) :
    count < cap ∧ buf1.length = cap ∧ buf1.take (count + 1) = buf.take count ++ [v] := by
  unfold newindex_write at h
  split at h
  · rename_i hc
    have hb : buf1 = buf.set count v := by
      injection h with h
      exact h.symm
    subst hb
    refine ⟨hc, by rw [List.length_set, hlen], ?_⟩
    have hlt : count < buf.length := by omega
    rw [List.set_take, List.take_succ, List.getElem?_eq_getElem hlt, Option.toList,
      List.set_append]
    have hl : (List.take count buf).length = count := by
      rw [List.length_take]
      omega
    rw [hl, if_neg (lt_irrefl _), Nat.sub_self]
    rfl
  · cases h

/-- The inner loop of `rechop_data`, when it returns, has appended `chop_indices` to the
stored prefix. -/
theorem chop_loop_take (cap chunkMax startindex : Nat) (hcap : cap < 2 ^ 32) (m j : Nat)
    (buf : List Nat) (count : Nat) (buf1 : List Nat) (count1 : Nat)
    (hlen : buf.length = cap)
    (hv : startindex + (j + m) * chunkMax < 2 ^ 32)
    (h : chop_loop cap chunkMax startindex m j (buf, count) = .ok (buf1, count1)) :
    buf1.length = cap ∧ count1 = count + m ∧
    buf1.take count1 = buf.take count ++ chop_indices startindex chunkMax m j := by
  have e32 : (2 : Nat) ^ 32 = 4294967296 := by decide
  rw [e32] at hcap hv
  induction m generalizing j buf count with
  | zero =>
    simp only [chop_loop, Except.ok.injEq, Prod.mk.injEq] at h
    obtain ⟨h1, h2⟩ := h
    subst h1
    subst h2
    exact ⟨hlen, rfl, by simp [chop_indices]⟩
  | succ m ih =>
    rw [chop_loop] at h
    split at h
    · cases h
    · rename_i buf2 hw
      have hle : (j + 1) * chunkMax ≤ (j + (m + 1)) * chunkMax :=
        Nat.mul_le_mul_right _ (by omega)
      have hval : uint4 (startindex + (j + 1) * chunkMax) = startindex + (j + 1) * chunkMax := by
        simp only [uint4, e32]
        omega
      rw [hval] at hw
      obtain ⟨hc, hl2, ht⟩ := newindex_write_take cap buf buf2 count _ hlen hw
      have hcnt : uint4 (count + 1) = count + 1 := by
        simp only [uint4, e32]
        omega
      rw [hcnt] at h
      obtain ⟨r1, r2, r3⟩ := ih (j + 1) buf2 (count + 1) hl2
        (by rw [show j + 1 + m = j + (m + 1) by omega]; exact hv) h
      refine ⟨r1, by omega, ?_⟩
      rw [r3, ht, chop_indices, List.append_assoc, List.singleton_append]

/-- The indices stored by the inner loop form a chain of steps of `chunkMax`, and any chain
from their last value continues it. -/
theorem chop_indices_chain (startindex chunkMax : Nat) (hmax : 0 < chunkMax) (m j : Nat)
    (t : List Nat)
    (ht : List.Chain (chunk_step chunkMax) (startindex + (j + m) * chunkMax) t) :
    List.Chain (chunk_step chunkMax) (startindex + j * chunkMax)
      (chop_indices startindex chunkMax m j ++ t) := by
  induction m generalizing j with
  | zero => simpa [chop_indices] using ht
  | succ m ih =>
    rw [chop_indices, List.cons_append, List.chain_cons]
    refine ⟨?_, ih (j + 1) (by rw [show j + 1 + m = j + (m + 1) by omega]; exact ht)⟩
    unfold chunk_step
    rw [Nat.add_mul, Nat.one_mul]
    omega

/-- The last index stored by a non-empty run of the inner loop. -/
theorem chop_indices_snoc (startindex chunkMax m j : Nat) :
    chop_indices startindex chunkMax (m + 1) j
      = chop_indices startindex chunkMax m j ++ [startindex + (j + m + 1) * chunkMax] := by
  induction m generalizing j with
  | zero => simp [chop_indices]
  | succ m ih =>
    rw [chop_indices, ih (j + 1), chop_indices, List.cons_append,
      show j + 1 + m + 1 = j + (m + 1) + 1 by omega]

/-- The number of indices stored by the inner loop. -/
theorem chop_indices_length (startindex chunkMax m j : Nat) :
    (chop_indices startindex chunkMax m j).length = m := by
  induction m generalizing j with
  | zero => rfl
  | succ m ih => rw [chop_indices, List.length_cons, ih]

/-- One chunk of `rechop_data`: when the body of the outer loop returns, it has appended to the
stored prefix a list that ends with the chunk's end index and advances from the chunk's start
in steps of at most `chunkMax`. -/
theorem rechop_chunk_take (cap chunkMax chunkMin startindex stop : Nat) (hcap : cap < 2 ^ 32)
    (hmin : 0 < chunkMin) (hmax : chunkMin < chunkMax) (hss : startindex ≤ stop)
    (hstop : stop < 2 ^ 32) (buf : List Nat) (count : Nat) (buf1 : List Nat) (count1 : Nat)
    (hlen : buf.length = cap)
    (h : rechop_chunk cap chunkMax chunkMin startindex stop (buf, count) = .ok (buf1, count1)) :
    ∃ P : List Nat, buf1.length = cap ∧ buf1.take count1 = buf.take count ++ P ∧
      P.getLast? = some stop ∧
      (startindex < stop → List.Chain (chunk_step chunkMax) startindex P) ∧
      (startindex = stop → P = [stop]) := by
  have e32 : (2 : Nat) ^ 32 = 4294967296 := by decide
  have hL : uint4_sub stop startindex = stop - startindex := by
    simp only [uint4_sub, uint4, e32]
    rw [e32] at hstop
    omega
  have hcap2 : cap < 4294967296 := by
    rw [e32] at hcap
    exact hcap
  have hstop2 : stop < 4294967296 := by
    rw [e32] at hstop
    exact hstop
  simp only [rechop_chunk, hL] at h
  by_cases hgt : stop - startindex > chunkMax
  · have hne : chunkMax ≠ 0 := by omega
    have hdm := Nat.div_add_mod' (stop - startindex) chunkMax
    have hr := Nat.mod_lt (stop - startindex) (show 0 < chunkMax by omega)
    have hq1 : 0 < (stop - startindex) / chunkMax := Nat.div_pos (by omega) (by omega)
    simp only [hgt, if_true, hne, if_false] at h
    generalize (stop - startindex) / chunkMax = q at h hdm hq1
    generalize (stop - startindex) % chunkMax = remain at h hdm hr
    split at h
    · cases h
    · rename_i buf2 count2 hloop
      obtain ⟨l2, c2, t2⟩ := chop_loop_take cap chunkMax startindex hcap q 0 buf count buf2
        count2 hlen (by rw [e32, Nat.zero_add]; omega) hloop
      have hz : startindex + 0 * chunkMax = startindex := by rw [Nat.zero_mul, Nat.add_zero]
      by_cases hrem : remain = 0
      · have hrem2 : ¬ (remain ≠ 0) := fun hc => hc hrem
        simp only [hrem2, if_false, Except.ok.injEq, Prod.mk.injEq] at h
        obtain ⟨h1, h2⟩ := h
        subst h1
        subst h2
        obtain ⟨q1, rfl⟩ : ∃ q1, q = q1 + 1 := ⟨q - 1, by omega⟩
        refine ⟨chop_indices startindex chunkMax (q1 + 1) 0, l2, t2, ?_, fun _ => ?_, ?_⟩
        · rw [chop_indices_snoc, List.getLast?_concat, Nat.zero_add]
          congr 1
          omega
        · have hc := chop_indices_chain startindex chunkMax (by omega) (q1 + 1) 0 []
            List.Chain.nil
          rw [List.append_nil, hz] at hc
          exact hc
        · intro he
          omega
      · have hlast : uint4 (startindex + q * chunkMax + remain) = stop := by
          simp only [uint4]
          omega
        simp only [hrem, ne_eq, not_false_eq_true, if_true, hlast] at h
        split at h
        · cases h
        · rename_i buf3 hw3
          obtain ⟨hc3, l3, t3⟩ := newindex_write_take cap buf2 buf3 count2 stop l2 hw3
          have hcnt : uint4 (count2 + 1) = count2 + 1 := by
            simp only [uint4]
            omega
          by_cases hsmall : remain < chunkMin
          · simp only [hsmall, if_true, hcnt] at h
            obtain ⟨q1, rfl⟩ : ∃ q1, q = q1 + 1 := ⟨q - 1, by omega⟩
            have hi : uint4_sub count2 1 = count + q1 := by
              simp only [uint4_sub, uint4]
              omega
            have hv : uint4_sub stop chunkMin = stop - chunkMin := by
              simp only [uint4_sub, uint4]
              omega
            rw [hi, hv] at h
            have hin : count + q1 < cap := by omega
            simp only [newindex_write, hin, if_true, Except.ok.injEq, Prod.mk.injEq] at h
            obtain ⟨h1, h2⟩ := h
            subst h1
            subst h2
            have hAl : (List.take count buf).length = count := by
              rw [List.length_take]
              omega
            refine ⟨chop_indices startindex chunkMax q1 0 ++ [stop - chunkMin, stop],
              by rw [List.length_set, l3], ?_, by simp, fun _ => ?_, ?_⟩
            · rw [List.set_take, t3, t2, chop_indices_snoc]
              simp only [List.set_append, List.length_append, hAl, chop_indices_length,
                List.length_singleton]
              have a1 : ¬ (count + q1 < count + (q1 + 1) - 1 + 1 - 1) := by omega
              have a2 : count + q1 < count + (q1 + 1) := by omega
              have a3 : ¬ (count + q1 < count) := by omega
              have a4 : ¬ (count + q1 - count < q1) := by omega
              have a5 : count + q1 - count - q1 = 0 := by omega
              simp only [a2, a3, a4, a5, if_true, if_false, List.set_cons_zero,
                List.append_assoc, List.singleton_append]
            · have hc := chop_indices_chain startindex chunkMax (by omega) q1 0
                [stop - chunkMin, stop] (by
                  rw [Nat.zero_add]
                  refine List.Chain.cons ?_ (List.Chain.cons ?_ List.Chain.nil)
                  · unfold chunk_step
                    rw [Nat.add_mul, Nat.one_mul] at hdm
                    omega
                  · unfold chunk_step
                    omega)
              rw [hz] at hc
              exact hc
            · intro he
              omega
          · simp only [hsmall, if_false, hcnt, Except.ok.injEq, Prod.mk.injEq] at h
            obtain ⟨h1, h2⟩ := h
            subst h1
            subst h2
            refine ⟨chop_indices startindex chunkMax q 0 ++ [stop], l3, ?_, by simp,
              fun _ => ?_, ?_⟩
            · rw [t3, t2, List.append_assoc]
            · have hc := chop_indices_chain startindex chunkMax (by omega) q 0 [stop] (by
                rw [Nat.zero_add]
                refine List.Chain.cons ?_ List.Chain.nil
                unfold chunk_step
                omega)
              rw [hz] at hc
              exact hc
            · intro he
              omega
  · simp only [hgt, if_false] at h
    split at h
    · cases h
    · rename_i buf2 hw
      obtain ⟨hc, l2, t2⟩ := newindex_write_take cap buf buf2 count stop hlen hw
      have hcnt : uint4 (count + 1) = count + 1 := by
        simp only [uint4, e32]
        omega
      simp only [hcnt, Except.ok.injEq, Prod.mk.injEq] at h
      obtain ⟨h1, h2⟩ := h
      subst h1
      subst h2
      refine ⟨[stop], l2, t2, rfl, fun hlt => ?_, fun _ => rfl⟩
      refine List.Chain.cons ?_ List.Chain.nil
      unfold chunk_step
      omega

/-- The last element of a non-empty list, in terms of the last element of its tail. -/
theorem getLast?_cons_getD (x : Nat) (l : List Nat) :
    (x :: l).getLast? = some (l.getLast?.getD x) := by
  cases l with
  | nil => rfl
  | cons y l =>
    rw [List.getLast?_cons_cons]
    cases h : (y :: l).getLast? with
    | none => simp at h
    | some z => rfl

/-- The last element of an append whose first part ends with `x`. -/
theorem getLast?_append_getD (x : Nat) (P Q : List Nat) (hP : P.getLast? = some x) :
    (P ++ Q).getLast? = some (Q.getLast?.getD x) := by
  rw [List.getLast?_append, hP]
  cases Q.getLast? <;> rfl

/-- The outer loop of `rechop_data`: when it returns, it has appended to the stored prefix a
chain of steps of at most `chunkMax` that ends with the last chunk end index. -/
theorem rechop_loop_take (cap chunkMax chunkMin : Nat) (hcap : cap < 2 ^ 32)
    (hmin : 0 < chunkMin) (hmax : chunkMin < chunkMax) (l : List Nat) (prev : Nat)
    (buf : List Nat) (count : Nat) (buf1 : List Nat) (count1 : Nat)
    (hchain : List.Chain (fun a b => a < b) prev l) (hb : ∀ x ∈ l, x < 2 ^ 32)
    (hlen : buf.length = cap)
    (h : rechop_loop cap chunkMax chunkMin l prev (buf, count) = .ok (buf1, count1)) :
    ∃ Q : List Nat, buf1.length = cap ∧ buf1.take count1 = buf.take count ++ Q ∧
      List.Chain (chunk_step chunkMax) prev Q ∧
      Q.getLast?.getD prev = l.getLast?.getD prev := by
  induction l generalizing prev buf count with
  | nil =>
    simp only [rechop_loop, Except.ok.injEq, Prod.mk.injEq] at h
    obtain ⟨h1, h2⟩ := h
    subst h1
    subst h2
    exact ⟨[], hlen, by simp, List.Chain.nil, rfl⟩
  | cons stop rest ih =>
    rw [List.chain_cons] at hchain
    rw [rechop_loop] at h
    split at h
    · cases h
    · rename_i st1 hch
      obtain ⟨buf2, count2⟩ := st1
      obtain ⟨P, l2, t2, hPl, hPc, -⟩ := rechop_chunk_take cap chunkMax chunkMin prev stop
        hcap hmin hmax hchain.1.le (hb stop (List.mem_cons_self _ _)) buf count buf2 count2
        hlen hch
      obtain ⟨Q, l3, t3, hQc, hQl⟩ := ih stop buf2 count2 hchain.2
        (fun x hx => hb x (List.mem_cons_of_mem _ hx)) l2 h
      refine ⟨P ++ Q, l3, by rw [t3, t2, List.append_assoc], ?_, ?_⟩
      · exact chain_append_of_getLast prev stop P Q (hPc hchain.1) hPl hQc
      · rw [getLast?_append_getD stop P Q hPl, getLast?_cons_getD, Option.getD_some,
          Option.getD_some, hQl]

/-- The output of `rechop_data`, whenever the function returns one: for strictly increasing
chunk end indices (each a `UINT4` value) and `chunkMax > chunkMin >= 1`, the output indices
increase strictly, every chunk (the first measured from `0`) is at most `chunkMax` long, and
the last output index is the last input index. -/
theorem rechop_data_chunks (chunkIndex : List Nat) (chunkMax chunkMin : Nat) (out : List Nat)
    (hinc : List.Pairwise (fun a b => a < b) chunkIndex)
    (hb : ∀ x ∈ chunkIndex, x < 2 ^ 32) (hmin : 1 ≤ chunkMin) (hmax : chunkMin < chunkMax)
    (h : rechop_data chunkIndex chunkMax chunkMin = .ok out) :
    List.Pairwise (fun a b => a < b) out ∧
    List.Chain (fun a b => b - a ≤ chunkMax) 0 out ∧
    out.getLast? = chunkIndex.getLast? := by
  have hstep : ∀ a b : Nat, chunk_step chunkMax a b → a < b := fun a b hab => hab.1
  have hlen : ∀ a b : Nat, chunk_step chunkMax a b → b - a ≤ chunkMax := by
    intro a b hab
    unfold chunk_step at hab
    omega
  cases chunkIndex with
  | nil => simp [rechop_data] at h
  | cons x rest =>
    have hne : chunkMin ≠ 0 := by omega
    rw [rechop_data, getLast?_cons_getD] at h
    simp only [hne, if_false] at h
    split at h
    · cases h
    · rename_i hcapne
      have hcap : uint4 ((rest.getLast?.getD x + chunkMin - 1) / chunkMin) < 2 ^ 32 :=
        Nat.mod_lt _ (by decide)
      generalize uint4 ((rest.getLast?.getD x + chunkMin - 1) / chunkMin) = cap at h hcap
      cases hrl : rechop_loop cap chunkMax chunkMin (x :: rest) 0 (List.replicate cap 0, 0) with
      | error e =>
        rw [hrl] at h
        cases h
      | ok st3 =>
        obtain ⟨buf3, count3⟩ := st3
        rw [hrl] at h
        rw [rechop_loop] at hrl
        cases hch : rechop_chunk cap chunkMax chunkMin 0 x (List.replicate cap 0, 0) with
        | error e =>
          rw [hch] at hrl
          cases hrl
        | ok st1 =>
          obtain ⟨buf2, count2⟩ := st1
          rw [hch] at hrl
          obtain ⟨P, l2, t2, hPl, hPc, hP0⟩ := rechop_chunk_take cap chunkMax chunkMin 0 x
            hcap (by omega) hmax (Nat.zero_le _) (hb x (List.mem_cons_self _ _))
            (List.replicate cap 0) 0 buf2 count2 (List.length_replicate _ _) hch
          obtain ⟨Q, l3, t3, hQc, hQl⟩ := rechop_loop_take cap chunkMax chunkMin hcap
            (by omega) hmax rest x buf2 count2 buf3 count3
            (List.chain_iff_pairwise.mpr hinc)
            (fun y hy => hb y (List.mem_cons_of_mem _ hy)) l2 hrl
          have hout : out = P ++ Q := by
            have h2 : Except.ok (List.take count3 buf3) = (Except.ok out : Except PpeFault _) := h
            rw [Except.ok.injEq] at h2
            rw [← h2, t3, t2, List.take_zero, List.nil_append]
          subst hout
          refine ⟨?_, ?_, ?_⟩
          · rcases Nat.eq_zero_or_pos x with hx | hx
            · rw [hP0 hx.symm, List.singleton_append]
              exact List.chain_iff_pairwise.mp (hQc.imp hstep)
            · have hc := chain_append_of_getLast 0 x P Q (hPc hx) hPl hQc
              exact (List.pairwise_cons.mp (List.chain_iff_pairwise.mp (hc.imp hstep))).2
          · rcases Nat.eq_zero_or_pos x with hx | hx
            · rw [hP0 hx.symm, List.singleton_append]
              refine List.Chain.cons (by omega) (hQc.imp hlen)
            · exact (chain_append_of_getLast 0 x P Q (hPc hx) hPl hQc).imp hlen
          · rw [getLast?_append_getD x P Q hPl, hQl, getLast?_cons_getD]

/-- An input on which `rechop_data` returns: the chunk of 25 samples is cut into chunks of
11, 4 and 10 samples. -/
theorem rechop_data_chunks_example :
    rechop_data [25] 11 10 = .ok [11, 15, 25] ∧
    List.Pairwise (fun a b => a < b) [11, 15, 25] ∧
    List.Chain (fun a b => b - a ≤ 11) 0 [11, 15, 25] ∧
    [11, 15, 25].getLast? = [25].getLast? :=
  ⟨rfl, rechop_data_chunks [25] 11 10 [11, 15, 25] (by decide) (by decide) (by decide)
    (by decide) rfl⟩

/-- C17 at the input `chunkIndex = [12, 24]`, `chunkMax = 11`, `chunkMin = 10`: the indices
increase strictly and `chunkMax > chunkMin >= 1`, the array `newindex` has
`ceil (24 / 10) = 3` entries, and the fourth index stored by `rechop_data` falls outside
it. -/
theorem rechop_overrun :
    List.Pairwise (fun a b : Nat => a < b) [12, 24] ∧ 11 > 10 ∧ 10 ≥ 1 ∧
    uint4 ((24 + 10 - 1) / 10) = 3 ∧
    rechop_loop 3 11 10 [12] 0 (List.replicate 3 0, 0) = .ok ([2, 12, 0], 2) ∧
    rechop_data [12, 24] 11 10 = .error PpeFault.out_of_bounds_write := by
  refine ⟨by decide, by decide, by decide, by decide, rfl, rfl⟩

end RechopTheorems

end PpeUtils

/-! ## Theorems about `Window.c` -/

namespace Window

section WindowTheorems

variable {α : Type} [LinearOrderedField α]

/-- The samples left by the loop of the rectangular window. -/
theorem ones_loop_apply (m i : Nat) (d : Nat → Option α) (j : Nat) :
    ones_loop m i d j = if i ≤ j ∧ j < i + m then some 1 else d j := by
  induction m generalizing i d with
  | zero =>
    have h : ¬ (i ≤ j ∧ j < i + 0) := by omega
    simp only [ones_loop, h, if_false]
  | succ m ih =>
    rw [ones_loop, ih]
    by_cases h1 : i + 1 ≤ j ∧ j < i + 1 + m
    · have h2 : i ≤ j ∧ j < i + (m + 1) := by omega
      rw [if_pos h1, if_pos h2]
    · rw [if_neg h1]
      by_cases h3 : j = i
      · subst h3
        have h2 : j ≤ j ∧ j < j + (m + 1) := by omega
        rw [if_pos h2, Function.update_same]
      · have h2 : ¬ (i ≤ j ∧ j < i + (m + 1)) := by omega
        rw [if_neg h2, Function.update_noteq h3]

/-- The loop that stores `1` from both ends succeeds and leaves `1` at the indices
`i .. i + m - 1` and at their mirror images, as long as it stays in the first half. -/
theorem fill_loop_ones (length : Nat) (hl : length < 2 ^ 32) (m i : Nat)
    (d : Nat → Option α) (hb : i + m ≤ (length + 1) / 2) :
    ∃ d1 : Nat → Option α,
      fill_loop length (fun _ => .ok 1) m i d = .ok d1 ∧
      ∀ j, d1 j = if (i ≤ j ∧ j < i + m) ∨
          (j < length ∧ i ≤ length - 1 - j ∧ length - 1 - j < i + m)
        then some 1 else d j := by
  have e32 : (2 : Nat) ^ 32 = 4294967296 := by decide
  rw [e32] at hl
  induction m generalizing i d with
  | zero =>
    refine ⟨d, rfl, fun j => ?_⟩
    have h : ¬ ((i ≤ j ∧ j < i + 0) ∨
        (j < length ∧ i ≤ length - 1 - j ∧ length - 1 - j < i + 0)) := by omega
    rw [if_neg h]
  | succ m ih =>
    have hidx : uint4 (length + 2 ^ 32 - 1 - i) = length - 1 - i := by
      simp only [uint4, e32]
      omega
    have hin : i < length ∧ length - 1 - i < length := by omega
    obtain ⟨d1, hd1, hval⟩ := ih (i + 1)
      (Function.update (Function.update d (length - 1 - i) (some 1)) i (some 1)) (by omega)
    refine ⟨d1, ?_, fun j => ?_⟩
    · rw [fill_loop]
      simp only [hidx, hin, and_self, if_true]
      exact hd1
    · rw [hval j]
      by_cases h1 : (i + 1 ≤ j ∧ j < i + 1 + m) ∨
          (j < length ∧ i + 1 ≤ length - 1 - j ∧ length - 1 - j < i + 1 + m)
      · have h2 : (i ≤ j ∧ j < i + (m + 1)) ∨
            (j < length ∧ i ≤ length - 1 - j ∧ length - 1 - j < i + (m + 1)) := by omega
        rw [if_pos h1, if_pos h2]
      · rw [if_neg h1]
        by_cases h3 : j = i
        · have h2 : (i ≤ j ∧ j < i + (m + 1)) ∨
              (j < length ∧ i ≤ length - 1 - j ∧ length - 1 - j < i + (m + 1)) := by omega
          rw [if_pos h2, h3, Function.update_same]
        · rw [Function.update_noteq h3]
          by_cases h4 : j = length - 1 - i
          · have h2 : (i ≤ j ∧ j < i + (m + 1)) ∨
                (j < length ∧ i ≤ length - 1 - j ∧ length - 1 - j < i + (m + 1)) := by omega
            rw [if_pos h2, h4, Function.update_same]
          · have h2 : ¬ ((i ≤ j ∧ j < i + (m + 1)) ∨
                (j < length ∧ i ≤ length - 1 - j ∧ length - 1 - j < i + (m + 1))) := by omega
            rw [if_neg h2, Function.update_noteq h4]

/-- The transition length for `beta = 0` is `0`. -/
theorem transition_length_zero [FloorRing α] (length : Nat) :
    uint4 ⌊(0 : α) * (length : α) + 1 / 2⌋.toNat = 0 := by
  have h : ⌊(0 : α) * (length : α) + 1 / 2⌋ = 0 := by
    rw [Int.floor_eq_iff]
    constructor <;> norm_num
  rw [h]
  rfl

/-- The transition length for `beta = 1` is `length`. -/
theorem transition_length_one [FloorRing α] (length : Nat) (hl : length < 2 ^ 32) :
    uint4 ⌊(1 : α) * (length : α) + 1 / 2⌋.toNat = length := by
  have h : ⌊(1 : α) * (length : α) + 1 / 2⌋ = (length : Int) := by
    rw [Int.floor_eq_iff]
    constructor
    · push_cast
      linarith
    · push_cast
      linarith
  rw [h, Int.toNat_ofNat, uint4]
  exact Nat.mod_eq_of_lt hl

/-- For every length below `2^32 - 1` the Tukey window with `beta = 0` is the rectangular
window. -/
theorem tukey_zero_eq_rectangular [FloorRing α] (cos : α → α) (LAL_PI_2 : α) (alloc : Bool)
    (length : Nat) (hl : length < 2 ^ 32 - 1) :
    XLALCreateTukeyREAL8Window cos LAL_PI_2 alloc length 0
      = XLALCreateRectangularREAL8Window alloc length := by
  have e32 : (2 : Nat) ^ 32 = 4294967296 := by decide
  rw [e32] at hl
  have hr : ¬ ((0 : α) < 0 ∨ (0 : α) > 1) := by
    intro h
    rcases h with h | h
    · exact lt_irrefl _ h
    · exact absurd h (not_lt.mpr zero_le_one)
  have h1 : uint4 (0 + 1) / 2 = 0 := by decide
  have h2 : uint4 (length + 1) / 2 = (length + 1) / 2 := by
    simp only [uint4, e32]
    omega
  cases alloc
  · simp only [XLALCreateTukeyREAL8Window, XLALCreateRectangularREAL8Window, REAL8WindowNew,
      hr, if_false, Bool.false_eq_true]
  · obtain ⟨d1, hd1, hval⟩ := fill_loop_ones length (by omega) ((length + 1) / 2) 0
      (fun _ => (none : Option α)) (by omega)
    simp only [XLALCreateTukeyREAL8Window, XLALCreateRectangularREAL8Window, REAL8WindowNew,
      hr, if_false, if_true, transition_length_zero, h1, h2, fill_loop, Nat.sub_zero, hd1]
    refine congrArg Except.ok (congrArg (REAL8Window.mk length) (funext fun j => ?_))
    rw [hval j, ones_loop_apply]
    by_cases hj : j < length
    · have a1 : (0 ≤ j ∧ j < 0 + (length + 1) / 2) ∨
          (j < length ∧ 0 ≤ length - 1 - j ∧ length - 1 - j < 0 + (length + 1) / 2) := by
        omega
      have a2 : 0 ≤ j ∧ j < 0 + length := by omega
      rw [if_pos a1, if_pos a2]
    · have a1 : ¬ ((0 ≤ j ∧ j < 0 + (length + 1) / 2) ∨
          (j < length ∧ 0 ≤ length - 1 - j ∧ length - 1 - j < 0 + (length + 1) / 2)) := by
        omega
      have a2 : ¬ (0 ≤ j ∧ j < 0 + length) := by omega
      rw [if_neg a1, if_neg a2]

/-- For every length the Tukey window with `beta = 1` is the Hann window. -/
theorem tukey_one_eq_hann [FloorRing α] (cos : α → α) (LAL_PI_2 : α) (alloc : Bool)
    (length : Nat) (hl : length < 2 ^ 32) :
    XLALCreateTukeyREAL8Window cos LAL_PI_2 alloc length 1
      = XLALCreateHannREAL8Window cos LAL_PI_2 alloc length := by
  have hr : ¬ ((1 : α) < 0 ∨ (1 : α) > 1) := by
    intro h
    rcases h with h | h
    · exact absurd h (not_lt.mpr zero_le_one)
    · exact lt_irrefl _ h
  cases alloc
  · simp only [XLALCreateTukeyREAL8Window, XLALCreateHannREAL8Window, REAL8WindowNew,
      hr, if_false, Bool.false_eq_true]
  · simp only [XLALCreateTukeyREAL8Window, XLALCreateHannREAL8Window, REAL8WindowNew,
      hr, if_false, if_true, transition_length_one length hl, Nat.sub_self]
    cases fill_loop length (hann_sample cos LAL_PI_2 length) (uint4 (length + 1) / 2) 0
      (fun _ => (none : Option α)) with
    | error e => rfl
    | ok d1 => rfl

/-- C16 at `length = 4294967295`, `beta = 0`: the bound `(length + 1) / 2` of both loops of
`XLALCreateTukeyREAL8Window` wraps to `0`, so no sample of the Tukey window is assigned,
while every sample of the rectangular window of that length is `1`. -/
theorem tukey_zero_max_length (cos : ℚ → ℚ) (LAL_PI_2 : ℚ) :
    uint4 (4294967295 + 1) / 2 = 0 ∧
    XLALCreateTukeyREAL8Window cos LAL_PI_2 true 4294967295 0
      = .ok ⟨4294967295, fun _ => none⟩ ∧
    XLALCreateRectangularREAL8Window true 4294967295
      = .ok ⟨4294967295, ones_loop 4294967295 0 (fun _ => (none : Option ℚ))⟩ ∧
    ∀ j, j < 4294967295 →
      ones_loop 4294967295 0 (fun _ => (none : Option ℚ)) j = some 1 := by
  have hr : ¬ ((0 : ℚ) < 0 ∨ (0 : ℚ) > 1) := by
    intro h
    rcases h with h | h
    · exact lt_irrefl _ h
    · exact absurd h (not_lt.mpr zero_le_one)
  have h1 : uint4 (0 + 1) / 2 = 0 := by decide
  have h2 : uint4 (4294967295 + 1) / 2 = 0 := by decide
  refine ⟨h2, ?_, rfl, fun j hj => ?_⟩
  · simp only [XLALCreateTukeyREAL8Window, REAL8WindowNew, hr, if_false, if_true,
      transition_length_zero, h1, h2, fill_loop]
  · rw [ones_loop_apply]
    have a : 0 ≤ j ∧ j < 0 + 4294967295 := by omega
    rw [if_pos a]

end WindowTheorems

end Window
